import Mathlib

/-!
Little Navmap map painter: geometry core.

A shallow embedding of the drawing routines of `src/mappainter/mappainter.cpp`
(`MapPainter::paintCircle`, `paintArc`, `drawLineString`, `drawLine`, ...).

Conventions of the embedding:

* C++ `float` values are rationals (`ℚ`); comparisons are the order of `ℚ`.
  The sums computed by `mappainter.cpp` itself whose rounding shows in the
  result are rounded to single precision (`roundToSingle`): the corrected
  latitudes of `drawLineString` and the counter and the end angle of the loop
  of `paintArc`.  Arithmetic inside collaborators, products with constants and
  the geometry of the symbol routines are exact.
* C++ `int` values are unbounded integers; `/` on `int` is truncating division
  (`Int.tdiv`).
* The painter is an event log (`List Event`).  Besides the calls made on the
  Marble painter the log records the entry of the routines of `MapPainter`
  that other routines call, together with their arguments.
* Everything that lives outside `mappainter.cpp` (projection, scale, geometry
  helpers of the `atools` library, Qt rectangle tests, constants of the header)
  is a field of `Env`.
* A routine containing a loop that C++ may never leave returns a flag
  `returned`; `returned = false` stands for a division by zero or an endless loop.
-/

namespace LittleNavmap

/-- Geographic position `atools::geo::Pos` (degrees). -/
structure Pos where
  lonX : ℚ
  latY : ℚ
deriving DecidableEq

/-- Two positions, `atools::geo::Line`. -/
structure Line where
  pos1 : Pos
  pos2 : Pos
deriving DecidableEq

/-- Integer screen point `QPoint`. -/
structure QPoint where
  x : Int
  y : Int
deriving DecidableEq

/-- Floating point screen point `QPointF`. -/
structure QPointF where
  x : ℚ
  y : ℚ
deriving DecidableEq

/-- Integer size `QSize`. -/
structure QSize where
  width : Int
  height : Int
deriving DecidableEq

/-- Outputs of `CoordinateConverter::wToS(pos, x, y, size, &hidden)`: the screen
coordinates, the returned visibility and the hidden flag. -/
structure ScreenPos where
  x : Int
  y : Int
  visible : Bool
  hidden : Bool
deriving DecidableEq

/-- Outputs of the floating point variant of `CoordinateConverter::wToS`. -/
structure ScreenPosF where
  x : ℚ
  y : ℚ
  visible : Bool
  hidden : Bool
deriving DecidableEq

/-- Margins `QMargins(left, top, right, bottom)`. -/
structure QMargins where
  left : Int
  top : Int
  right : Int
  bottom : Int
deriving DecidableEq

/-- Floating point rectangle `QRectF(x, y, width, height)`. -/
structure QRectF where
  x : ℚ
  y : ℚ
  width : ℚ
  height : ℚ
deriving DecidableEq

/-- Floating point line `QLineF(p1, p2)`. -/
structure QLineF where
  p1 : QPointF
  p2 : QPointF
deriving DecidableEq

/-- Colour `QColor`, by its value. -/
structure QColor where
  rgba : Nat
deriving DecidableEq

/-- Text `QString`, as the list of its code points. -/
abbrev QString := List Nat

/-- Geographic rectangle `atools::geo::Rect`. -/
structure Rect where
  topLeft : Pos
  bottomRight : Pos
deriving DecidableEq

/-- Label of a bearing line of an MSA diagram, the text
`tr("%1%2").arg(course).arg(trueBearing ? tr("°T") : tr("°M"))` by its two arguments. -/
structure BearingText where
  course : ℚ
  trueBearing : Bool
deriving DecidableEq

/-- The record `map::MapAirport`: the field `id` and, as one code, the other
fields, which `paintPriority` reads. -/
structure MapAirport where
  id : Int
  attributes : Nat
deriving DecidableEq

/-- The class `PaintAirportType`: the pointer `airport` (`none` for `nullptr`) and
the screen position `point`. -/
structure PaintAirportType where
  airport : Option MapAirport
  point : QPointF
deriving DecidableEq

/-- Entries of the event log. -/
inductive Event where
  /-- Entry of `paintCircleSmallInternal`. -/
  | paintCircleSmallInternal (centerPos : Pos) (radiusNm : ℚ) (fast : Bool)
  /-- Entry of `paintCircleLargeInternal`. -/
  | paintCircleLargeInternal (centerPos : Pos) (radiusNm : ℚ) (fast : Bool)
  /-- Entry of `drawLineString` (`radial = false`) or `drawLineStringRadial`. -/
  | drawLineString (radial : Bool) (linestring : List Pos)
  /-- Entry of `drawLine` (`radial = false`) or `drawLineRadial` at the given
  recursion depth. -/
  | drawLine (radial : Bool) (line : Line) (noRecurse : Bool) (depth : Nat)
  /-- Painter call `painter->drawPolyline(geoLineStr)`. -/
  | drawPolyline (coordinates : List Pos)
  /-- Painter call `painter->drawEllipse(pt, rx, ry)`. -/
  | drawEllipse (pt : QPoint) (rx : Int) (ry : Int)
  /-- Painter call `painter->drawPolygon(linearRing)` of `MapPainter::drawPolygon`. -/
  | drawPolygon (linearRing : List Pos)
  /-- Painter call `painter->drawText(QPointF(x, y), text)` for the altitude label
  `Unit::altFeet(altitude, true, true)`. -/
  | drawAltitudeText (x y : ℚ) (altitude : ℚ)
  /-- Call `textPlacement.calculateTextAlongLines(lines, texts)`. -/
  | calculateTextAlongLines (lines : List Line) (texts : List BearingText)
  /-- Call `textPlacement.drawTextAlongLines()`. -/
  | drawTextAlongLines
  /-- Painter call `painter->drawEllipse(pt, radius, radius)` of `MapPainter::drawCircle`. -/
  | drawEllipseF (pt : QPointF) (rx : ℚ) (ry : ℚ)
deriving DecidableEq

/-- Collaborators and constants used by `mappainter.cpp` but defined elsewhere. -/
structure Env where
  /-- Constant `atools::geo::EARTH_CIRCUMFERENCE_METER`. -/
  EARTH_CIRCUMFERENCE_METER : ℚ
  /-- Constant `CIRCLE_MIN_POINTS` of `mappainter.h`. -/
  CIRCLE_MIN_POINTS : Int
  /-- Constant `CIRCLE_MAX_POINTS` of `mappainter.h`. -/
  CIRCLE_MAX_POINTS : Int
  /-- Constant `DEFAULT_WTOS_SIZE` of the coordinate converter. -/
  DEFAULT_WTOS_SIZE : QSize
  /-- Field `context->zoomDistanceMeter`. -/
  zoomDistanceMeter : ℚ
  /-- Unit conversion `atools::geo::meterToNm`. -/
  meterToNm : ℚ → ℚ
  /-- Unit conversion `atools::geo::nmToMeter`. -/
  nmToMeter : ℚ → ℚ
  /-- Scale `scale->getPixelIntForMeter(meter)` with the default direction. -/
  getPixelIntForMeter : ℚ → Int
  /-- Scale `scale->getPixelIntForMeter(meter, directionDeg)`. -/
  getPixelIntForMeterDir : ℚ → ℚ → Int
  /-- Projection `wToS(pos, x, y, size, &hidden)`. -/
  wToS : Pos → QSize → ScreenPos
  /-- Projection `QPoint wToS(pos, size, &visible, &hidden)`. -/
  wToSPoint : Pos → QSize → ScreenPos
  /-- Geometry `Pos::endpoint(distanceMeter, angleDeg)`. -/
  endpoint : Pos → ℚ → ℚ → Pos
  /-- Angle helper `atools::geo::normalizeCourse`. -/
  normalizeCourse : ℚ → ℚ
  /-- Test `QRect(QPoint(x1, y1), QPoint(x2, y2)).normalized()` grown by one
  pixel on every side `.intersects(painter->viewport())`. -/
  segmentIntersectsViewport : Int → Int → Int → Int → Bool
  /-- Test `context->screenRect.intersects(QRect(x, y, w, h))`. -/
  screenRectIntersects : Int → Int → Int → Int → Bool
  /-- Test `context->screenRect.contains(x, y)`. -/
  screenRectContains : Int → Int → Bool
  /-- End point `p2()` of `QLineF(pt.x, pt.y, pt.x, pt.y - pixel)` after
  `setAngle(atools::geo::angleToQt(angle))`. -/
  octantP2 : QPoint → Int → Int → QPointF
  /-- Rounding `atools::roundToInt`. -/
  roundToInt : ℚ → Int
  /-- Rounding `QPointF::toPoint`. -/
  toPoint : QPointF → QPoint
  /-- Comparison `atools::almostEqual(float, float)`. -/
  almostEqual : ℚ → ℚ → Bool
  /-- Geometry `LineString::splitAtAntiMeridian`. -/
  splitAtAntiMeridian : List Pos → List Pos
  /-- Geometry `LineString::removeDuplicates`. -/
  removeDuplicates : List Pos → List Pos
  /-- Geometry `Line::lengthSimple`. -/
  lengthSimple : Line → ℚ
  /-- Geometry `Line::lengthMeter`. -/
  lengthMeter : Line → ℚ
  /-- Geometry `Line::interpolatePoints(distanceMeter, numPoints, positions)`:
  the positions appended to the output list. -/
  interpolatePoints : Line → ℚ → Int → List Pos
  /-- Geometry `Line::interpolatePointsRhumb(distanceMeter, numPoints, positions)`. -/
  interpolatePointsRhumb : Line → ℚ → Int → List Pos
  /-- Geometry `Line::isValid`. -/
  lineIsValid : Line → Bool
  /-- Geometry `Line::isPoint`. -/
  lineIsPoint : Line → Bool
  /-- Geometry `Line::crossesAntiMeridian`. -/
  lineCrossesAntiMeridian : Line → Bool
  /-- Geometry `Line::splitAtAntiMeridian`. -/
  lineSplitAtAntiMeridian : Line → List Line
  /-- Projection `wToS(pos, float& x, float& y, size, &hidden)` with floating
  point screen coordinates. -/
  wToSF : Pos → QSize → ScreenPosF
  /-- Test `context->screenRect.marginsAdded(margins).contains(x, y)`. -/
  screenRectMarginsAddedContains : QMargins → Int → Int → Bool
  /-- Scale `scale->getPixelForNm(nm)` with the default direction. -/
  getPixelForNm : ℚ → ℚ
  /-- Scale `scale->getPixelForNm(nm, directionDeg)`. -/
  getPixelForNmDir : ℚ → ℚ → ℚ
  /-- Scale `scale->getPixelForFeet(feet)`. -/
  getPixelForFeet : Int → ℚ
  /-- Unit conversion `atools::geo::nmToFeet`. -/
  nmToFeet : ℚ → ℚ
  /-- Colour `QColor::lighter(factor)`. -/
  lighter : QColor → Int → QColor
  /-- Font metrics `metrics.elidedText(text, Qt::ElideRight, width)`. -/
  elidedText : QString → Int → QString
  /-- Font metrics `metrics.width(str)`. -/
  fontWidth : QString → Int
  /-- Angle conversion `atools::geo::angleToQt`. -/
  angleToQt : ℚ → ℚ
  /-- Angle conversion `atools::geo::angleFromQt`. -/
  angleFromQt : ℚ → ℚ
  /-- Line `l` after `QLineF::setAngle(angle)`. -/
  lineSetAngle : QLineF → ℚ → QLineF
  /-- Angle `QLineF::angle()`. -/
  lineAngle : QLineF → ℚ
  /-- Intersection `QLineF::intersect(other, &point)`: the intersection point, or
  `none` for `QLineF::NoIntersection`. -/
  lineIntersect : QLineF → QLineF → Option QPointF
  /-- Square root `qSqrt`. -/
  sqrt : ℚ → ℚ
  /-- Geometry `atools::geo::arcFromPoints(line, center, left, &rect, &startAngle,
  &spanAngle)`: the three outputs. -/
  arcFromPoints : QLineF → QPointF → Bool → QRectF × ℚ × ℚ
  /-- Scale `scale->getScreeenSizeForRect(rect)`. -/
  getScreeenSizeForRect : Rect → QSize
  /-- Test `rect.overlaps(context->viewportRect)`. -/
  overlapsViewportRect : Rect → Bool
  /-- Result of `context->objCount()` when it has raised the object counter to
  the given value. -/
  objCountExceeded : Nat → Bool
  /-- Projection `wToSF(pos)`, a null point for an invisible position. -/
  wToSFPoint : Pos → QPointF
  /-- Size `painter->fontMetrics().boundingRect(text).size()` of the altitude
  label `Unit::altFeet(altitude, true, true)`: width and height. -/
  altitudeTextSize : ℚ → ℚ × ℚ
  /-- Default constructed `Pos()`, the result of `QVector::value(i)` out of range. -/
  defaultPos : Pos
  /-- Method `map::MapAirport::paintPriority(addon, emptyOptsFlag, empty3dOptsFlag)`. -/
  paintPriority : MapAirport → Bool → Bool → Bool → Int
  /-- Flag `context->objectTypes.testFlag(map::AIRPORT_ADDON)`. -/
  airportAddonFlag : Bool
  /-- Flag `OptionData::instance().getFlags2().testFlag(opts2::MAP_EMPTY_AIRPORTS_3D)`. -/
  emptyAirports3dFlag : Bool
  /-- Flag `OptionData::instance().getFlags().testFlag(opts::MAP_EMPTY_AIRPORTS)`. -/
  emptyAirportsFlag : Bool

/-! ## Single precision

Rounding of a `float` operation (IEEE 754 binary32: 24 bit significand, round
to nearest, ties to even, exponents from -126).  Overflow to infinity is not
modelled; the values considered stay far below it. -/

/-- Distance between the `float` values next to `x`. -/
def singleUlp (x : ℚ) : ℚ :=
  (2 : ℚ) ^ (max (Int.log 2 |x|) (-126) - 23)

/-- The integer nearest to `q`, the even one of two that are equally near. -/
def roundHalfEven (q : ℚ) : Int :=
  if q - ⌊q⌋ < 1 / 2 then ⌊q⌋
  else if q - ⌊q⌋ > 1 / 2 then ⌊q⌋ + 1
  else if ⌊q⌋ % 2 = 0 then ⌊q⌋
  else ⌊q⌋ + 1

/-- The `float` nearest to `x`, the result of a `float` operation whose exact
result is `x`. -/
def roundToSingle (x : ℚ) : ℚ :=
  roundHalfEven (x / singleUlp x) * singleUlp x

/-! ## Line strings -/

/-- Constant `LATY_CORRECTION = 0.00001f` of `drawLineString`: the `float` nearest
to 0.00001. -/
def LATY_CORRECTION : ℚ := 2748779 / 274877906944

/-- Remaining iterations of the latitude loop of `drawLineString`: `p1` is the
current value of `splitLines[i]`, the list holds `splitLines[i + 1 ..]`.  The
result is the final content of `splitLines[i ..]`. -/
def latitudeCorrectionFrom (env : Env) : Pos → List Pos → List Pos
  | p1, [] => [p1]
  | p1, p2 :: rest =>
    if env.almostEqual p1.latY p2.latY then
      { p1 with latY := roundToSingle (p1.latY + LATY_CORRECTION) } ::
        latitudeCorrectionFrom env
          { p2 with latY := roundToSingle (p2.latY - LATY_CORRECTION) } rest
    else
      p1 :: latitudeCorrectionFrom env p2 rest

/-- The loop `for(int i = 0; i < splitLines.size() - 1; i++)` of `drawLineString`
that moves near-equal latitudes of adjacent points apart, in place. -/
def latitudeCorrection (env : Env) : List Pos → List Pos
  | [] => []
  | p :: rest => latitudeCorrectionFrom env p rest

/-- Points `ls` contributed by one segment in the second loop of `drawLineString`;
`interpolate` is `Line::interpolatePoints` or `Line::interpolatePointsRhumb`. -/
def segmentPoints (env : Env) (interpolate : Line → ℚ → Int → List Pos) (line : Line) :
    List Pos :=
  if env.lengthSimple line > 30 then
    interpolate line (env.lengthMeter line) 20
  else if env.lengthSimple line > 5 then
    interpolate line (env.lengthMeter line) 5
  else
    [line.pos1]

/-- The lines `Line(splitLines.at(i), splitLines.at(i + 1))` visited by the loop
`for(int i = 0; i < splitLines.size() - 1; i++)`, in order. -/
def segments : List Pos → List Line
  | [] => []
  | [_] => []
  | p1 :: p2 :: rest => ⟨p1, p2⟩ :: segments (p2 :: rest)

/-- Coordinates streamed into `geoLineStr`: the points `ls` of every segment,
then `splitLines.constLast()`. -/
def geoLineStringCoordinates (env : Env) (interpolate : Line → ℚ → Int → List Pos)
    (splitLines : List Pos) : List Pos :=
  (segments splitLines).flatMap (segmentPoints env interpolate) ++ splitLines.getLast?.toList

/-- The variable `splitLines` of `drawLineString` after the latitude loop:
split at the anti-meridian, duplicates removed, latitudes corrected. -/
def splitLines (env : Env) (linestring : List Pos) : List Pos :=
  latitudeCorrection env (env.removeDuplicates (env.splitAtAntiMeridian linestring))

/-- Common body of `drawLineString` and `drawLineStringRadial` after the entry. -/
def drawLineStringBody (env : Env) (interpolate : Line → ℚ → Int → List Pos)
    (linestring : List Pos) : List Event :=
  if linestring.length < 2 then
    []
  else if !(splitLines env linestring).isEmpty then
    [Event.drawPolyline (geoLineStringCoordinates env interpolate (splitLines env linestring))]
  else
    []

/-- Embedding of `MapPainter::drawLineString`. -/
def drawLineString (env : Env) (linestring : List Pos) : List Event :=
  Event.drawLineString false linestring ::
    drawLineStringBody env env.interpolatePoints linestring

/-- Embedding of `MapPainter::drawLineStringRadial`. -/
def drawLineStringRadial (env : Env) (linestring : List Pos) : List Event :=
  Event.drawLineString true linestring ::
    drawLineStringBody env env.interpolatePointsRhumb linestring

/-- Measure of the recursion of `drawLine`: a call with `noRecurse` set makes no
further call. -/
def recursionBudget (noRecurse : Bool) : Nat := if noRecurse then 0 else 1

/-- Embedding of `MapPainter::drawLine(painter, line, noRecurse)`; `depth` is
the recursion depth of this call, recorded in the log. -/
def drawLine (env : Env) (line : Line) (noRecurse : Bool) (depth : Nat) : List Event :=
  Event.drawLine false line noRecurse depth ::
    (if env.lineIsValid line && !env.lineIsPoint line then
      if env.lineCrossesAntiMeridian line then
        if h : noRecurse = false then
          (env.lineSplitAtAntiMeridian line).flatMap
            (fun split => drawLine env split true (depth + 1))
        else
          []
      else
        drawLineString env [line.pos1, line.pos2]
    else
      [])
termination_by recursionBudget noRecurse
decreasing_by
  subst h
  decide

/-- Embedding of `MapPainter::drawLineRadial(painter, line, noRecurse)`. -/
def drawLineRadial (env : Env) (line : Line) (noRecurse : Bool) (depth : Nat) : List Event :=
  Event.drawLine true line noRecurse depth ::
    (if env.lineIsValid line && !env.lineIsPoint line then
      if env.lineCrossesAntiMeridian line then
        if h : noRecurse = false then
          (env.lineSplitAtAntiMeridian line).flatMap
            (fun split => drawLineRadial env split true (depth + 1))
        else
          []
      else
        drawLineStringRadial env [line.pos1, line.pos2]
    else
      [])
termination_by recursionBudget noRecurse
decreasing_by
  subst h
  decide

/-! ## Circles and arcs -/

/-- The expression
`std::min(std::max(pixel / (fast ? 20 : 2), CIRCLE_MIN_POINTS), CIRCLE_MAX_POINTS)`
of `paintArc` and `paintCircleLargeInternal`. -/
def numPoints (circleMinPoints circleMaxPoints pixel : Int) (fast : Bool) : Int :=
  min (max (Int.tdiv pixel (if fast then 20 else 2)) circleMinPoints) circleMaxPoints

/-- Result of a routine drawing a geographic arc: the event log and whether
the call returns. -/
structure ArcResult where
  events : List Event
  returned : Bool
deriving DecidableEq

/-- Result of a routine drawing a circle: the event log, the value behind the
`textPos` pointer after the call (`none` for `nullptr`) and whether the call
returns. -/
structure CircleResult where
  events : List Event
  textPos : Option QPoint
  returned : Bool
deriving DecidableEq

/-- Local variables of the sampling loops of `paintArc` and
`paintCircleLargeInternal`, together with the event log. -/
structure RingState where
  x1 : Int
  y1 : Int
  visible1 : Bool
  hidden1 : Bool
  p1 : Pos
  lastVisible : Bool
  ringVisible : Bool
  ellipse : List Pos
  xtexts : List Int
  ytexts : List Int
  events : List Event

/-- One pass through the body of the sampling loop for the segment from
`s.p1` to `p2`.  `collectTexts` is `textPos != nullptr` in
`paintCircleLargeInternal` and `false` in `paintArc`, whose loop has no
text position code. -/
def ringSegment (env : Env) (collectTexts : Bool) (p2 : Pos) (s : RingState) : RingState :=
  let sp2 := env.wToS p2 env.DEFAULT_WTOS_SIZE
  let nowVisible := env.segmentIntersectsViewport s.x1 s.y1 sp2.x sp2.y
  let ellipse1 := if s.lastVisible || nowVisible then s.ellipse ++ [s.p1] else s.ellipse
  let flush := s.lastVisible && !nowVisible
  let collect := (s.lastVisible || nowVisible) && collectTexts &&
    ((s.visible1 || sp2.visible) && !s.hidden1 && !sp2.hidden) && (s.visible1 && sp2.visible)
  { x1 := sp2.x
    y1 := sp2.y
    visible1 := sp2.visible
    hidden1 := sp2.hidden
    p1 := p2
    lastVisible := nowVisible
    ringVisible := if s.lastVisible || nowVisible then true else s.ringVisible
    ellipse := if flush then [] else ellipse1
    xtexts := if collect then s.xtexts ++ [Int.tdiv (s.x1 + sp2.x) 2] else s.xtexts
    ytexts := if collect then s.ytexts ++ [Int.tdiv (s.y1 + sp2.y) 2] else s.ytexts
    events := if flush then s.events ++ drawLineString env ellipse1 else s.events }

/-- The loop `for(int i = step; i <= 360; i += step)` of
`paintCircleLargeInternal`, started at `i`.  The flag of the result is `false`
when the loop is still running after `fuel` passes. -/
def circleLoop (env : Env) (centerPos : Pos) (radiusMeter : ℚ) (collectTexts : Bool)
    (step : Int) : Nat → Int → RingState → RingState × Bool
  | 0, i, s => (s, decide (¬ i ≤ 360))
  | fuel + 1, i, s =>
    if i ≤ 360 then
      circleLoop env centerPos radiusMeter collectTexts step fuel (i + step)
        (ringSegment env collectTexts (env.endpoint centerPos radiusMeter i) s)
    else
      (s, true)

/-- The loop `for(float angle = angleDegStart; angle <= angleDegEnd; angle += step)`
of `paintArc`, started at `angle`; the sum `angle + step` is rounded to `float`.
The flag of the result is `false` when the loop is still running after `fuel`
passes. -/
def arcLoop (env : Env) (centerPos : Pos) (radiusMeter : ℚ) (angleDegEnd : ℚ)
    (step : Int) : Nat → ℚ → RingState → RingState × Bool
  | 0, angle, s => (s, decide (¬ angle ≤ angleDegEnd))
  | fuel + 1, angle, s =>
    if angle ≤ angleDegEnd then
      arcLoop env centerPos radiusMeter angleDegEnd step fuel (roundToSingle (angle + step))
        (ringSegment env false
          (env.endpoint centerPos radiusMeter (env.normalizeCourse angle)) s)
    else
      (s, true)

/-- The number of passes after which the loop of `paintArc` counts as endless.
A pass of a run that ends moves `angle` up by at least half a degree, so a run
that ends takes no more passes than this. -/
def arcFuel (angleDegStart angleEnd : ℚ) : Nat :=
  2 * Int.toNat ⌊angleEnd - angleDegStart⌋ + 2

/-- Embedding of the geographic `MapPainter::paintArc(painter, centerPos, radiusNm,
angleDegStart, angleDegEnd, fast)`. -/
def paintArc (env : Env) (centerPos : Pos) (radiusNm angleDegStart angleDegEnd : ℚ)
    (fast : Bool) : ArcResult :=
  if radiusNm > env.EARTH_CIRCUMFERENCE_METER / 4 then
    ⟨[], true⟩
  else
    let pixel := env.getPixelIntForMeter (env.nmToMeter radiusNm)
    let n := numPoints env.CIRCLE_MIN_POINTS env.CIRCLE_MAX_POINTS pixel fast
    let radiusMeter := env.nmToMeter radiusNm
    if n = 0 then
      ⟨[], false⟩
    else
      let step := Int.tdiv 360 n
      let startPoint := env.endpoint centerPos radiusMeter angleDegStart
      let sp1 := env.wToS startPoint env.DEFAULT_WTOS_SIZE
      let angleEnd :=
        if angleDegEnd < angleDegStart then roundToSingle (angleDegEnd + 360) else angleDegEnd
      let init : RingState :=
        { x1 := sp1.x, y1 := sp1.y, visible1 := sp1.visible, hidden1 := sp1.hidden,
          p1 := startPoint, lastVisible := false, ringVisible := false, ellipse := [],
          xtexts := [], ytexts := [], events := [] }
      let r := arcLoop env centerPos radiusMeter angleEnd step
        (arcFuel angleDegStart angleEnd) angleDegStart init
      if !r.2 then
        ⟨r.1.events, false⟩
      else if r.1.ringVisible && !r.1.ellipse.isEmpty then
        ⟨r.1.events ++
          drawLineString env (r.1.ellipse ++ [env.endpoint centerPos radiusMeter angleEnd]),
          true⟩
      else
        ⟨r.1.events, true⟩

/-- The angles visited by `for(int angle = 0; angle <= 360; angle += 45)`. -/
def octantAngles : List Int := [0, 45, 90, 135, 180, 225, 270, 315, 360]

/-- Embedding of `MapPainter::paintCircleSmallInternal`. -/
def paintCircleSmallInternal (env : Env) (centerPos : Pos) (radiusNm : ℚ) (fast : Bool)
    (textPos : Option QPoint) : CircleResult :=
  let entry := Event.paintCircleSmallInternal centerPos radiusNm fast
  let pixel := env.getPixelIntForMeterDir (env.nmToMeter radiusNm) 0
  let sp := env.wToSPoint centerPos ⟨pixel * 3, pixel * 3⟩
  let pt : QPoint := ⟨sp.x, sp.y⟩
  if !sp.hidden then
    if env.screenRectIntersects (pt.x - pixel) (pt.y - pixel) (pixel * 2) (pixel * 2) then
      let textPos1 := textPos.map fun old =>
        octantAngles.foldl
          (fun tp angle =>
            let p2 := env.octantP2 pt pixel angle
            if env.screenRectContains (env.roundToInt p2.x) (env.roundToInt p2.y) then
              env.toPoint p2
            else
              tp)
          old
      ⟨[entry, Event.drawEllipse pt pixel pixel], textPos1, true⟩
    else
      ⟨[entry], textPos, true⟩
  else
    ⟨[entry], textPos, true⟩

/-- Embedding of `MapPainter::paintCircleLargeInternal`. -/
def paintCircleLargeInternal (env : Env) (centerPos : Pos) (radiusNm : ℚ) (fast : Bool)
    (textPos : Option QPoint) : CircleResult :=
  let entry := Event.paintCircleLargeInternal centerPos radiusNm fast
  let pixel := env.getPixelIntForMeter (env.nmToMeter radiusNm)
  let n := numPoints env.CIRCLE_MIN_POINTS env.CIRCLE_MAX_POINTS pixel fast
  let radiusMeter := env.nmToMeter radiusNm
  if n = 0 then
    ⟨[entry], textPos, false⟩
  else
    let step := Int.tdiv 360 n
    let textPos0 := textPos.map fun _ => (⟨0, 0⟩ : QPoint)
    let startPoint := env.endpoint centerPos radiusMeter 0
    let sp1 := env.wToS startPoint env.DEFAULT_WTOS_SIZE
    let init : RingState :=
      { x1 := sp1.x, y1 := sp1.y, visible1 := sp1.visible, hidden1 := sp1.hidden,
        p1 := startPoint, lastVisible := false, ringVisible := false, ellipse := [],
        xtexts := [], ytexts := [], events := [entry] }
    let r := circleLoop env centerPos radiusMeter textPos.isSome step 360 step init
    if !r.2 then
      ⟨r.1.events, textPos0, false⟩
    else if r.1.ringVisible then
      let events :=
        if !r.1.ellipse.isEmpty then
          r.1.events ++ drawLineString env (r.1.ellipse ++ [startPoint])
        else
          r.1.events
      match textPos0 with
      | none => ⟨events, none, true⟩
      | some _ =>
        if !r.1.xtexts.isEmpty && !r.1.ytexts.isEmpty then
          match r.1.xtexts[r.1.xtexts.length / 3]?, r.1.ytexts[r.1.ytexts.length / 3]? with
          | some x, some y => ⟨events, some ⟨x, y⟩, true⟩
          | _, _ => ⟨events, textPos0, false⟩
        else
          ⟨events, some ⟨0, 0⟩, true⟩
    else
      ⟨r.1.events, textPos0, true⟩

/-- Embedding of `MapPainter::paintCircle`. -/
def paintCircle (env : Env) (centerPos : Pos) (radiusNm : ℚ) (fast : Bool)
    (textPos : Option QPoint) : CircleResult :=
  if radiusNm > env.EARTH_CIRCUMFERENCE_METER / 4 then
    ⟨[], textPos, true⟩
  else if radiusNm < 1 ∨ env.meterToNm env.zoomDistanceMeter < 5 then
    paintCircleSmallInternal env centerPos radiusNm fast textPos
  else
    paintCircleLargeInternal env centerPos radiusNm fast textPos

/-- The function `clamp(v, lo, hi)` the specification uses for the point count:
`v` limited to the interval from `lo` to `hi`. -/
def clamp (v lo hi : Int) : Int :=
  if v < lo then lo else if hi < v then hi else v

/-! ## Reading the event log -/

/-- Entry of `paintCircleSmallInternal`. -/
def Event.isCircleSmall : Event → Bool
  | .paintCircleSmallInternal _ _ _ => true
  | _ => false

/-- Entry of `paintCircleLargeInternal`. -/
def Event.isCircleLarge : Event → Bool
  | .paintCircleLargeInternal _ _ _ => true
  | _ => false

/-- Calls made on the painter object. -/
def Event.isPainterCall : Event → Bool
  | .drawPolyline _ => true
  | .drawEllipse _ _ _ => true
  | _ => false

/-- Entries of `drawLine` and `drawLineRadial`. -/
def Event.isDrawLine : Event → Bool
  | .drawLine _ _ _ _ => true
  | _ => false

/-- Arguments and recursion depth of one call of `drawLine` or `drawLineRadial`. -/
structure DrawLineCall where
  radial : Bool
  line : Line
  noRecurse : Bool
  depth : Nat
deriving DecidableEq

/-- The calls of `drawLine` and `drawLineRadial` recorded in a log, in order. -/
def drawLineCalls (events : List Event) : List DrawLineCall :=
  events.filterMap fun e =>
    match e with
    | .drawLine radial line noRecurse depth => some ⟨radial, line, noRecurse, depth⟩
    | _ => none

/-- The polylines submitted to the painter, in order. -/
def polylines (events : List Event) : List (List Pos) :=
  events.filterMap fun e =>
    match e with
    | .drawPolyline coordinates => some coordinates
    | _ => none

/-! ## Buffered projection -/

/-- Outputs of `wToSBuf` with floating point coordinates: `x`, `y`, the value
behind the `hidden` pointer after the call (`none` for `nullptr`) and the
returned visibility. -/
structure BufResultF where
  x : ℚ
  y : ℚ
  hidden : Option Bool
  visible : Bool
deriving DecidableEq

/-- Outputs of `wToSBuf` with integer coordinates. -/
structure BufResult where
  x : Int
  y : Int
  hidden : Option Bool
  visible : Bool
deriving DecidableEq

/-- Embedding of `MapPainter::wToSBuf(coords, float& x, float& y, size, margins, hidden)`. -/
def wToSBufF (env : Env) (coords : Pos) (size : QSize) (margins : QMargins)
    (hidden : Option Bool) : BufResultF :=
  let base := env.wToSF coords size
  let hiddenOut := hidden.map fun _ => base.hidden
  if !base.visible && !base.hidden then
    ⟨base.x, base.y, hiddenOut,
      env.screenRectMarginsAddedContains margins (env.roundToInt base.x) (env.roundToInt base.y)⟩
  else
    ⟨base.x, base.y, hiddenOut, base.visible⟩

/-- Embedding of `MapPainter::wToSBuf(coords, int& x, int& y, size, margins, hidden)`. -/
def wToSBuf (env : Env) (coords : Pos) (size : QSize) (margins : QMargins)
    (hidden : Option Bool) : BufResult :=
  let r := wToSBufF env coords size margins hidden
  ⟨env.roundToInt r.x, env.roundToInt r.y, r.hidden, r.visible⟩

/-! ## Sampling loops as folds -/

/-- The values of `i` visited by `for(int i = step; i <= 360; i += step)` when
started at `i`, for at most `fuel` passes. -/
def circleAngles (step : Int) : Nat → Int → List Int
  | 0, _ => []
  | fuel + 1, i => if i ≤ 360 then i :: circleAngles step fuel (i + step) else []

/-- The values of `angle` visited by
`for(float angle = angleDegStart; angle <= angleDegEnd; angle += step)` when
started at `angle`, for at most `fuel` passes. -/
def arcAngles (angleDegEnd : ℚ) (step : Int) : Nat → ℚ → List ℚ
  | 0, _ => []
  | fuel + 1, angle =>
    if angle ≤ angleDegEnd then
      angle :: arcAngles angleDegEnd step fuel (roundToSingle (angle + step))
    else []

/-- The body of the sampling loop run for the points `p2` of a list, in order. -/
def ringFold (env : Env) (collectTexts : Bool) (points : List Pos) (s : RingState) : RingState :=
  points.foldl (fun state p2 => ringSegment env collectTexts p2 state) s

/-- The variable `step` of `paintCircleLargeInternal` and `paintArc`. -/
def circleStep (env : Env) (radiusNm : ℚ) (fast : Bool) : Int :=
  Int.tdiv 360
    (numPoints env.CIRCLE_MIN_POINTS env.CIRCLE_MAX_POINTS
      (env.getPixelIntForMeter (env.nmToMeter radiusNm)) fast)

/-- The start point of the circle, `centerPos.endpoint(radiusMeter, 0)`. -/
def circleStartPoint (env : Env) (centerPos : Pos) (radiusNm : ℚ) : Pos :=
  env.endpoint centerPos (env.nmToMeter radiusNm) 0

/-- The points `p2` sampled by the loop of `paintCircleLargeInternal`, in order. -/
def circleSamplePoints (env : Env) (centerPos : Pos) (radiusNm : ℚ) (fast : Bool) : List Pos :=
  (circleAngles (circleStep env radiusNm fast) 360 (circleStep env radiusNm fast)).map
    fun (i : Int) => env.endpoint centerPos (env.nmToMeter radiusNm) (i : ℚ)

/-! ## Text position candidates, as the specification describes them -/

/-- The candidates for the text position along the sample points `p2 :: rest`
that follow a point with screen position `sp1`: the integer midpoint of every
segment that belongs to a visible run (it or the segment before it intersects
the viewport, `lastVisible` telling this for the segment before) and whose two
end points are both visible and both not hidden; in order. -/
def textCandidatesFrom (env : Env) (sp1 : ScreenPos) (lastVisible : Bool) :
    List Pos → List QPoint
  | [] => []
  | p2 :: rest =>
    let sp2 := env.wToS p2 env.DEFAULT_WTOS_SIZE
    let nowVisible := env.segmentIntersectsViewport sp1.x sp1.y sp2.x sp2.y
    if (lastVisible || nowVisible) && (sp1.visible && sp2.visible) &&
        (!sp1.hidden && !sp2.hidden) then
      ⟨Int.tdiv (sp1.x + sp2.x) 2, Int.tdiv (sp1.y + sp2.y) 2⟩ ::
        textCandidatesFrom env sp2 nowVisible rest
    else
      textCandidatesFrom env sp2 nowVisible rest

/-- The state of the loop variables of `paintCircleLargeInternal` before the
first pass. -/
def circleInitState (env : Env) (centerPos : Pos) (radiusNm : ℚ) (fast : Bool) : RingState :=
  { x1 := (env.wToS (circleStartPoint env centerPos radiusNm) env.DEFAULT_WTOS_SIZE).x
    y1 := (env.wToS (circleStartPoint env centerPos radiusNm) env.DEFAULT_WTOS_SIZE).y
    visible1 := (env.wToS (circleStartPoint env centerPos radiusNm) env.DEFAULT_WTOS_SIZE).visible
    hidden1 := (env.wToS (circleStartPoint env centerPos radiusNm) env.DEFAULT_WTOS_SIZE).hidden
    p1 := circleStartPoint env centerPos radiusNm
    lastVisible := false
    ringVisible := false
    ellipse := []
    xtexts := []
    ytexts := []
    events := [Event.paintCircleLargeInternal centerPos radiusNm fast] }

/-- The statements of `paintCircleLargeInternal` after the loop, for the loop
variables `s` at the end of the loop; `textPos0` is the value behind `textPos`
at that point. -/
def circleFinish (env : Env) (startPoint : Pos) (textPos0 : Option QPoint) (s : RingState) :
    CircleResult :=
  if s.ringVisible then
    let events :=
      if !s.ellipse.isEmpty then
        s.events ++ drawLineString env (s.ellipse ++ [startPoint])
      else
        s.events
    match textPos0 with
    | none => ⟨events, none, true⟩
    | some _ =>
      if !s.xtexts.isEmpty && !s.ytexts.isEmpty then
        match s.xtexts[s.xtexts.length / 3]?, s.ytexts[s.ytexts.length / 3]? with
        | some x, some y => ⟨events, some ⟨x, y⟩, true⟩
        | _, _ => ⟨events, textPos0, false⟩
      else
        ⟨events, some ⟨0, 0⟩, true⟩
  else
    ⟨s.events, textPos0, true⟩

/-! ## Visible runs, as the specification describes them -/

/-- A segment of the sampled ring or arc: its two end points and whether its
screen rectangle intersects the viewport (`nowVisible`). -/
structure SampleSegment where
  p1 : Pos
  p2 : Pos
  visible : Bool
deriving DecidableEq

/-- The segments between consecutive sample points: from `p1`, whose screen
position is `sp1`, along the points of the list. -/
def sampleSegments (env : Env) (sp1 : ScreenPos) (p1 : Pos) : List Pos → List SampleSegment
  | [] => []
  | p2 :: rest =>
    ⟨p1, p2,
      env.segmentIntersectsViewport sp1.x sp1.y (env.wToS p2 env.DEFAULT_WTOS_SIZE).x
        (env.wToS p2 env.DEFAULT_WTOS_SIZE).y⟩ ::
      sampleSegments env (env.wToS p2 env.DEFAULT_WTOS_SIZE) p2 rest

/-- The maximal blocks of consecutive visible segments, in order. -/
def visibleBlocks : List SampleSegment → List (List SampleSegment)
  | [] => []
  | seg :: rest =>
    if seg.visible then
      (seg :: rest.takeWhile (fun t => t.visible)) ::
        visibleBlocks (rest.dropWhile (fun t => t.visible))
    else
      visibleBlocks rest
termination_by segs => segs.length
decreasing_by
  · exact Nat.lt_succ_of_le (List.dropWhile_sublist _).length_le
  · exact Nat.lt_succ_self _

/-- The runs the specification expects: for every maximal block of visible
segments the start points of its segments followed by the end point of its last
segment, the last point being `closing` instead for a block that reaches the
end of the loop. -/
def expectedRuns (closing : Pos) : List SampleSegment → List (List Pos)
  | [] => []
  | seg :: rest =>
    if seg.visible then
      ((seg :: rest.takeWhile (fun t => t.visible)).map SampleSegment.p1 ++
        [if (rest.dropWhile (fun t => t.visible)).isEmpty then closing
          else ((rest.takeWhile (fun t => t.visible)).getLast?.getD seg).p2]) ::
        expectedRuns closing (rest.dropWhile (fun t => t.visible))
    else
      expectedRuns closing rest
termination_by segs => segs.length
decreasing_by
  · exact Nat.lt_succ_of_le (List.dropWhile_sublist _).length_le
  · exact Nat.lt_succ_self _

/-- The number of places where a visible segment is followed by an invisible one. -/
def visibleToInvisible : List Bool → Nat
  | [] => 0
  | [_] => 0
  | a :: b :: rest => (if a && !b then 1 else 0) + visibleToInvisible (b :: rest)

/-- The run accumulation as a machine with the states idle (`lastVisible = false`)
and accumulating (`lastVisible = true`, `ellipse` holding the points so far):
the runs flushed along the segments and after the last one. -/
def machineRuns (closing : Pos) : List Pos → Bool → List SampleSegment → List (List Pos)
  | ellipse, lastVisible, [] => if lastVisible then [ellipse ++ [closing]] else []
  | ellipse, lastVisible, seg :: rest =>
    if seg.visible then
      machineRuns closing (ellipse ++ [seg.p1]) true rest
    else if lastVisible then
      (ellipse ++ [seg.p1]) :: machineRuns closing [] false rest
    else
      machineRuns closing [] false rest

/-- The line strings passed to `drawLineString` recorded in a log, in order. -/
def lineStringRuns (events : List Event) : List (List Pos) :=
  events.filterMap fun e =>
    match e with
    | .drawLineString false linestring => some linestring
    | _ => none

/-- The segments of the circle sampled by `paintCircleLargeInternal`. -/
def circleSegments (env : Env) (centerPos : Pos) (radiusNm : ℚ) (fast : Bool) :
    List SampleSegment :=
  sampleSegments env (env.wToS (circleStartPoint env centerPos radiusNm) env.DEFAULT_WTOS_SIZE)
    (circleStartPoint env centerPos radiusNm) (circleSamplePoints env centerPos radiusNm fast)

/-- The end angle of `paintArc` after `if(angleDegEnd < angleDegStart) angleDegEnd += 360.f`. -/
def arcAngleEnd (angleDegStart angleDegEnd : ℚ) : ℚ :=
  if angleDegEnd < angleDegStart then roundToSingle (angleDegEnd + 360) else angleDegEnd

/-- The start point of the arc, `centerPos.endpoint(radiusMeter, angleDegStart)`. -/
def arcStartPoint (env : Env) (centerPos : Pos) (radiusNm angleDegStart : ℚ) : Pos :=
  env.endpoint centerPos (env.nmToMeter radiusNm) angleDegStart

/-- The point `centerPos.endpoint(radiusMeter, angleDegEnd)` that closes the
last run of an arc. -/
def arcClosingPoint (env : Env) (centerPos : Pos) (radiusNm angleDegStart angleDegEnd : ℚ) :
    Pos :=
  env.endpoint centerPos (env.nmToMeter radiusNm) (arcAngleEnd angleDegStart angleDegEnd)

/-- The points `p2` sampled by the loop of `paintArc`, in order. -/
def arcSamplePoints (env : Env) (centerPos : Pos) (radiusNm angleDegStart angleDegEnd : ℚ)
    (fast : Bool) : List Pos :=
  (arcAngles (arcAngleEnd angleDegStart angleDegEnd) (circleStep env radiusNm fast)
    (arcFuel angleDegStart (arcAngleEnd angleDegStart angleDegEnd)) angleDegStart).map
    fun angle => env.endpoint centerPos (env.nmToMeter radiusNm) (env.normalizeCourse angle)

/-- The state of the loop variables of `paintArc` before the first pass. -/
def arcInitState (env : Env) (centerPos : Pos) (radiusNm angleDegStart : ℚ) : RingState :=
  { x1 := (env.wToS (arcStartPoint env centerPos radiusNm angleDegStart)
      env.DEFAULT_WTOS_SIZE).x
    y1 := (env.wToS (arcStartPoint env centerPos radiusNm angleDegStart)
      env.DEFAULT_WTOS_SIZE).y
    visible1 := (env.wToS (arcStartPoint env centerPos radiusNm angleDegStart)
      env.DEFAULT_WTOS_SIZE).visible
    hidden1 := (env.wToS (arcStartPoint env centerPos radiusNm angleDegStart)
      env.DEFAULT_WTOS_SIZE).hidden
    p1 := arcStartPoint env centerPos radiusNm angleDegStart
    lastVisible := false
    ringVisible := false
    ellipse := []
    xtexts := []
    ytexts := []
    events := [] }

/-- The segments of the arc sampled by `paintArc`. -/
def arcSegments (env : Env) (centerPos : Pos) (radiusNm angleDegStart angleDegEnd : ℚ)
    (fast : Bool) : List SampleSegment :=
  sampleSegments env
    (env.wToS (arcStartPoint env centerPos radiusNm angleDegStart) env.DEFAULT_WTOS_SIZE)
    (arcStartPoint env centerPos radiusNm angleDegStart)
    (arcSamplePoints env centerPos radiusNm angleDegStart angleDegEnd fast)

/-- What the specification says of the runs passed to `drawLineString` for the
sampled segments `segs`: there is one run per maximal block of consecutive
visible segments, in order; the run of a block of `k` segments has `k + 1`
points, none is empty; its points but the last are the start points of the
segments of the block, and its last point is the end point of the last segment
of the block, or `closing` for the block that reaches the end of the loop (see
`expectedRuns`); and the number of runs is the number of places where a visible
segment is followed by an invisible one, plus one iff the last segment is
visible. -/
def RunsMatchBlocks (closing : Pos) (segs : List SampleSegment) (runs : List (List Pos)) :
    Prop :=
  runs = expectedRuns closing segs ∧
  runs.length = (visibleBlocks segs).length ∧
  runs.map List.length = (visibleBlocks segs).map (fun block => block.length + 1) ∧
  runs.map List.dropLast = (visibleBlocks segs).map (fun block => block.map SampleSegment.p1) ∧
  (∀ run ∈ runs, run ≠ []) ∧
  runs.length = visibleToInvisible (segs.map SampleSegment.visible) +
    (if (segs.map SampleSegment.visible).getLast? = some true then 1 else 0)

/-! ## The painter of the symbol routines

`paintHoldWithText` and `paintProcedureTurnWithText` draw on a `QPainter`.  The
painter is a state: the world transformation as the list of the steps applied
since the identity, the pen, the stack of saved states, and the log of all
calls.  Brush, background and font are written but never read by the two
routines and appear in the log only. -/

/-- One step of the world transformation of a painter. -/
inductive TransformStep where
  | translate (dx dy : ℚ)
  | rotate (angle : ℚ)
deriving DecidableEq

/-- Pen `QPen`: colour, width and whether the pen was given a square cap and a
miter join. -/
structure QPen where
  color : QColor
  widthF : ℚ
  squareCapMiterJoin : Bool
deriving DecidableEq

/-- Element of a `QPainterPath`. -/
inductive PathElement where
  | arcTo (rect : QRectF) (startAngle sweepLength : ℚ)
  | closeSubpath
deriving DecidableEq

/-- Calls made on a `QPainter`. -/
inductive PainterCall where
  | translate (dx dy : ℚ)
  | rotate (angle : ℚ)
  | resetTransform
  | save
  | restore
  | setPen (pen : QPen)
  | setBrush (color : QColor)
  | setBackgroundMode (filled : Bool)
  | setBackground (color : QColor)
  | drawPath (path : List PathElement)
  | drawPolygon (points : List QPointF)
  | drawText (x y : Int) (str : QString)
  | drawLine (p1 p2 : QPointF)
  | drawArc (rect : QRectF) (startAngle spanAngle : Int)
deriving DecidableEq

/-- The part of the painter state that `save` puts on the stack. -/
structure SavedState where
  transform : List TransformStep
  pen : QPen
deriving DecidableEq

/-- State of a `QPainter`. -/
structure QPainterState where
  transform : List TransformStep
  pen : QPen
  saved : List SavedState
  calls : List PainterCall
deriving DecidableEq

/-- Call `painter->translate(dx, dy)`. -/
def QPainterState.translate (p : QPainterState) (dx dy : ℚ) : QPainterState :=
  { p with transform := p.transform ++ [TransformStep.translate dx dy]
           calls := p.calls ++ [PainterCall.translate dx dy] }

/-- Call `painter->rotate(angle)`. -/
def QPainterState.rotate (p : QPainterState) (angle : ℚ) : QPainterState :=
  { p with transform := p.transform ++ [TransformStep.rotate angle]
           calls := p.calls ++ [PainterCall.rotate angle] }

/-- Call `painter->resetTransform()`. -/
def QPainterState.resetTransform (p : QPainterState) : QPainterState :=
  { p with transform := [], calls := p.calls ++ [PainterCall.resetTransform] }

/-- Call `painter->save()`. -/
def QPainterState.save (p : QPainterState) : QPainterState :=
  { p with saved := ⟨p.transform, p.pen⟩ :: p.saved, calls := p.calls ++ [PainterCall.save] }

/-- Call `painter->restore()`; without a saved state Qt warns and changes nothing. -/
def QPainterState.restore (p : QPainterState) : QPainterState :=
  match p.saved with
  | [] => { p with calls := p.calls ++ [PainterCall.restore] }
  | top :: rest =>
    { transform := top.transform, pen := top.pen, saved := rest,
      calls := p.calls ++ [PainterCall.restore] }

/-- Call `painter->setPen(pen)`. -/
def QPainterState.setPen (p : QPainterState) (pen : QPen) : QPainterState :=
  { p with pen := pen, calls := p.calls ++ [PainterCall.setPen pen] }

/-- A call that changes neither transformation, pen nor stack. -/
def QPainterState.call (p : QPainterState) (c : PainterCall) : QPainterState :=
  { p with calls := p.calls ++ [c] }

/-- Colour `Qt::transparent`. -/
def transparentColor : QColor := ⟨0⟩

/-- Pen `QPen(color)` as set by `painter->setPen(color)`: width 1. -/
def colorPen (color : QColor) : QPen := ⟨color, 1, false⟩

/-- Horizontal extent `dx()` of a line. -/
def QLineF.dx (l : QLineF) : ℚ := l.p2.x - l.p1.x

/-- Vertical extent `dy()` of a line. -/
def QLineF.dy (l : QLineF) : ℚ := l.p2.y - l.p1.y

/-- Point `QLineF::pointAt(t)`. -/
def QLineF.pointAt (l : QLineF) (t : ℚ) : QPointF :=
  ⟨l.p1.x + l.dx * t, l.p1.y + l.dy * t⟩

/-- Polygon `QPolygonF::translated(offset)`. -/
def translated (polygon : List QPointF) (offset : QPointF) : List QPointF :=
  polygon.map fun pt => ⟨pt.x + offset.x, pt.y + offset.y⟩

/-- Embedding of `MapPainter::buildArrow(size, downwards)`. -/
def buildArrow (size : ℚ) (downwards : Bool) : List QPointF :=
  if downwards then
    [⟨0, size⟩, ⟨size, -size⟩, ⟨0, -size / 2⟩, ⟨-size, -size⟩]
  else
    [⟨0, -size⟩, ⟨size, size⟩, ⟨0, size / 2⟩, ⟨-size, size⟩]

/-! ## Holding pattern -/

/-- The variable `segmentLength` of `paintHoldWithText`. -/
def holdSegmentLength (lengthNm minutes : ℚ) : ℚ :=
  if minutes > 0 then
    minutes * (7 / 2)
  else if lengthNm > 0 then
    lengthNm
  else
    7 / 2

/-- The variable `path` of `paintHoldWithText` for a leg of `pixel` pixels. -/
def holdPath (pixel : ℚ) (left : Bool) : List PathElement :=
  if !left then
    [PathElement.arcTo ⟨0, -pixel * (1 / 4), pixel * (1 / 2), pixel * (1 / 2)⟩ 180 (-180),
      PathElement.arcTo ⟨0, 0 + pixel * (3 / 4), pixel * (1 / 2), pixel * (1 / 2)⟩ 0 (-180),
      PathElement.closeSubpath]
  else
    [PathElement.arcTo ⟨-pixel * (1 / 2), -pixel * (1 / 4), pixel * (1 / 2), pixel * (1 / 2)⟩
        0 180,
      PathElement.arcTo ⟨-pixel * (1 / 2), 0 + pixel * (3 / 4), pixel * (1 / 2), pixel * (1 / 2)⟩
        180 180,
      PathElement.closeSubpath]

/-- The block `if(!inboundArrows.isEmpty() || !outboundArrows.isEmpty())` of
`paintHoldWithText`. -/
def holdArrows (env : Env) (pixel : ℚ) (left : Bool) (inboundArrows outboundArrows : List ℚ)
    (p : QPainterState) : QPainterState :=
  if !inboundArrows.isEmpty || !outboundArrows.isEmpty then
    let p1 := p.save
    let arrowSize := p1.pen.widthF * (23 / 10)
    let p2 := p1.call (PainterCall.setBrush (env.lighter p1.pen.color 300))
    let p3 := p2.setPen ⟨p2.pen.color, p2.pen.widthF * (66 / 100), false⟩
    let p4 :=
      if !inboundArrows.isEmpty then
        inboundArrows.foldl
          (fun q pos =>
            q.call (PainterCall.drawPolygon
              (translated (buildArrow arrowSize false)
                (QLineF.pointAt ⟨⟨0, pixel⟩, ⟨0, 0⟩⟩ pos))))
          p3
      else
        p3
    let p5 :=
      if !outboundArrows.isEmpty then
        let leftScale : ℚ := if left then -1 else 1
        outboundArrows.foldl
          (fun q pos =>
            q.call (PainterCall.drawPolygon
              (translated (buildArrow arrowSize true)
                (QLineF.pointAt
                  ⟨⟨pixel * (1 / 2) * leftScale, 0⟩, ⟨pixel * (1 / 2) * leftScale, pixel⟩⟩
                  pos))))
          p4
      else
        p4
    p5.restore
  else
    p

/-- The block `if(!text.isEmpty() || !text2.isEmpty())` of `paintHoldWithText`. -/
def holdTexts (env : Env) (pixel direction : ℚ) (left : Bool) (text text2 : QString)
    (textColor textColorBackground : QColor) (p : QPainterState) : QPainterState :=
  if !text.isEmpty || !text2.isEmpty then
    let lineWidth := p.pen.widthF
    let p1 := p.translate 0 (pixel / 2)
    let p2 := p1.rotate (if direction < 180 then 270 else 90)
    let p3 := p2.save
    let p4 := p3.setPen (colorPen textColor)
    let p5 := p4.call (PainterCall.setBrush textColorBackground)
    let p6 := p5.call (PainterCall.setBackgroundMode true)
    let p7 := p6.call (PainterCall.setBackground textColorBackground)
    let p8 :=
      if !text.isEmpty then
        let str := env.elidedText text (env.roundToInt pixel)
        let w1 := env.fontWidth str
        p7.call (PainterCall.drawText (Int.tdiv (-w1) 2) (env.roundToInt (-lineWidth - 3)) str)
      else
        p7
    let p9 :=
      if !text2.isEmpty then
        let str := env.elidedText text2 (env.roundToInt pixel)
        let w2 := env.fontWidth str
        let p81 :=
          if direction < 180 then
            p8.translate 0 (if left then -pixel / 2 else pixel / 2)
          else
            p8.translate 0 (if left then pixel / 2 else -pixel / 2)
        p81.call (PainterCall.drawText (Int.tdiv (-w2) 2) (env.roundToInt (-lineWidth - 3)) str)
      else
        p8
    p9.restore
  else
    p

/-- Embedding of `MapPainter::paintHoldWithText`: the painter after the call. -/
def paintHoldWithText (env : Env) (painter : QPainterState) (x y direction lengthNm minutes : ℚ)
    (left : Bool) (text text2 : QString) (textColor textColorBackground : QColor)
    (inboundArrows outboundArrows : List ℚ) : QPainterState :=
  let segmentLength := holdSegmentLength lengthNm minutes
  let pixel := env.getPixelForNm segmentLength
  let path := holdPath pixel left
  let p1 := painter.translate x y
  let p2 := p1.rotate direction
  let p3 := p2.call (PainterCall.setBrush transparentColor)
  let p4 := p3.call (PainterCall.drawPath path)
  let p5 := holdArrows env pixel left inboundArrows outboundArrows p4
  let p6 := holdTexts env pixel direction left text text2 textColor textColorBackground p5
  p6.resetTransform

/-- The calls a routine added to the log of the painter. -/
def callsAdded (before after : QPainterState) : List PainterCall :=
  after.calls.drop before.calls.length

/-! ## Procedure turn -/

/-- Length `QLineF::length()`. -/
def QLineF.length (env : Env) (l : QLineF) : ℚ :=
  env.sqrt (l.dx * l.dx + l.dy * l.dy)

/-- Data members of `ElevationProvider`. -/
structure ElevationProvider where
  marbleModel : Option Nat := none
  globeReader : Option Nat := none
  warnWrongGlobePath : Bool := false
  warnOpenFiles : Bool := false
  startup : Bool := false
deriving DecidableEq

/-- Embedding of `ElevationProvider::isValid`. -/
def ElevationProvider.isValid (isGlobeOfflineProvider : ElevationProvider → Bool)
    (provider : ElevationProvider) : Bool :=
  isGlobeOfflineProvider provider || provider.marbleModel != none

/-! ## Airport paint order -/

/-- Constructor `PaintAirportType(ap, x, y)`: the entry owns a copy of the airport. -/
def PaintAirportType.new (ap : MapAirport) (x y : ℚ) : PaintAirportType :=
  ⟨some ap, ⟨x, y⟩⟩

/-- Embedding of `MapPainter::sortAirportFunction`; no result when one of the two
`airport` pointers is `nullptr`, which the code dereferences. -/
def sortAirportFunction (env : Env) (pap1 pap2 : PaintAirportType) : Option Bool :=
  let addonFlag := env.airportAddonFlag
  let empty3dFlag := env.emptyAirports3dFlag
  let emptyFlag := env.emptyAirportsFlag
  match pap1.airport, pap2.airport with
  | some airport1, some airport2 =>
    let priority1 := env.paintPriority airport1 addonFlag emptyFlag empty3dFlag
    let priority2 := env.paintPriority airport2 addonFlag emptyFlag empty3dFlag
    if priority1 = priority2 then
      some (decide (airport1.id < airport2.id))
    else
      some (decide (priority1 < priority2))
  | _, _ => none

/-- The pair (paint priority, airport id) of an airport for the flags of the
environment. -/
def airportSortKey (env : Env) (airport : MapAirport) : Int × Int :=
  (env.paintPriority airport env.airportAddonFlag env.emptyAirportsFlag env.emptyAirports3dFlag,
    airport.id)

/-! ## Angular step

The counter `i` of the loop of `paintCircleLargeInternal` is an `int` that stays
below 721. -/

/-- The variable `step`, `360 / numPoints`, of `paintArc` and
`paintCircleLargeInternal` for a pixel radius. -/
def angleStep (circleMinPoints circleMaxPoints pixel : Int) (fast : Bool) : Int :=
  Int.tdiv 360 (numPoints circleMinPoints circleMaxPoints pixel fast)

/-! ## A concrete environment

Sample collaborators used to run the routines on concrete inputs: a flat map
with ten pixels per degree on which everything is visible. -/

/-- Modelled from the spec: `LineString::removeDuplicates` of the atools library
is not under `src/`; the specification says that consecutive duplicate points
are removed. -/
def removeConsecutiveDuplicates : List Pos → List Pos
  | [] => []
  | [p] => [p]
  | p1 :: p2 :: rest =>
    if p1 = p2 then removeConsecutiveDuplicates (p2 :: rest)
    else p1 :: removeConsecutiveDuplicates (p2 :: rest)

/-- Manhattan distance in degrees between the ends of a line, the reading the
specification gives of `Line::lengthSimple`. -/
def manhattanLength (line : Line) : ℚ :=
  |line.pos2.lonX - line.pos1.lonX| + |line.pos2.latY - line.pos1.latY|

/-- Sample interpolation: `n` evenly spaced points starting at the first end of
the line, the second end excluded. -/
def linearPoints (line : Line) (n : Int) : List Pos :=
  (List.range n.toNat).map fun k =>
    ⟨line.pos1.lonX + (line.pos2.lonX - line.pos1.lonX) * k / n,
     line.pos1.latY + (line.pos2.latY - line.pos1.latY) * k / n⟩

/-- Sum of the horizontal and the vertical extent of a screen line; its length
when the line is parallel to an axis. -/
def manhattanLengthF (l : QLineF) : ℚ :=
  |l.p2.x - l.p1.x| + |l.p2.y - l.p1.y|

/-- Sample environment.  The circumference is the equatorial one in metres, a
nautical mile has 1852 metres, the zoom distance is exactly 5 nm, one pixel
covers 1000 metres and lines never come near the anti-meridian.  For the symbol
routines a nautical mile has 6076 feet and 100 pixels; screen lines can be
turned to the four directions of the axes, other angles leave a line as it is,
and only lines parallel to different axes intersect. -/
def demoEnv : Env where
  EARTH_CIRCUMFERENCE_METER := 40075017
  CIRCLE_MIN_POINTS := 16
  CIRCLE_MAX_POINTS := 72
  DEFAULT_WTOS_SIZE := ⟨100, 100⟩
  zoomDistanceMeter := 9260
  meterToNm := fun m => m / 1852
  nmToMeter := fun nm => nm * 1852
  getPixelIntForMeter := fun m => ⌊m / 1000⌋
  getPixelIntForMeterDir := fun m _ => ⌊m / 1000⌋
  wToS := fun p _ => ⟨⌊p.lonX * 10⌋, ⌊-p.latY * 10⌋, true, false⟩
  wToSPoint := fun p _ => ⟨⌊p.lonX * 10⌋, ⌊-p.latY * 10⌋, true, false⟩
  endpoint := fun c d a => ⟨c.lonX + a / 10, c.latY + d / 1000000⟩
  normalizeCourse := fun a => a
  segmentIntersectsViewport := fun _ _ _ _ => true
  screenRectIntersects := fun _ _ _ _ => true
  screenRectContains := fun _ _ => true
  octantP2 := fun pt pixel angle => ⟨pt.x + angle, pt.y - pixel⟩
  roundToInt := fun q => ⌊q + 1 / 2⌋
  toPoint := fun p => ⟨⌊p.x + 1 / 2⌋, ⌊p.y + 1 / 2⌋⟩
  almostEqual := fun a b => decide (|a - b| ≤ 1 / 8388608)
  splitAtAntiMeridian := fun ls => ls
  removeDuplicates := removeConsecutiveDuplicates
  lengthSimple := manhattanLength
  lengthMeter := fun line => manhattanLength line * 111120
  interpolatePoints := fun line _ n => linearPoints line n
  interpolatePointsRhumb := fun line _ n => linearPoints line n
  lineIsValid := fun _ => true
  lineIsPoint := fun line => decide (line.pos1 = line.pos2)
  lineCrossesAntiMeridian := fun line => decide (180 < |line.pos2.lonX - line.pos1.lonX|)
  lineSplitAtAntiMeridian := fun line =>
    if line.pos1.lonX < line.pos2.lonX then
      [⟨line.pos1, ⟨-180, line.pos1.latY⟩⟩, ⟨⟨180, line.pos2.latY⟩, line.pos2⟩]
    else
      [⟨line.pos1, ⟨180, line.pos1.latY⟩⟩, ⟨⟨-180, line.pos2.latY⟩, line.pos2⟩]
  wToSF := fun p _ =>
    ⟨p.lonX * 10, -p.latY * 10,
      decide (0 ≤ p.lonX ∧ p.lonX < 100 ∧ -80 < p.latY ∧ p.latY ≤ 0),
      decide (120 < |p.lonX|)⟩
  screenRectMarginsAddedContains := fun m x y =>
    decide (-m.left ≤ x ∧ x ≤ 999 + m.right ∧ -m.top ≤ y ∧ y ≤ 799 + m.bottom)
  getPixelForNm := fun nm => nm * 100
  getPixelForNmDir := fun nm _ => nm * 100
  getPixelForFeet := fun feet => feet * 100 / 6076
  nmToFeet := fun nm => nm * 6076
  lighter := fun c _ => c
  elidedText := fun text width => text.take (width / 8).toNat
  fontWidth := fun str => 8 * str.length
  angleToQt := fun a => 90 - a
  angleFromQt := fun a => 90 - a
  lineSetAngle := fun l angle =>
    if angle = 0 then ⟨l.p1, ⟨l.p1.x + manhattanLengthF l, l.p1.y⟩⟩
    else if angle = 90 then ⟨l.p1, ⟨l.p1.x, l.p1.y - manhattanLengthF l⟩⟩
    else if angle = 180 then ⟨l.p1, ⟨l.p1.x - manhattanLengthF l, l.p1.y⟩⟩
    else if angle = 270 then ⟨l.p1, ⟨l.p1.x, l.p1.y + manhattanLengthF l⟩⟩
    else l
  lineAngle := fun l =>
    if l.p1.y = l.p2.y then (if l.p1.x ≤ l.p2.x then 0 else 180)
    else (if l.p2.y < l.p1.y then 90 else 270)
  lineIntersect := fun a b =>
    if a.p1.y = a.p2.y ∧ b.p1.x = b.p2.x ∧ a.p1.x ≠ a.p2.x ∧ b.p1.y ≠ b.p2.y then
      some ⟨b.p1.x, a.p1.y⟩
    else if a.p1.x = a.p2.x ∧ b.p1.y = b.p2.y ∧ a.p1.y ≠ a.p2.y ∧ b.p1.x ≠ b.p2.x then
      some ⟨a.p1.x, b.p1.y⟩
    else none
  sqrt := Rat.sqrt
  arcFromPoints := fun l center _ =>
    (⟨center.x - 1, center.y - 1, 2, 2⟩, l.p1.x, l.p2.x)
  getScreeenSizeForRect := fun _ => ⟨100, 100⟩
  overlapsViewportRect := fun _ => true
  objCountExceeded := fun n => decide (8000 ≤ n)
  wToSFPoint := fun p => ⟨p.lonX * 10, -p.latY * 10⟩
  altitudeTextSize := fun _ => (40, 12)
  defaultPos := ⟨0, 0⟩
  paintPriority := fun airport addon emptyOptsFlag empty3dOptsFlag =>
    if addon && decide (airport.attributes % 2 = 1) then 10
    else if (emptyOptsFlag || empty3dOptsFlag) && decide (airport.attributes = 0) then 0
    else (airport.attributes : Int) / 2 + 1
  airportAddonFlag := true
  emptyAirports3dFlag := false
  emptyAirportsFlag := true

/-- The sample environment zoomed in to a distance of 1 nm. -/
def demoEnvNear : Env := { demoEnv with zoomDistanceMeter := 1852 }

/-! ## Single precision rounding -/

/-- The exponent of a number in the binade of `2 ^ e`. -/
theorem log_of_binade (x : ℚ) (e : Int) (h1 : (2 : ℚ) ^ e ≤ |x|)
    (h2 : |x| < (2 : ℚ) ^ (e + 1)) : Int.log 2 |x| = e := by
  have hpos : 0 < |x| := lt_of_lt_of_le (by positivity) h1
  have ha : e ≤ Int.log 2 |x| :=
    (Int.zpow_le_iff_le_log (by norm_num) hpos).1 (by exact_mod_cast h1)
  have hb : Int.log 2 |x| < e + 1 :=
    (Int.lt_zpow_iff_log_lt (by norm_num) hpos).1 (by exact_mod_cast h2)
  omega

/-- An integer is its own nearest integer. -/
theorem roundHalfEven_intCast (n : Int) : roundHalfEven (n : ℚ) = n := by
  unfold roundHalfEven
  simp

/-- A number less than one half above an integer is rounded down to it. -/
theorem roundHalfEven_of_lt_half (q : ℚ) (f : Int) (h1 : (f : ℚ) ≤ q) (h2 : q < f + 1 / 2) :
    roundHalfEven q = f := by
  have hf : ⌊q⌋ = f := by
    rw [Int.floor_eq_iff]
    constructor
    · exact h1
    · linarith
  unfold roundHalfEven
  rw [hf, if_pos (by linarith)]

/-- Neighbouring `float` values around 2^34 are 2048 apart: adding a step of at
most 360 to 2^34 gives 2^34 again. -/
theorem roundToSingle_absorbs (step : Int) (h0 : 0 ≤ step) (h1 : step ≤ 360) :
    roundToSingle (17179869184 + step) = 17179869184 := by
  have hs0 : (0 : ℚ) ≤ step := by exact_mod_cast h0
  have hs1 : (step : ℚ) ≤ 360 := by exact_mod_cast h1
  have habs : |(17179869184 + step : ℚ)| = 17179869184 + step := abs_of_nonneg (by linarith)
  have hlog : Int.log 2 |(17179869184 + step : ℚ)| = 34 := by
    apply log_of_binade
    · rw [habs]; norm_num; linarith
    · rw [habs]; norm_num; linarith
  have hulp : singleUlp (17179869184 + step) = 2048 := by
    unfold singleUlp
    rw [hlog]
    norm_num
  unfold roundToSingle
  rw [hulp, roundHalfEven_of_lt_half _ 8388608]
  · norm_num
  · push_cast
    rw [le_div_iff₀ (by norm_num)]
    linarith
  · push_cast
    rw [div_lt_iff₀ (by norm_num)]
    linarith

/-- Every integer of magnitude below 2^24 is a `float`. -/
theorem roundToSingle_intCast (n : Int) (h : |n| < 16777216) : roundToSingle (n : ℚ) = n := by
  by_cases hn : n = 0
  · subst hn
    unfold roundToSingle singleUlp
    simp [Int.log_zero_right, roundHalfEven]
  · have hpos : (1 : ℚ) ≤ |(n : ℚ)| := by
      have : 1 ≤ |n| := Int.one_le_abs hn
      exact_mod_cast this
    have hlt : |(n : ℚ)| < 16777216 := by exact_mod_cast h
    have h0 : 0 ≤ Int.log 2 |(n : ℚ)| :=
      (Int.zpow_le_iff_le_log (by norm_num) (by linarith)).1 (by simpa using hpos)
    have h23 : Int.log 2 |(n : ℚ)| < 24 :=
      (Int.lt_zpow_iff_log_lt (by norm_num) (by linarith)).1 (by norm_num; exact hlt)
    obtain ⟨k, hk⟩ : ∃ k : Nat, Int.log 2 |(n : ℚ)| = 23 - k :=
      ⟨(23 - Int.log 2 |(n : ℚ)|).toNat, by omega⟩
    have hulp : singleUlp (n : ℚ) = ((2 : ℚ) ^ k)⁻¹ := by
      unfold singleUlp
      rw [hk, max_eq_left (by omega)]
      have : (23 - (k : Int) - 23) = -(k : Int) := by ring
      rw [this, zpow_neg, zpow_natCast]
    unfold roundToSingle
    rw [hulp]
    have hq : (n : ℚ) / ((2 : ℚ) ^ k)⁻¹ = ((n * 2 ^ k : Int) : ℚ) := by
      push_cast
      rw [div_inv_eq_mul]
    rw [hq, roundHalfEven_intCast]
    push_cast
    field_simp

/-- A number more than one half above an integer and below the next is rounded up. -/
theorem roundHalfEven_of_gt_half (q : ℚ) (f : Int) (h1 : (f : ℚ) + 1 / 2 < q) (h2 : q < f + 1) :
    roundHalfEven q = f + 1 := by
  have hf : ⌊q⌋ = f := by
    rw [Int.floor_eq_iff]
    constructor
    · linarith
    · linarith
  unfold roundHalfEven
  rw [hf, if_neg (by linarith), if_pos (by linarith)]

/-- Rounding to the nearest integer moves a number by at most one half. -/
theorem roundHalfEven_error (q : ℚ) : |(roundHalfEven q : ℚ) - q| ≤ 1 / 2 := by
  have h1 : (⌊q⌋ : ℚ) ≤ q := Int.floor_le q
  have h2 : q < ⌊q⌋ + 1 := Int.lt_floor_add_one q
  unfold roundHalfEven
  rw [abs_le]
  split_ifs <;> push_cast <;> constructor <;> linarith

/-- The distance between neighbouring `float` values is positive. -/
theorem singleUlp_pos (x : ℚ) : 0 < singleUlp x := by
  unfold singleUlp
  positivity

/-- Rounding to `float` moves a number by at most half the distance between the
neighbouring `float` values. -/
theorem roundToSingle_error (x : ℚ) : |roundToSingle x - x| ≤ singleUlp x / 2 := by
  have hu := singleUlp_pos x
  have h := roundHalfEven_error (x / singleUlp x)
  unfold roundToSingle
  have e : (roundHalfEven (x / singleUlp x) : ℚ) * singleUlp x - x =
      ((roundHalfEven (x / singleUlp x) : ℚ) - x / singleUlp x) * singleUlp x := by
    field_simp
  rw [e, abs_mul, abs_of_pos hu]
  calc |(roundHalfEven (x / singleUlp x) : ℚ) - x / singleUlp x| * singleUlp x
      ≤ 1 / 2 * singleUlp x := mul_le_mul_of_nonneg_right h hu.le
    _ = singleUlp x / 2 := by ring

/-- Below `2 ^ (e + 1)`, `e` not negative, neighbouring `float` values are at most
`2 ^ (e - 23)` apart. -/
theorem singleUlp_le (x : ℚ) (e : Int) (he : 0 ≤ e) (h : |x| < (2 : ℚ) ^ (e + 1)) :
    singleUlp x ≤ (2 : ℚ) ^ (e - 23) := by
  have hlog : Int.log 2 |x| ≤ e := by
    rcases eq_or_lt_of_le (abs_nonneg x) with h0 | hpos
    · rw [← h0, Int.log_zero_right]
      exact he
    · have hlt : Int.log 2 |x| < e + 1 :=
        (Int.lt_zpow_iff_log_lt (by norm_num) hpos).1 (by exact_mod_cast h)
      omega
  unfold singleUlp
  apply zpow_le_zpow_right₀ (by norm_num)
  have : max (Int.log 2 |x|) (-126) ≤ e := max_le hlog (by omega)
  omega

/-- The constant `0.00001f` is the `float` nearest to 0.00001. -/
theorem LATY_CORRECTION_eq : LATY_CORRECTION = roundToSingle (1 / 100000) := by
  have hlog : Int.log 2 |(1 / 100000 : ℚ)| = -17 := by
    apply log_of_binade <;> norm_num [abs_of_pos]
  unfold roundToSingle singleUlp
  rw [hlog, roundHalfEven_of_lt_half _ 10995116]
  · norm_num [LATY_CORRECTION]
  · norm_num
  · norm_num

/-- A multiple of the distance between its neighbouring `float` values is a
`float`. -/
theorem roundToSingle_of_multiple (x : ℚ) (n : Int) (h : x = n * singleUlp x) :
    roundToSingle x = x := by
  have hu := singleUlp_pos x
  unfold roundToSingle
  have hq : x / singleUlp x = (n : ℚ) := by
    rw [div_eq_iff hu.ne.symm]
    exact h
  rw [hq, roundHalfEven_intCast]
  exact h.symm

/-- A number lies below the next power of two above its binade. -/
theorem abs_lt_zpow_log (x : ℚ) : |x| < (2 : ℚ) ^ (Int.log 2 |x| + 1) := by
  have h := Int.lt_zpow_succ_log_self (b := 2) (by norm_num) |x|
  exact_mod_cast h

/-- The quotient of a number and the distance between its neighbouring `float`
values is below 2^24 in magnitude. -/
theorem abs_div_singleUlp_lt (x : ℚ) : |x / singleUlp x| < 16777216 := by
  have hu := singleUlp_pos x
  rw [abs_div, abs_of_pos hu, div_lt_iff₀ hu]
  have h1 := abs_lt_zpow_log x
  have h2 : (2 : ℚ) ^ (Int.log 2 |x| + 1) ≤ 16777216 * singleUlp x := by
    have e : (16777216 : ℚ) = (2 : ℚ) ^ (24 : Int) := by norm_num
    unfold singleUlp
    rw [e, ← zpow_add₀ (by norm_num)]
    apply zpow_le_zpow_right₀ (by norm_num)
    have := le_max_left (Int.log 2 |x|) (-126)
    omega
  linarith

/-- The significand of a rounded number has at most 24 bits, or is 2^24. -/
theorem abs_roundHalfEven_le (x : ℚ) : |roundHalfEven (x / singleUlp x)| ≤ 16777216 := by
  have h1 := abs_lt.1 (abs_div_singleUlp_lt x)
  have h2 := abs_le.1 (roundHalfEven_error (x / singleUlp x))
  have h3 : ((roundHalfEven (x / singleUlp x) : Int) : ℚ) < 16777217 := by linarith [h1.2, h2.2]
  have h4 : (-16777217 : ℚ) < ((roundHalfEven (x / singleUlp x) : Int) : ℚ) := by
    linarith [h1.1, h2.1]
  have h5 : roundHalfEven (x / singleUlp x) < 16777217 := by exact_mod_cast h3
  have h6 : -16777217 < roundHalfEven (x / singleUlp x) := by exact_mod_cast h4
  rw [abs_le]
  omega

/-- A significand of at most 24 bits, or 2^24, with an exponent from -149 is a
`float`. -/
theorem roundToSingle_of_significand (k j : Int) (hj : -149 ≤ j) (hk : |k| ≤ 16777216) :
    roundToSingle (k * (2 : ℚ) ^ j) = k * (2 : ℚ) ^ j := by
  by_cases hk0 : k = 0
  · subst hk0
    apply roundToSingle_of_multiple _ 0
    simp
  have hpos : (0 : ℚ) < (2 : ℚ) ^ j := by positivity
  have habs : |(k : ℚ) * (2 : ℚ) ^ j| = |(k : ℚ)| * (2 : ℚ) ^ j := by
    rw [abs_mul, abs_of_pos hpos]
  have hk1 : (1 : ℚ) ≤ |(k : ℚ)| := by
    have : 1 ≤ |k| := Int.one_le_abs hk0
    exact_mod_cast this
  have hrpos : 0 < |(k : ℚ) * (2 : ℚ) ^ j| := by
    rw [habs]
    positivity
  rcases lt_or_eq_of_le hk with hlt | heq
  · -- the number stays in a binade whose spacing divides 2 ^ j
    have hkq : |(k : ℚ)| < 16777216 := by exact_mod_cast hlt
    have hr : |(k : ℚ) * (2 : ℚ) ^ j| < (2 : ℚ) ^ (24 + j) := by
      rw [habs, zpow_add₀ (by norm_num)]
      have e : (2 : ℚ) ^ (24 : Int) = 16777216 := by norm_num
      rw [e]
      exact mul_lt_mul_of_pos_right hkq hpos
    have hlog : Int.log 2 |(k : ℚ) * (2 : ℚ) ^ j| < 24 + j :=
      (Int.lt_zpow_iff_log_lt (by norm_num) hrpos).1 (by exact_mod_cast hr)
    obtain ⟨m, hm⟩ : ∃ m : Nat,
        j = (max (Int.log 2 |(k : ℚ) * (2 : ℚ) ^ j|) (-126) - 23) + m :=
      ⟨(j - (max (Int.log 2 |(k : ℚ) * (2 : ℚ) ^ j|) (-126) - 23)).toNat, by
        have := max_le (a := Int.log 2 |(k : ℚ) * (2 : ℚ) ^ j|) (b := -126) (c := j + 23)
          (by omega) (by omega)
        omega⟩
    apply roundToSingle_of_multiple _ (k * 2 ^ m)
    unfold singleUlp
    nth_rewrite 1 [hm]
    rw [zpow_add₀ (by norm_num), zpow_natCast]
    push_cast
    ring
  · -- the number is the power of two that starts the next binade
    have hkq : |(k : ℚ)| = 16777216 := by exact_mod_cast heq
    have hr : |(k : ℚ) * (2 : ℚ) ^ j| = (2 : ℚ) ^ (24 + j) := by
      rw [habs, zpow_add₀ (by norm_num), hkq]
      norm_num
    have hlog : Int.log 2 |(k : ℚ) * (2 : ℚ) ^ j| = 24 + j := by
      rw [hr]
      have := Int.log_zpow (R := ℚ) (b := 2) (by norm_num) (24 + j)
      exact_mod_cast this
    obtain ⟨n, hn⟩ : ∃ n : Int, k = 2 * n := by
      rcases abs_eq (by decide : (0 : Int) ≤ 16777216) |>.1 heq with h | h
      · exact ⟨8388608, by omega⟩
      · exact ⟨-8388608, by omega⟩
    apply roundToSingle_of_multiple _ n
    unfold singleUlp
    rw [hlog, max_eq_left (by omega)]
    have e : 24 + j - 23 = j + 1 := by ring
    rw [e, zpow_add₀ (by norm_num), hn]
    push_cast
    ring

/-- Rounding to `float` yields a `float`. -/
theorem roundToSingle_idem (x : ℚ) : roundToSingle (roundToSingle x) = roundToSingle x := by
  have h := roundToSingle_of_significand (roundHalfEven (x / singleUlp x))
    (max (Int.log 2 |x|) (-126) - 23)
    (by have := le_max_right (Int.log 2 |x|) (-126); omega) (abs_roundHalfEven_le x)
  exact h

/-- One pass of the arc loop from a `float` angle with a step between 1 and 360:
the rounded sum is the angle itself or at least half a degree above it. -/
theorem roundToSingle_add_step (a : ℚ) (step : Int) (ha : roundToSingle a = a)
    (h1 : 1 ≤ step) (h360 : step ≤ 360) :
    roundToSingle (a + step) = a ∨ a + 1 / 2 ≤ roundToSingle (a + step) := by
  have hs1 : (1 : ℚ) ≤ step := by exact_mod_cast h1
  have hs360 : (step : ℚ) ≤ 360 := by exact_mod_cast h360
  have herr := abs_le.1 (roundToSingle_error (a + step))
  by_cases hu : singleUlp (a + step) ≤ 1
  · right
    linarith [herr.1]
  · push_neg at hu
    -- neighbouring values are more than 1 apart: the sum is 2^24 or more
    have hexp : 0 < max (Int.log 2 |a + step|) (-126) - 23 := by
      by_contra hneg
      push_neg at hneg
      have : singleUlp (a + step) ≤ 1 := by
        unfold singleUlp
        exact zpow_le_one_of_nonpos₀ (by norm_num) hneg
      linarith
    have he : 24 ≤ Int.log 2 |a + step| := by
      rcases max_cases (Int.log 2 |a + step|) (-126) with ⟨hm, -⟩ | ⟨hm, -⟩ <;> omega
    have hx0 : 0 < |a + step| := by
      rcases eq_or_lt_of_le (abs_nonneg (a + step)) with h0 | hpos
      · rw [← h0, Int.log_zero_right] at he
        omega
      · exact hpos
    have hxge : (2 : ℚ) ^ (Int.log 2 |a + step|) ≤ |a + step| := by
      have := Int.zpow_log_le_self (b := 2) (r := |a + step|) (by norm_num) hx0
      exact_mod_cast this
    obtain ⟨e, hedef⟩ : ∃ e : Int, e = Int.log 2 |a + step| := ⟨_, rfl⟩
    rw [← hedef] at he hxge hexp
    have hulp : singleUlp (a + step) = (2 : ℚ) ^ (e - 24) * 2 := by
      unfold singleUlp
      rw [← hedef, max_eq_left (by omega)]
      have e1 : e - 23 = (e - 24) + 1 := by ring
      rw [e1, zpow_add₀ (by norm_num)]
      norm_num
    have hh1 : (8388608 : ℚ) ≤ (2 : ℚ) ^ (e - 1) := by
      have e1 : (8388608 : ℚ) = (2 : ℚ) ^ (23 : Int) := by norm_num
      rw [e1]
      exact zpow_le_zpow_right₀ (by norm_num) (by omega)
    have hh2 : (2 : ℚ) ^ e = (2 : ℚ) ^ (e - 1) * 2 := by
      have e1 : e = (e - 1) + 1 := by ring
      nth_rewrite 1 [e1]
      rw [zpow_add₀ (by norm_num)]
      norm_num
    have hh3 : (1 : ℚ) ≤ (2 : ℚ) ^ (e - 24) :=
      one_le_zpow₀ (by norm_num) (by omega)
    -- the angle is in the same binade or the one below
    have hage : (2 : ℚ) ^ (e - 1) ≤ |a| := by
      have hsabs : |(step : ℚ)| = step := abs_of_nonneg (by linarith)
      have h := abs_add a (step : ℚ)
      rw [hsabs] at h
      linarith
    have ha0 : 0 < |a| := lt_of_lt_of_le (by positivity) hage
    have hla : e - 1 ≤ Int.log 2 |a| :=
      (Int.zpow_le_iff_le_log (by norm_num) ha0).1 (by exact_mod_cast hage)
    obtain ⟨m, hm⟩ : ∃ m : Nat, Int.log 2 |a| = (e - 1) + m :=
      ⟨(Int.log 2 |a| - (e - 1)).toNat, by omega⟩
    have hulpa : singleUlp a = (2 : ℚ) ^ (e - 24) * 2 ^ m := by
      unfold singleUlp
      rw [hm, max_eq_left (by omega)]
      have e1 : e - 1 + (m : Int) - 23 = (e - 24) + m := by ring
      rw [e1, zpow_add₀ (by norm_num), zpow_natCast]
    -- both the angle and the rounded sum are multiples of 2 ^ (e - 24)
    have hmult : roundToSingle (a + step) - a =
        ((2 * roundHalfEven ((a + step) / singleUlp (a + step)) -
          roundHalfEven (a / singleUlp a) * 2 ^ m : Int) : ℚ) * (2 : ℚ) ^ (e - 24) := by
      have hadef : a = roundHalfEven (a / singleUlp a) * singleUlp a := by
        nth_rewrite 1 [← ha]
        rfl
      have hrdef : roundToSingle (a + step) =
          roundHalfEven ((a + step) / singleUlp (a + step)) * singleUlp (a + step) := rfl
      have hsub : roundToSingle (a + step) - a =
          roundHalfEven ((a + step) / singleUlp (a + step)) * singleUlp (a + step) -
            roundHalfEven (a / singleUlp a) * singleUlp a := by
        rw [hrdef, ← hadef]
      rw [hsub, hulp, hulpa]
      push_cast
      ring
    obtain ⟨n, hn⟩ : ∃ n : Int, n = 2 * roundHalfEven ((a + step) / singleUlp (a + step)) -
        roundHalfEven (a / singleUlp a) * 2 ^ m := ⟨_, rfl⟩
    rw [← hn] at hmult
    have hpos : (0 : ℚ) < (2 : ℚ) ^ (e - 24) := by positivity
    have hlow : -((2 : ℚ) ^ (e - 24)) < (n : ℚ) * (2 : ℚ) ^ (e - 24) := by
      rw [← hmult]
      rw [hulp] at herr
      linarith [herr.1]
    have hn0 : (-1 : ℚ) < n := by
      by_contra hcon
      push_neg at hcon
      have : (n : ℚ) * (2 : ℚ) ^ (e - 24) ≤ -1 * (2 : ℚ) ^ (e - 24) :=
        mul_le_mul_of_nonneg_right hcon hpos.le
      linarith
    have hn0i : -1 < n := by exact_mod_cast hn0
    rcases eq_or_lt_of_le (by omega : 0 ≤ n) with hz | hp
    · left
      rw [← hz] at hmult
      simp only [Int.cast_zero, zero_mul] at hmult
      linarith
    · right
      have hn1 : (1 : ℚ) ≤ n := by exact_mod_cast hp
      have : (1 : ℚ) * (2 : ℚ) ^ (e - 24) ≤ (n : ℚ) * (2 : ℚ) ^ (e - 24) :=
        mul_le_mul_of_nonneg_right hn1 hpos.le
      linarith

/-! ## Tessellation point count -/

/-- Truncating division by a positive divisor is monotone in the dividend. -/
theorem tdiv_le_tdiv_of_le (a b d : Int) (hd : 0 < d) (h : a ≤ b) :
    Int.tdiv a d ≤ Int.tdiv b d := by
  rcases le_or_lt 0 a with ha | ha
  · have hb : 0 ≤ b := le_trans ha h
    rw [Int.tdiv_eq_ediv ha hd.le, Int.tdiv_eq_ediv hb hd.le]
    exact Int.ediv_le_ediv hd h
  · have hna : 0 ≤ -a := by omega
    have e1 : Int.tdiv a d = -((-a) / d) := by
      rw [← Int.tdiv_eq_ediv hna hd.le, Int.neg_tdiv, neg_neg]
    rcases le_or_lt 0 b with hb | hb
    · have h1 : 0 ≤ (-a) / d := Int.ediv_nonneg hna hd.le
      have h2 : 0 ≤ Int.tdiv b d := Int.tdiv_nonneg hb hd.le
      omega
    · have hnb : 0 ≤ -b := by omega
      have e2 : Int.tdiv b d = -((-b) / d) := by
        rw [← Int.tdiv_eq_ediv hnb hd.le, Int.neg_tdiv, neg_neg]
      have h3 : (-b) / d ≤ (-a) / d := Int.ediv_le_ediv hd (by omega)
      omega

/-- The divisor `fast ? 20 : 2` is positive. -/
theorem fast_divisor_pos (fast : Bool) : (0 : Int) < (if fast then 20 else 2) := by
  cases fast <;> decide

/-- C4: for every integer pixel radius (zero and negative included) and both values
of `fast`, the point count `min(max(pixel / (fast ? 20 : 2), MIN), MAX)` of
`paintArc` and `paintCircleLargeInternal` lies between `CIRCLE_MIN_POINTS` and
`CIRCLE_MAX_POINTS` when `MIN <= MAX`, and equals `clamp(pixel / divisor, MIN, MAX)`
with truncating division. -/
theorem numPoints_in_range_eq_clamp (circleMinPoints circleMaxPoints pixel : Int)
    (fast : Bool) (h : circleMinPoints ≤ circleMaxPoints) :
    circleMinPoints ≤ numPoints circleMinPoints circleMaxPoints pixel fast ∧
    numPoints circleMinPoints circleMaxPoints pixel fast ≤ circleMaxPoints ∧
    numPoints circleMinPoints circleMaxPoints pixel fast =
      clamp (Int.tdiv pixel (if fast then 20 else 2)) circleMinPoints circleMaxPoints := by
  unfold numPoints clamp
  generalize Int.tdiv pixel (if fast then 20 else 2) = v
  refine ⟨le_min (le_max_right _ _) h, min_le_right _ _, ?_⟩
  split_ifs with h1 h2
  · rw [max_eq_right h1.le, min_eq_left h]
  · rw [max_eq_left (not_lt.mp h1), min_eq_right h2.le]
  · rw [max_eq_left (not_lt.mp h1), min_eq_left (not_lt.mp h2)]

/-- Witness for C4 at a negative pixel radius: `-7 / 2` truncates to `-3` and the
count is lifted to the minimum. -/
theorem numPoints_in_range_eq_clamp_witness :
    (16 : Int) ≤ 72 ∧ Int.tdiv (-7) 2 = -3 ∧
    (16 ≤ numPoints 16 72 (-7) false ∧ numPoints 16 72 (-7) false ≤ 72 ∧
      numPoints 16 72 (-7) false = clamp (Int.tdiv (-7) (if false then 20 else 2)) 16 72) :=
  ⟨by decide, by decide, numPoints_in_range_eq_clamp 16 72 (-7) false (by decide)⟩

/-- C5: for fixed `fast` the point count is monotonically non-decreasing in the
integer pixel radius. -/
theorem numPoints_mono_pixel (circleMinPoints circleMaxPoints p1 p2 : Int) (fast : Bool)
    (h : p1 ≤ p2) :
    numPoints circleMinPoints circleMaxPoints p1 fast ≤
      numPoints circleMinPoints circleMaxPoints p2 fast := by
  unfold numPoints
  exact min_le_min_right _
    (max_le_max_right _ (tdiv_le_tdiv_of_le p1 p2 _ (fast_divisor_pos fast) h))

/-- Witness for C5 across the sign change of the pixel radius. -/
theorem numPoints_mono_pixel_witness :
    (-50 : Int) ≤ 90 ∧ numPoints 16 72 (-50) false ≤ numPoints 16 72 90 false :=
  ⟨by decide, numPoints_mono_pixel 16 72 (-50) 90 false (by decide)⟩

/-- C6: for every integer pixel radius, negative values included, the point count
with `fast = true` is at most the point count with `fast = false`; the minimum
`CIRCLE_MIN_POINTS` of the header is a non-negative number of points. -/
theorem numPoints_fast_le (circleMinPoints circleMaxPoints pixel : Int)
    (hmin : 0 ≤ circleMinPoints) :
    numPoints circleMinPoints circleMaxPoints pixel true ≤
      numPoints circleMinPoints circleMaxPoints pixel false := by
  unfold numPoints
  apply min_le_min_right
  simp only [if_true, Bool.false_eq_true, if_false]
  rcases le_or_lt 0 pixel with hp | hp
  · apply max_le_max_right
    rw [Int.tdiv_eq_ediv hp (by decide), Int.tdiv_eq_ediv hp (by decide)]
    omega
  · have hn : 0 ≤ -pixel := by omega
    have h20 : Int.tdiv pixel 20 = -((-pixel) / 20) := by
      rw [← Int.tdiv_eq_ediv hn (by decide), Int.neg_tdiv, neg_neg]
    have h20le : Int.tdiv pixel 20 ≤ 0 := by
      have := Int.ediv_nonneg hn (show (0 : Int) ≤ 20 by decide)
      omega
    rw [max_eq_right (le_trans h20le hmin)]
    exact le_max_right _ _

/-- Witness for C6 at a negative pixel radius, where `-100 / 20 = -5` is greater
than `-100 / 2 = -50` before clamping. -/
theorem numPoints_fast_le_witness :
    (0 : Int) ≤ 16 ∧ Int.tdiv (-100) 2 < Int.tdiv (-100) 20 ∧
    numPoints 16 72 (-100) true ≤ numPoints 16 72 (-100) false :=
  ⟨by decide, by decide, numPoints_fast_le 16 72 (-100) (by decide)⟩

/-! ## Circle dispatch -/

/-- The log of `drawLineString` holds no event selected by a predicate that
rejects line string entries and polylines. -/
theorem countP_drawLineString (q : Event → Bool)
    (h1 : ∀ radial ls, q (Event.drawLineString radial ls) = false)
    (h2 : ∀ coordinates, q (Event.drawPolyline coordinates) = false)
    (env : Env) (ls : List Pos) : (drawLineString env ls).countP q = 0 := by
  unfold drawLineString drawLineStringBody
  split_ifs <;> simp [List.countP_cons, h1, h2]

/-- One pass of the sampling loop adds no event selected by such a predicate. -/
theorem countP_ringSegment (q : Event → Bool)
    (h1 : ∀ radial ls, q (Event.drawLineString radial ls) = false)
    (h2 : ∀ coordinates, q (Event.drawPolyline coordinates) = false)
    (env : Env) (collectTexts : Bool) (p2 : Pos) (s : RingState) :
    (ringSegment env collectTexts p2 s).events.countP q = s.events.countP q := by
  unfold ringSegment
  dsimp only
  split_ifs <;> first
    | rfl
    | rw [List.countP_append, countP_drawLineString q h1 h2, Nat.add_zero]

/-- The sampling loop of `paintCircleLargeInternal` adds no event selected by
such a predicate. -/
theorem countP_circleLoop (q : Event → Bool)
    (h1 : ∀ radial ls, q (Event.drawLineString radial ls) = false)
    (h2 : ∀ coordinates, q (Event.drawPolyline coordinates) = false)
    (env : Env) (centerPos : Pos) (radiusMeter : ℚ) (collectTexts : Bool) (step : Int)
    (fuel : Nat) (i : Int) (s : RingState) :
    (circleLoop env centerPos radiusMeter collectTexts step fuel i s).1.events.countP q =
      s.events.countP q := by
  induction fuel generalizing i s with
  | zero => rfl
  | succ fuel ih =>
    unfold circleLoop
    split_ifs
    · rw [ih, countP_ringSegment q h1 h2]
    · rfl

/-- The log of `paintCircleLargeInternal` holds the events selected by such a
predicate that its entry contributes, and no other. -/
theorem countP_paintCircleLargeInternal (q : Event → Bool)
    (h1 : ∀ radial ls, q (Event.drawLineString radial ls) = false)
    (h2 : ∀ coordinates, q (Event.drawPolyline coordinates) = false)
    (env : Env) (centerPos : Pos) (radiusNm : ℚ) (fast : Bool) (textPos : Option QPoint) :
    (paintCircleLargeInternal env centerPos radiusNm fast textPos).events.countP q =
      [Event.paintCircleLargeInternal centerPos radiusNm fast].countP q := by
  have hloop := fun collectTexts step s =>
    countP_circleLoop q h1 h2 env centerPos (env.nmToMeter radiusNm) collectTexts step 360 step s
  unfold paintCircleLargeInternal
  dsimp only
  split_ifs <;> first
    | rfl
    | (rw [hloop])
    | (rw [List.countP_append, countP_drawLineString q h1 h2, hloop])
    | (split <;> first
        | (rw [hloop])
        | (rw [List.countP_append, countP_drawLineString q h1 h2, hloop, Nat.add_zero])
        | (split <;> first
            | (rw [hloop])
            | (rw [List.countP_append, countP_drawLineString q h1 h2, hloop, Nat.add_zero])))

/-- The log of `paintCircleSmallInternal` holds its own entry and no entry of
`paintCircleLargeInternal`. -/
theorem countP_paintCircleSmallInternal (env : Env) (centerPos : Pos) (radiusNm : ℚ)
    (fast : Bool) (textPos : Option QPoint) :
    (paintCircleSmallInternal env centerPos radiusNm fast textPos).events.countP
        Event.isCircleSmall = 1 ∧
    (paintCircleSmallInternal env centerPos radiusNm fast textPos).events.countP
        Event.isCircleLarge = 0 := by
  unfold paintCircleSmallInternal
  dsimp only
  split_ifs <;> simp [List.countP_cons, Event.isCircleSmall, Event.isCircleLarge]

/-- The log of `paintCircleLargeInternal` holds its own entry and no entry of
`paintCircleSmallInternal`. -/
theorem countP_entries_paintCircleLargeInternal (env : Env) (centerPos : Pos) (radiusNm : ℚ)
    (fast : Bool) (textPos : Option QPoint) :
    (paintCircleLargeInternal env centerPos radiusNm fast textPos).events.countP
        Event.isCircleSmall = 0 ∧
    (paintCircleLargeInternal env centerPos radiusNm fast textPos).events.countP
        Event.isCircleLarge = 1 := by
  constructor
  · rw [countP_paintCircleLargeInternal _ (fun _ _ => rfl) (fun _ => rfl)]
    simp [List.countP_cons, Event.isCircleSmall]
  · rw [countP_paintCircleLargeInternal _ (fun _ _ => rfl) (fun _ => rfl)]
    simp [List.countP_cons, Event.isCircleLarge]

/-- Above the guard `radiusNm > EARTH_CIRCUMFERENCE_METER / 4.f` both
`paintCircle` and `paintArc` return at once: nothing is logged and the text
position keeps its value. -/
theorem paintCircle_paintArc_guard (env : Env) (centerPos : Pos)
    (radiusNm angleDegStart angleDegEnd : ℚ) (fast : Bool) (textPos : Option QPoint)
    (h : radiusNm > env.EARTH_CIRCUMFERENCE_METER / 4) :
    paintCircle env centerPos radiusNm fast textPos = ⟨[], textPos, true⟩ ∧
    paintArc env centerPos radiusNm angleDegStart angleDegEnd fast = ⟨[], true⟩ := by
  unfold paintCircle paintArc
  simp [h]

/-- C1: for every centre, every radius that the guard does not reject and every
zoom distance, `paintCircle` invokes `paintCircleSmallInternal` if and only if
`radiusNm < 1` or the zoom distance in nautical miles is `< 5`, it invokes
`paintCircleLargeInternal` if and only if this is not the case, and exactly one
of the two is invoked, with the arguments of `paintCircle`. -/
theorem paintCircle_dispatch (env : Env) (centerPos : Pos) (radiusNm : ℚ) (fast : Bool)
    (textPos : Option QPoint) (hok : ¬ radiusNm > env.EARTH_CIRCUMFERENCE_METER / 4) :
    ((paintCircle env centerPos radiusNm fast textPos).events.countP Event.isCircleSmall = 1 ↔
      (radiusNm < 1 ∨ env.meterToNm env.zoomDistanceMeter < 5)) ∧
    ((paintCircle env centerPos radiusNm fast textPos).events.countP Event.isCircleLarge = 1 ↔
      ¬ (radiusNm < 1 ∨ env.meterToNm env.zoomDistanceMeter < 5)) ∧
    (paintCircle env centerPos radiusNm fast textPos).events.countP Event.isCircleSmall +
      (paintCircle env centerPos radiusNm fast textPos).events.countP Event.isCircleLarge = 1 ∧
    ((radiusNm < 1 ∨ env.meterToNm env.zoomDistanceMeter < 5) →
      paintCircle env centerPos radiusNm fast textPos =
        paintCircleSmallInternal env centerPos radiusNm fast textPos) ∧
    (¬ (radiusNm < 1 ∨ env.meterToNm env.zoomDistanceMeter < 5) →
      paintCircle env centerPos radiusNm fast textPos =
        paintCircleLargeInternal env centerPos radiusNm fast textPos) := by
  have hs := countP_paintCircleSmallInternal env centerPos radiusNm fast textPos
  have hl := countP_entries_paintCircleLargeInternal env centerPos radiusNm fast textPos
  by_cases hc : radiusNm < 1 ∨ env.meterToNm env.zoomDistanceMeter < 5
  · have e : paintCircle env centerPos radiusNm fast textPos =
        paintCircleSmallInternal env centerPos radiusNm fast textPos := by
      unfold paintCircle
      rw [if_neg hok, if_pos hc]
    rw [e, hs.1, hs.2]
    simp [hc]
  · have e : paintCircle env centerPos radiusNm fast textPos =
        paintCircleLargeInternal env centerPos radiusNm fast textPos := by
      unfold paintCircle
      rw [if_neg hok, if_neg hc]
    rw [e, hl.1, hl.2]
    simp [hc]

/-- Witness for C1: a radius of half a nautical mile at a zoom distance of 5 nm. -/
theorem paintCircle_dispatch_witness :
    (paintCircle demoEnv ⟨0, 0⟩ (1 / 2) false none).events.countP Event.isCircleSmall = 1 ∧
    (paintCircle demoEnv ⟨0, 0⟩ (1 / 2) false none).events.countP Event.isCircleLarge = 0 := by
  have h := paintCircle_dispatch demoEnv ⟨0, 0⟩ (1 / 2) false none
    (by norm_num [demoEnv])
  have hsmall : (paintCircle demoEnv ⟨0, 0⟩ (1 / 2) false none).events.countP
      Event.isCircleSmall = 1 := h.1.mpr (Or.inl (by norm_num))
  have hsum := h.2.2.1
  exact ⟨hsmall, by omega⟩

/-- Counterexample to C2 as stated: at a radius of exactly 1.0 nm with a zoom
distance of exactly 5 nm the radius is accepted, `paintCircleSmallInternal` is
not invoked and `paintCircleLargeInternal` is. -/
theorem paintCircle_radius_one_selects_large :
    ¬ ((1 : ℚ) > demoEnv.EARTH_CIRCUMFERENCE_METER / 4) ∧ (1 : ℚ) ≤ 1 ∧
    demoEnv.meterToNm demoEnv.zoomDistanceMeter = 5 ∧
    (paintCircle demoEnv ⟨0, 0⟩ 1 false none).events.countP Event.isCircleSmall = 0 ∧
    (paintCircle demoEnv ⟨0, 0⟩ 1 false none).events.countP Event.isCircleLarge = 1 := by
  have e : paintCircle demoEnv ⟨0, 0⟩ 1 false none =
      paintCircleLargeInternal demoEnv ⟨0, 0⟩ 1 false none := by
    unfold paintCircle
    norm_num [demoEnv]
  have hl := countP_entries_paintCircleLargeInternal demoEnv ⟨0, 0⟩ 1 false none
  refine ⟨by norm_num [demoEnv], le_refl _, by norm_num [demoEnv], ?_, ?_⟩
  · rw [e]
    exact hl.1
  · rw [e]
    exact hl.2

/-- C2, amended: for every accepted radius `< 1` nm the small-circle algorithm is
selected, for every zoom distance `< 5` nm the small-circle algorithm is
selected, and the large-circle algorithm is selected exactly for radii `>= 1` nm
(1.0 nm included) with a zoom distance `>= 5` nm. -/
theorem paintCircle_selection_boundaries (env : Env) (centerPos : Pos) (radiusNm : ℚ)
    (fast : Bool) (textPos : Option QPoint)
    (hok : ¬ radiusNm > env.EARTH_CIRCUMFERENCE_METER / 4) :
    (radiusNm < 1 →
      (paintCircle env centerPos radiusNm fast textPos).events.countP Event.isCircleSmall = 1 ∧
      (paintCircle env centerPos radiusNm fast textPos).events.countP Event.isCircleLarge = 0) ∧
    (env.meterToNm env.zoomDistanceMeter < 5 →
      (paintCircle env centerPos radiusNm fast textPos).events.countP Event.isCircleSmall = 1 ∧
      (paintCircle env centerPos radiusNm fast textPos).events.countP Event.isCircleLarge = 0) ∧
    (((paintCircle env centerPos radiusNm fast textPos).events.countP Event.isCircleLarge = 1 ∧
      (paintCircle env centerPos radiusNm fast textPos).events.countP Event.isCircleSmall = 0) ↔
      (1 ≤ radiusNm ∧ 5 ≤ env.meterToNm env.zoomDistanceMeter)) := by
  have hs := countP_paintCircleSmallInternal env centerPos radiusNm fast textPos
  have hl := countP_entries_paintCircleLargeInternal env centerPos radiusNm fast textPos
  by_cases hc : radiusNm < 1 ∨ env.meterToNm env.zoomDistanceMeter < 5
  · have e : paintCircle env centerPos radiusNm fast textPos =
        paintCircleSmallInternal env centerPos radiusNm fast textPos := by
      unfold paintCircle
      rw [if_neg hok, if_pos hc]
    rw [e, hs.1, hs.2]
    refine ⟨fun _ => ⟨rfl, rfl⟩, fun _ => ⟨rfl, rfl⟩, ?_⟩
    constructor
    · intro h
      exact absurd h.1 (by decide)
    · intro h
      rcases hc with hc | hc
      · exact absurd h.1 (not_le.mpr hc)
      · exact absurd h.2 (not_le.mpr hc)
  · have e : paintCircle env centerPos radiusNm fast textPos =
        paintCircleLargeInternal env centerPos radiusNm fast textPos := by
      unfold paintCircle
      rw [if_neg hok, if_neg hc]
    rw [e, hl.1, hl.2]
    push_neg at hc
    exact ⟨fun h => absurd h (not_lt.mpr hc.1), fun h => absurd h (not_lt.mpr hc.2),
      fun _ => hc, fun _ => ⟨rfl, rfl⟩⟩

/-- Witness for the amended C2 at the boundary: radius exactly 1.0 nm and zoom
distance exactly 5 nm select the large-circle algorithm. -/
theorem paintCircle_selection_boundaries_witness :
    (paintCircle demoEnv ⟨0, 0⟩ 1 false none).events.countP Event.isCircleLarge = 1 ∧
    (paintCircle demoEnv ⟨0, 0⟩ 1 false none).events.countP Event.isCircleSmall = 0 :=
  (paintCircle_selection_boundaries demoEnv ⟨0, 0⟩ 1 false none
    (by norm_num [demoEnv])).2.2.mpr ⟨le_refl _, by norm_num [demoEnv]⟩

/-- C3, the code at a radius of 6000 nm: 6000 nm are 11112000 m, more than a
quarter of the circumference of 40075017 m, yet the guard compares the number
of nautical miles with the number of metres and lets the radius pass.
`paintCircle` draws an ellipse and overwrites the text position, `paintArc`
submits a polyline. -/
theorem paintCircle_paintArc_accept_6000nm :
    demoEnv.nmToMeter 6000 > demoEnv.EARTH_CIRCUMFERENCE_METER / 4 ∧
    paintCircle demoEnvNear ⟨0, 0⟩ 6000 false (some ⟨7, 7⟩) =
      ⟨[Event.paintCircleSmallInternal ⟨0, 0⟩ 6000 false,
        Event.drawEllipse ⟨0, 0⟩ 11112 11112], some ⟨360, -11112⟩, true⟩ ∧
    paintArc demoEnv ⟨0, 0⟩ 6000 0 5 false =
      ⟨[Event.drawLineString false [⟨0, 1389 / 125⟩, ⟨0, 1389 / 125⟩, ⟨1 / 2, 1389 / 125⟩],
        Event.drawPolyline [⟨0, 11651787 / 1048576⟩, ⟨1 / 2, 5825883 / 524288⟩]], true⟩ := by
  refine ⟨by norm_num [demoEnv], ?_, ?_⟩
  · norm_num [paintCircle, paintCircleSmallInternal, demoEnvNear, demoEnv, octantAngles]
  · have hn : numPoints 16 72 11112 false = 72 := by decide
    have hstep : Int.tdiv 360 72 = 5 := by decide
    have h5 : roundToSingle 5 = 5 := by
      simpa using roundToSingle_intCast 5 (by decide)
    have h10 : roundToSingle 10 = 10 := by
      simpa using roundToSingle_intCast 10 (by decide)
    have hfuel : arcFuel 0 5 = 12 := by
      have hfloor : ⌊(5 : ℚ) - 0⌋ = 5 := by norm_num
      unfold arcFuel
      rw [hfloor]
      rfl
    have hup : roundToSingle (1389 / 125 + LATY_CORRECTION) = 11651787 / 1048576 := by
      have hlog : Int.log 2 |(1389 / 125 + LATY_CORRECTION : ℚ)| = 3 := by
        apply log_of_binade <;> norm_num [abs_of_pos, LATY_CORRECTION]
      unfold roundToSingle singleUlp
      rw [hlog, roundHalfEven_of_gt_half _ 11651786]
      · norm_num
      · norm_num [LATY_CORRECTION]
      · norm_num [LATY_CORRECTION]
    have hdown : roundToSingle (1389 / 125 - LATY_CORRECTION) = 5825883 / 524288 := by
      have hlog : Int.log 2 |(1389 / 125 - LATY_CORRECTION : ℚ)| = 3 := by
        apply log_of_binade <;> norm_num [abs_of_pos, LATY_CORRECTION]
      unfold roundToSingle singleUlp
      rw [hlog, roundHalfEven_of_lt_half _ 11651766]
      · norm_num
      · norm_num [LATY_CORRECTION]
      · norm_num [LATY_CORRECTION]
    norm_num [paintArc, arcLoop, ringSegment, hn, hstep, hfuel, h5, h10, hup, hdown,
      drawLineString, drawLineStringBody,
      splitLines, latitudeCorrection, latitudeCorrectionFrom, geoLineStringCoordinates,
      segments, segmentPoints, removeConsecutiveDuplicates, manhattanLength,
      demoEnv, abs_eq_max_neg,
      max_def]

/-! ## Line strings -/

/-- Both line string routines, for a line string of two or more points whose
`splitLines` is not empty: one polyline made of the segment points and the
last point. -/
theorem drawLineString_eq (env : Env) (linestring : List Pos)
    (hlen : 2 ≤ linestring.length) (hne : splitLines env linestring ≠ []) :
    drawLineString env linestring =
      [Event.drawLineString false linestring,
        Event.drawPolyline
          (geoLineStringCoordinates env env.interpolatePoints (splitLines env linestring))] ∧
    drawLineStringRadial env linestring =
      [Event.drawLineString true linestring,
        Event.drawPolyline
          (geoLineStringCoordinates env env.interpolatePointsRhumb
            (splitLines env linestring))] := by
  have h1 : ¬ linestring.length < 2 := by omega
  have h2 : (!(splitLines env linestring).isEmpty) = true := by
    cases h : splitLines env linestring with
    | nil => exact absurd h hne
    | cons _ _ => rfl
  unfold drawLineString drawLineStringRadial drawLineStringBody
  simp [h1, h2]

/-- When no segment is longer than 5 the streamed coordinates are the points
of `splitLines` themselves. -/
theorem geoLineStringCoordinates_short (env : Env) (interpolate : Line → ℚ → Int → List Pos)
    (ls : List Pos) (h : ∀ line ∈ segments ls, env.lengthSimple line ≤ 5) :
    geoLineStringCoordinates env interpolate ls = ls := by
  induction ls with
  | nil => rfl
  | cons p rest ih =>
    cases rest with
    | nil => rfl
    | cons q rest =>
      have hq : ∀ line ∈ segments (q :: rest), env.lengthSimple line ≤ 5 := fun line hl =>
        h line (by simp [segments, hl])
      have hp : env.lengthSimple ⟨p, q⟩ ≤ 5 := h ⟨p, q⟩ (by simp [segments])
      have hseg : segmentPoints env interpolate ⟨p, q⟩ = [p] := by
        unfold segmentPoints
        rw [if_neg (by linarith), if_neg (by linarith)]
      have ih2 := ih hq
      unfold geoLineStringCoordinates at ih2 ⊢
      rw [segments, List.flatMap_cons, hseg, List.getLast?_cons_cons, List.append_assoc, ih2]
      rfl

/-- The variable `splitLines` for two points of near-equal latitude that the
split and the duplicate removal keep: the first latitude is the `float` sum with
`LATY_CORRECTION`, the second the `float` difference. -/
theorem splitLines_equal_latitudes (env : Env) (a b : Pos)
    (hnear : env.almostEqual a.latY b.latY = true)
    (hsplit : env.splitAtAntiMeridian [a, b] = [a, b])
    (hdup : env.removeDuplicates [a, b] = [a, b]) :
    splitLines env [a, b] =
      [⟨a.lonX, roundToSingle (a.latY + LATY_CORRECTION)⟩,
        ⟨b.lonX, roundToSingle (b.latY - LATY_CORRECTION)⟩] := by
  unfold splitLines
  rw [hsplit, hdup]
  simp only [latitudeCorrection, latitudeCorrectionFrom, hnear, if_true]

/-- The `float` sum of 50 and `LATY_CORRECTION`. -/
theorem roundToSingle_50_add : roundToSingle (50 + LATY_CORRECTION) = 13107203 / 262144 := by
  have hlog : Int.log 2 |(50 + LATY_CORRECTION : ℚ)| = 5 := by
    apply log_of_binade <;> norm_num [abs_of_pos, LATY_CORRECTION]
  unfold roundToSingle singleUlp
  rw [hlog, roundHalfEven_of_gt_half _ 13107202]
  · norm_num
  · norm_num [LATY_CORRECTION]
  · norm_num [LATY_CORRECTION]

/-- The `float` difference of 50 and `LATY_CORRECTION`. -/
theorem roundToSingle_50_sub : roundToSingle (50 - LATY_CORRECTION) = 13107197 / 262144 := by
  have hlog : Int.log 2 |(50 - LATY_CORRECTION : ℚ)| = 5 := by
    apply log_of_binade <;> norm_num [abs_of_pos, LATY_CORRECTION]
  unfold roundToSingle singleUlp
  rw [hlog, roundHalfEven_of_lt_half _ 13107197]
  · norm_num
  · norm_num [LATY_CORRECTION]
  · norm_num [LATY_CORRECTION]

/-- C7 as stated, at latitude 50: the line from (0, 50) to (1, 50) on the sample
map.  The sums are rounded to `float`, whose values are 1/262144 apart between
32 and 64: the first latitude becomes 13107203/262144 = 50.0000114..., not
50.00001, the second 13107197/262144 = 49.9999885..., not 49.99999, and they
differ by 3/131072 = 0.0000228..., not by twice 0.00001. -/
theorem drawLineString_equal_latitudes_at_50 :
    splitLines demoEnv [⟨0, 50⟩, ⟨1, 50⟩] =
      [⟨0, 13107203 / 262144⟩, ⟨1, 13107197 / 262144⟩] ∧
    (13107203 / 262144 : ℚ) ≠ 50 + 1 / 100000 ∧
    (13107197 / 262144 : ℚ) ≠ 50 - 1 / 100000 ∧
    (13107203 / 262144 - 13107197 / 262144 : ℚ) = 3 / 131072 ∧
    (3 / 131072 : ℚ) ≠ 2 * (1 / 100000) ∧
    (3 / 131072 : ℚ) ≠ 2 * LATY_CORRECTION := by
  refine ⟨?_, by norm_num, by norm_num, by norm_num, by norm_num,
    by norm_num [LATY_CORRECTION]⟩
  rw [splitLines_equal_latitudes demoEnv ⟨0, 50⟩ ⟨1, 50⟩ (by norm_num [demoEnv])
    (by simp [demoEnv]) (by norm_num [demoEnv, removeConsecutiveDuplicates])]
  simp only [roundToSingle_50_add, roundToSingle_50_sub]

/-- C7 with the sums rounded: for every two-point line string whose points have
equal latitude, are distinct (duplicate removal keeps both) and do not cross the
anti-meridian (the split keeps both), the latitude pass of `drawLineString` and
`drawLineStringRadial` sets the first latitude to the `float` nearest to
`lat + 0.00001f` and the second to the `float` nearest to `lat - 0.00001f`; the
longitudes are unchanged and the corrected pair is what both routines build the
polyline from.  For a latitude between -90 and 90 the first latitude is above
`lat` and the second below, each within 1/262144 of the exact sum, so that they
differ by twice `LATY_CORRECTION` up to 1/131072. -/
theorem drawLineString_equal_latitudes (env : Env) (a b : Pos)
    (hlat : a.latY = b.latY)
    (hnear : env.almostEqual a.latY b.latY = true)
    (hsplit : env.splitAtAntiMeridian [a, b] = [a, b])
    (hdup : env.removeDuplicates [a, b] = [a, b]) :
    splitLines env [a, b] =
      [⟨a.lonX, roundToSingle (a.latY + LATY_CORRECTION)⟩,
        ⟨b.lonX, roundToSingle (a.latY - LATY_CORRECTION)⟩] ∧
    (splitLines env [a, b]).map Pos.lonX = [a.lonX, b.lonX] ∧
    (|a.latY| ≤ 90 →
      ∃ lat1 lat2, (splitLines env [a, b]).map Pos.latY = [lat1, lat2] ∧
        a.latY < lat1 ∧ lat2 < b.latY ∧
        |lat1 - (a.latY + LATY_CORRECTION)| ≤ 1 / 262144 ∧
        |lat2 - (a.latY - LATY_CORRECTION)| ≤ 1 / 262144 ∧
        |lat1 - lat2 - 2 * LATY_CORRECTION| ≤ 1 / 131072) ∧
    drawLineString env [a, b] =
      [Event.drawLineString false [a, b],
        Event.drawPolyline (geoLineStringCoordinates env env.interpolatePoints
          [⟨a.lonX, roundToSingle (a.latY + LATY_CORRECTION)⟩,
            ⟨b.lonX, roundToSingle (a.latY - LATY_CORRECTION)⟩])] ∧
    drawLineStringRadial env [a, b] =
      [Event.drawLineString true [a, b],
        Event.drawPolyline (geoLineStringCoordinates env env.interpolatePointsRhumb
          [⟨a.lonX, roundToSingle (a.latY + LATY_CORRECTION)⟩,
            ⟨b.lonX, roundToSingle (a.latY - LATY_CORRECTION)⟩])] := by
  have hs : splitLines env [a, b] =
      [⟨a.lonX, roundToSingle (a.latY + LATY_CORRECTION)⟩,
        ⟨b.lonX, roundToSingle (a.latY - LATY_CORRECTION)⟩] := by
    rw [splitLines_equal_latitudes env a b hnear hsplit hdup, hlat]
  have hd := drawLineString_eq env [a, b] (by simp) (by rw [hs]; simp)
  rw [hs] at hd
  refine ⟨hs, by rw [hs]; rfl, ?_, hd.1, hd.2⟩
  intro hrange
  have hL : LATY_CORRECTION = 2748779 / 274877906944 := rfl
  obtain ⟨hr1, hr2⟩ := abs_le.1 hrange
  have hu1 : singleUlp (a.latY + LATY_CORRECTION) ≤ 1 / 131072 := by
    have h := singleUlp_le (a.latY + LATY_CORRECTION) 6 (by decide)
      (by rw [abs_lt]; constructor <;> norm_num <;> linarith)
    norm_num at h
    linarith
  have hu2 : singleUlp (a.latY - LATY_CORRECTION) ≤ 1 / 131072 := by
    have h := singleUlp_le (a.latY - LATY_CORRECTION) 6 (by decide)
      (by rw [abs_lt]; constructor <;> norm_num <;> linarith)
    norm_num at h
    linarith
  have he1 := roundToSingle_error (a.latY + LATY_CORRECTION)
  have he2 := roundToSingle_error (a.latY - LATY_CORRECTION)
  have hb1 : |roundToSingle (a.latY + LATY_CORRECTION) - (a.latY + LATY_CORRECTION)| ≤
      1 / 262144 := by linarith
  have hb2 : |roundToSingle (a.latY - LATY_CORRECTION) - (a.latY - LATY_CORRECTION)| ≤
      1 / 262144 := by linarith
  obtain ⟨hb1l, hb1u⟩ := abs_le.1 hb1
  obtain ⟨hb2l, hb2u⟩ := abs_le.1 hb2
  refine ⟨roundToSingle (a.latY + LATY_CORRECTION), roundToSingle (a.latY - LATY_CORRECTION),
    by rw [hs]; rfl, ?_, ?_, hb1, hb2, ?_⟩
  · linarith
  · rw [← hlat]
    linarith
  · rw [abs_le]
    constructor <;> linarith

/-- Witness for C7 with the sums rounded: the line from (0, 50) to (1, 50) on the
sample map. -/
theorem drawLineString_equal_latitudes_witness :
    splitLines demoEnv [⟨0, 50⟩, ⟨1, 50⟩] =
      [⟨0, roundToSingle (50 + LATY_CORRECTION)⟩, ⟨1, roundToSingle (50 - LATY_CORRECTION)⟩] ∧
    ∃ lat1 lat2, (splitLines demoEnv [⟨0, 50⟩, ⟨1, 50⟩]).map Pos.latY = [lat1, lat2] ∧
      50 < lat1 ∧ lat2 < 50 ∧
      |lat1 - (50 + LATY_CORRECTION)| ≤ 1 / 262144 ∧
      |lat2 - (50 - LATY_CORRECTION)| ≤ 1 / 262144 ∧
      |lat1 - lat2 - 2 * LATY_CORRECTION| ≤ 1 / 131072 :=
  have h := drawLineString_equal_latitudes demoEnv ⟨0, 50⟩ ⟨1, 50⟩ rfl
    (by norm_num [demoEnv])
    (by simp [demoEnv])
    (by norm_num [demoEnv, removeConsecutiveDuplicates])
  ⟨h.1, h.2.2.1 (by norm_num [abs_of_pos])⟩

/-- C8: for every segment of `splitLines`, `drawLineString` asks for 20
interpolated points when the simple length is `> 30`, for 5 when it is `> 5` and
`<= 30` (30 itself included), and otherwise takes the first point of the segment
only (5 itself is not subdivided); `drawLineStringRadial` uses the same
thresholds with the rhumb line interpolation.  The polyline consists of these
points, segment by segment, and the last point; when no segment is longer than
5 it is exactly the corrected sequence `splitLines`. -/
theorem drawLineString_subdivision (env : Env) (linestring : List Pos) :
    (∀ interpolate line, 30 < env.lengthSimple line →
      segmentPoints env interpolate line = interpolate line (env.lengthMeter line) 20) ∧
    (∀ interpolate line, 5 < env.lengthSimple line → env.lengthSimple line ≤ 30 →
      segmentPoints env interpolate line = interpolate line (env.lengthMeter line) 5) ∧
    (∀ interpolate line, env.lengthSimple line ≤ 5 →
      segmentPoints env interpolate line = [line.pos1]) ∧
    (2 ≤ linestring.length → splitLines env linestring ≠ [] →
      polylines (drawLineString env linestring) =
        [(segments (splitLines env linestring)).flatMap
            (segmentPoints env env.interpolatePoints) ++
          (splitLines env linestring).getLast?.toList] ∧
      polylines (drawLineStringRadial env linestring) =
        [(segments (splitLines env linestring)).flatMap
            (segmentPoints env env.interpolatePointsRhumb) ++
          (splitLines env linestring).getLast?.toList]) ∧
    (2 ≤ linestring.length → splitLines env linestring ≠ [] →
      (∀ line ∈ segments (splitLines env linestring), env.lengthSimple line ≤ 5) →
      polylines (drawLineString env linestring) = [splitLines env linestring] ∧
      polylines (drawLineStringRadial env linestring) = [splitLines env linestring]) := by
  refine ⟨?_, ?_, ?_, ?_, ?_⟩
  · intro interpolate line h
    unfold segmentPoints
    rw [if_pos h]
  · intro interpolate line h5 h30
    unfold segmentPoints
    rw [if_neg (not_lt.mpr h30), if_pos h5]
  · intro interpolate line h
    unfold segmentPoints
    rw [if_neg (by linarith), if_neg (by linarith)]
  · intro hlen hne
    have hd := drawLineString_eq env linestring hlen hne
    rw [hd.1, hd.2]
    exact ⟨rfl, rfl⟩
  · intro hlen hne hshort
    have hd := drawLineString_eq env linestring hlen hne
    rw [hd.1, hd.2, geoLineStringCoordinates_short env _ _ hshort,
      geoLineStringCoordinates_short env _ _ hshort]
    exact ⟨rfl, rfl⟩

/-- Witness for C8: on the sample map the segment from (0, 0) to (30, 1) has
simple length 31 and gets 20 points, the segment from (0, 0) to (30, 0) has
simple length exactly 30 and gets 5, and the line string (0, 0), (4, 1) with
simple length exactly 5 is drawn as its two points. -/
theorem drawLineString_subdivision_witness :
    segmentPoints demoEnv demoEnv.interpolatePoints ⟨⟨0, 0⟩, ⟨30, 1⟩⟩ =
      demoEnv.interpolatePoints ⟨⟨0, 0⟩, ⟨30, 1⟩⟩ (demoEnv.lengthMeter ⟨⟨0, 0⟩, ⟨30, 1⟩⟩) 20 ∧
    segmentPoints demoEnv demoEnv.interpolatePoints ⟨⟨0, 0⟩, ⟨30, 0⟩⟩ =
      demoEnv.interpolatePoints ⟨⟨0, 0⟩, ⟨30, 0⟩⟩ (demoEnv.lengthMeter ⟨⟨0, 0⟩, ⟨30, 0⟩⟩) 5 ∧
    polylines (drawLineString demoEnv [⟨0, 0⟩, ⟨4, 1⟩]) = [[⟨0, 0⟩, ⟨4, 1⟩]] := by
  have h := drawLineString_subdivision demoEnv [⟨0, 0⟩, ⟨4, 1⟩]
  have hs : splitLines demoEnv [⟨0, 0⟩, ⟨4, 1⟩] = [⟨0, 0⟩, ⟨4, 1⟩] := by
    norm_num [splitLines, latitudeCorrection, latitudeCorrectionFrom, LATY_CORRECTION,
      removeConsecutiveDuplicates, demoEnv, abs_eq_max_neg, max_def]
  refine ⟨h.1 _ _ (by norm_num [demoEnv, manhattanLength, abs_eq_max_neg, max_def]),
    h.2.1 _ _ (by norm_num [demoEnv, manhattanLength, abs_eq_max_neg, max_def])
      (by norm_num [demoEnv, manhattanLength, abs_eq_max_neg, max_def]), ?_⟩
  have h5 := h.2.2.2.2 (by simp) (by rw [hs]; simp)
    (by
      rw [hs]
      intro line hl
      simp only [segments, List.mem_singleton] at hl
      subst hl
      norm_num [demoEnv, manhattanLength, abs_eq_max_neg, max_def])
  rw [h5.1, hs]

/-! ## Lines -/

/-- The log of either line string routine holds no call of `drawLine`. -/
theorem drawLineCalls_drawLineString (env : Env) (ls : List Pos) :
    drawLineCalls (drawLineString env ls) = [] ∧
    drawLineCalls (drawLineStringRadial env ls) = [] := by
  unfold drawLineString drawLineStringRadial drawLineStringBody drawLineCalls
  constructor <;> split_ifs <;> rfl

/-- A call of `drawLine` with `noRecurse` set: the entry, then the line string
of the two ends unless the line is invalid, a point or crosses the anti-meridian. -/
theorem drawLine_noRecurse (env : Env) (line : Line) (depth : Nat) :
    drawLine env line true depth =
      Event.drawLine false line true depth ::
        (if env.lineIsValid line && !env.lineIsPoint line then
          if env.lineCrossesAntiMeridian line then [] else drawLineString env [line.pos1, line.pos2]
        else []) := by
  rw [drawLine]
  simp

/-- A call of `drawLineRadial` with `noRecurse` set. -/
theorem drawLineRadial_noRecurse (env : Env) (line : Line) (depth : Nat) :
    drawLineRadial env line true depth =
      Event.drawLine true line true depth ::
        (if env.lineIsValid line && !env.lineIsPoint line then
          if env.lineCrossesAntiMeridian line then []
          else drawLineStringRadial env [line.pos1, line.pos2]
        else []) := by
  rw [drawLineRadial]
  simp

/-- The calls logged by `drawLine` with `noRecurse` set: its own. -/
theorem drawLineCalls_noRecurse (env : Env) (line : Line) (depth : Nat) :
    drawLineCalls (drawLine env line true depth) = [⟨false, line, true, depth⟩] ∧
    drawLineCalls (drawLineRadial env line true depth) = [⟨true, line, true, depth⟩] := by
  rw [drawLine_noRecurse, drawLineRadial_noRecurse]
  have h := drawLineCalls_drawLineString env [line.pos1, line.pos2]
  constructor
  · split_ifs
    · rfl
    · show _ :: drawLineCalls (drawLineString env [line.pos1, line.pos2]) = _
      rw [h.1]
    · rfl
  · split_ifs
    · rfl
    · show _ :: drawLineCalls (drawLineStringRadial env [line.pos1, line.pos2]) = _
      rw [h.2]
    · rfl

/-- The calls logged by the loop over the sub-lines: one per sub-line, with
`noRecurse` set, one level deeper. -/
theorem drawLineCalls_flatMap (env : Env) (depth : Nat) (splits : List Line) :
    drawLineCalls (splits.flatMap fun split => drawLine env split true (depth + 1)) =
      splits.map (fun split => ⟨false, split, true, depth + 1⟩) ∧
    drawLineCalls (splits.flatMap fun split => drawLineRadial env split true (depth + 1)) =
      splits.map (fun split => ⟨true, split, true, depth + 1⟩) := by
  induction splits with
  | nil => exact ⟨rfl, rfl⟩
  | cons split rest ih =>
    have h := drawLineCalls_noRecurse env split (depth + 1)
    unfold drawLineCalls at h ih ⊢
    simp only [List.flatMap_cons, List.filterMap_append, List.map_cons]
    rw [h.1, h.2, ih.1, ih.2]
    exact ⟨rfl, rfl⟩

/-- The calls logged by `drawLine` and `drawLineRadial` with `noRecurse` clear:
their own and, for a valid line that is no point and crosses the anti-meridian,
one per sub-line. -/
theorem drawLineCalls_recurse (env : Env) (line : Line) (depth : Nat) :
    drawLineCalls (drawLine env line false depth) =
      ⟨false, line, false, depth⟩ ::
        (if env.lineIsValid line && !env.lineIsPoint line then
          if env.lineCrossesAntiMeridian line then
            (env.lineSplitAtAntiMeridian line).map fun split => ⟨false, split, true, depth + 1⟩
          else []
        else []) ∧
    drawLineCalls (drawLineRadial env line false depth) =
      ⟨true, line, false, depth⟩ ::
        (if env.lineIsValid line && !env.lineIsPoint line then
          if env.lineCrossesAntiMeridian line then
            (env.lineSplitAtAntiMeridian line).map fun split => ⟨true, split, true, depth + 1⟩
          else []
        else []) := by
  have hf := drawLineCalls_flatMap env depth (env.lineSplitAtAntiMeridian line)
  have hs := drawLineCalls_drawLineString env [line.pos1, line.pos2]
  rw [drawLine, drawLineRadial]
  simp only [dite_true]
  constructor
  · split_ifs
    · show _ :: drawLineCalls _ = _
      rw [hf.1]
    · show _ :: drawLineCalls _ = _
      rw [hs.1]
    · rfl
  · split_ifs
    · show _ :: drawLineCalls _ = _
      rw [hf.2]
    · show _ :: drawLineCalls _ = _
      rw [hs.2]
    · rfl

/-- C9: `drawLine` and `drawLineRadial` are total and recurse at most one level.
A call with `noRecurse = true` makes no further call, and draws nothing when the
line still crosses the anti-meridian.  A call with `noRecurse = false` on a valid
line that is no point and crosses the anti-meridian calls itself exactly once
per sub-line of `splitAtAntiMeridian`, in order, each time with
`noRecurse = true`.  For every line and flag all calls in the log are at most
one level below the first, and those one level below have `noRecurse = true`. -/
theorem drawLine_recursion_depth (env : Env) (line : Line) (depth : Nat) :
    (drawLineCalls (drawLine env line true depth) = [⟨false, line, true, depth⟩] ∧
      drawLineCalls (drawLineRadial env line true depth) = [⟨true, line, true, depth⟩]) ∧
    (env.lineCrossesAntiMeridian line = true →
      drawLine env line true depth = [Event.drawLine false line true depth] ∧
      drawLineRadial env line true depth = [Event.drawLine true line true depth]) ∧
    (env.lineIsValid line = true → env.lineIsPoint line = false →
      env.lineCrossesAntiMeridian line = true →
      drawLineCalls (drawLine env line false depth) =
        ⟨false, line, false, depth⟩ ::
          (env.lineSplitAtAntiMeridian line).map (fun split => ⟨false, split, true, depth + 1⟩) ∧
      drawLineCalls (drawLineRadial env line false depth) =
        ⟨true, line, false, depth⟩ ::
          (env.lineSplitAtAntiMeridian line).map (fun split => ⟨true, split, true, depth + 1⟩)) ∧
    (∀ noRecurse, ∀ call ∈ drawLineCalls (drawLine env line noRecurse depth),
      call.depth ≤ depth + 1 ∧ (call.depth = depth + 1 → call.noRecurse = true)) ∧
    (∀ noRecurse, ∀ call ∈ drawLineCalls (drawLineRadial env line noRecurse depth),
      call.depth ≤ depth + 1 ∧ (call.depth = depth + 1 → call.noRecurse = true)) := by
  have hn := drawLineCalls_noRecurse env line depth
  have hr := drawLineCalls_recurse env line depth
  refine ⟨hn, ?_, ?_, ?_, ?_⟩
  · intro hc
    rw [drawLine_noRecurse, drawLineRadial_noRecurse]
    simp [hc]
  · intro hv hp hc
    rw [hr.1, hr.2]
    simp [hv, hp, hc]
  · intro noRecurse call hcall
    cases noRecurse with
    | true =>
      rw [hn.1] at hcall
      simp only [List.mem_singleton] at hcall
      subst hcall
      exact ⟨Nat.le_succ _, fun h => absurd h (by simp)⟩
    | false =>
      rw [hr.1] at hcall
      rcases List.mem_cons.mp hcall with h | h
      · subst h
        exact ⟨Nat.le_succ _, fun h => absurd h (by simp)⟩
      · split_ifs at h
        · obtain ⟨split, -, rfl⟩ := List.mem_map.mp h
          exact ⟨le_refl _, fun _ => rfl⟩
        · simp at h
        · simp at h
  · intro noRecurse call hcall
    cases noRecurse with
    | true =>
      rw [hn.2] at hcall
      simp only [List.mem_singleton] at hcall
      subst hcall
      exact ⟨Nat.le_succ _, fun h => absurd h (by simp)⟩
    | false =>
      rw [hr.2] at hcall
      rcases List.mem_cons.mp hcall with h | h
      · subst h
        exact ⟨Nat.le_succ _, fun h => absurd h (by simp)⟩
      · split_ifs at h
        · obtain ⟨split, -, rfl⟩ := List.mem_map.mp h
          exact ⟨le_refl _, fun _ => rfl⟩
        · simp at h
        · simp at h

/-- Witness for C9: the line from (170, 10) to (-170, 20) crosses the
anti-meridian on the sample map; `drawLine` calls itself once for each of the
two sub-lines with `noRecurse = true`. -/
theorem drawLine_recursion_depth_witness :
    drawLineCalls (drawLine demoEnv ⟨⟨170, 10⟩, ⟨-170, 20⟩⟩ false 0) =
      [⟨false, ⟨⟨170, 10⟩, ⟨-170, 20⟩⟩, false, 0⟩,
        ⟨false, ⟨⟨170, 10⟩, ⟨180, 10⟩⟩, true, 1⟩,
        ⟨false, ⟨⟨-180, 20⟩, ⟨-170, 20⟩⟩, true, 1⟩] := by
  have h := (drawLine_recursion_depth demoEnv ⟨⟨170, 10⟩, ⟨-170, 20⟩⟩ 0).2.2.1 rfl
    (by simp [demoEnv])
    (by norm_num [demoEnv, abs_eq_max_neg, max_def])
  rw [h.1]
  norm_num [demoEnv]

/-! ## Degenerate line strings -/

/-- A line string with fewer than two points is only logged: no polyline. -/
theorem drawLineString_fewer_than_two_points (env : Env) (linestring : List Pos)
    (h : linestring.length < 2) :
    drawLineString env linestring = [Event.drawLineString false linestring] ∧
    polylines (drawLineString env linestring) = [] := by
  unfold drawLineString drawLineStringBody
  rw [if_pos h]
  exact ⟨rfl, rfl⟩

/-- A line string of two or more points that duplicate removal reduces to one
point is submitted as a polyline of that single point. -/
theorem drawLineString_single_point_left (env : Env) (linestring : List Pos) (p : Pos)
    (hlen : 2 ≤ linestring.length)
    (hone : env.removeDuplicates (env.splitAtAntiMeridian linestring) = [p]) :
    polylines (drawLineString env linestring) = [[p]] := by
  have hs : splitLines env linestring = [p] := by
    unfold splitLines
    rw [hone]
    rfl
  rw [(drawLineString_eq env linestring hlen (by rw [hs]; simp)).1, hs]
  rfl

/-- C10, the code on a zero-length line string: for two identical points the
guard `linestring.size() < 2` does not fire, `removeDuplicates` leaves one point
and `drawLineString` submits a polyline of that single point. -/
theorem drawLineString_identical_points :
    drawLineString demoEnv [⟨0, 0⟩, ⟨0, 0⟩] =
      [Event.drawLineString false [⟨0, 0⟩, ⟨0, 0⟩], Event.drawPolyline [⟨0, 0⟩]] ∧
    polylines (drawLineString demoEnv [⟨0, 0⟩, ⟨0, 0⟩]) = [[⟨0, 0⟩]] := by
  have hs : splitLines demoEnv [⟨0, 0⟩, ⟨0, 0⟩] = [⟨0, 0⟩] := by
    simp [splitLines, latitudeCorrection, latitudeCorrectionFrom, removeConsecutiveDuplicates,
      demoEnv]
  have h := (drawLineString_eq demoEnv [⟨0, 0⟩, ⟨0, 0⟩] (by simp) (by rw [hs]; simp)).1
  rw [h, hs]
  exact ⟨rfl, rfl⟩

/-! ## Buffered projection -/

/-- C11: for every position, size and margins `wToSBuf` (in both variants)
returns true exactly when the base projection reports visible, or reports
neither visible nor hidden and the rounded projected point lies in the screen
rectangle enlarged by the margins.  The hidden output is the hidden flag of the
base projection, so for a hidden point the result is the base visibility
whatever the margins, and a base-visible point is visible for all margins. -/
theorem wToSBuf_visible_iff (env : Env) (coords : Pos) (size : QSize) (margins : QMargins)
    (hidden : Option Bool) :
    ((wToSBufF env coords size margins hidden).visible = true ↔
      ((env.wToSF coords size).visible = true ∨
        ((env.wToSF coords size).visible = false ∧ (env.wToSF coords size).hidden = false ∧
          env.screenRectMarginsAddedContains margins
            (env.roundToInt (env.wToSF coords size).x)
            (env.roundToInt (env.wToSF coords size).y) = true))) ∧
    (wToSBuf env coords size margins hidden).visible =
      (wToSBufF env coords size margins hidden).visible ∧
    (wToSBufF env coords size margins hidden).hidden =
      hidden.map (fun _ => (env.wToSF coords size).hidden) ∧
    (wToSBuf env coords size margins hidden).hidden =
      hidden.map (fun _ => (env.wToSF coords size).hidden) ∧
    (wToSBufF env coords size margins (some false)).hidden =
      some (env.wToSF coords size).hidden ∧
    ((env.wToSF coords size).hidden = true →
      ∀ m, (wToSBufF env coords size m hidden).visible = (env.wToSF coords size).visible) ∧
    ((env.wToSF coords size).visible = true →
      ∀ m, (wToSBufF env coords size m hidden).visible = true) := by
  unfold wToSBuf wToSBufF
  generalize env.wToSF coords size = base
  rcases base with ⟨x, y, v, h⟩
  cases v <;> cases h <;> simp

/-- Witness for C11 on the sample map: the point (-1, 0) projects to (-10, 0),
outside the screen and not hidden; it is invisible without margins and visible
with a left margin of 10 pixels.  The point (130, 0) is hidden and stays
invisible with margins of 1000 pixels. -/
theorem wToSBuf_visible_iff_witness :
    (wToSBufF demoEnv ⟨-1, 0⟩ ⟨100, 100⟩ ⟨0, 0, 0, 0⟩ none).visible = false ∧
    (wToSBufF demoEnv ⟨-1, 0⟩ ⟨100, 100⟩ ⟨10, 0, 0, 0⟩ none).visible = true ∧
    (wToSBufF demoEnv ⟨130, 0⟩ ⟨100, 100⟩ ⟨1000, 1000, 1000, 1000⟩ (some false)).visible
      = false := by
  have h1 := (wToSBuf_visible_iff demoEnv ⟨-1, 0⟩ ⟨100, 100⟩ ⟨10, 0, 0, 0⟩ none).1
  have h2 := (wToSBuf_visible_iff demoEnv ⟨130, 0⟩ ⟨100, 100⟩ ⟨0, 0, 0, 0⟩
    (some false)).2.2.2.2.2.1 (by norm_num [demoEnv, abs_eq_max_neg, max_def])
    ⟨1000, 1000, 1000, 1000⟩
  refine ⟨?_, ?_, ?_⟩
  · norm_num [wToSBufF, demoEnv]
  · exact h1.mpr (Or.inr (by norm_num [demoEnv]))
  · rw [h2]
    norm_num [demoEnv]

/-! ## Sampling loops -/

/-- The point count lies between the two constants when they are ordered. -/
theorem numPoints_bounds (circleMinPoints circleMaxPoints pixel : Int) (fast : Bool)
    (h : circleMinPoints ≤ circleMaxPoints) :
    circleMinPoints ≤ numPoints circleMinPoints circleMaxPoints pixel fast ∧
    numPoints circleMinPoints circleMaxPoints pixel fast ≤ circleMaxPoints := by
  unfold numPoints
  exact ⟨le_min (le_max_right _ _) h, min_le_right _ _⟩

/-- With `1 <= CIRCLE_MIN_POINTS <= CIRCLE_MAX_POINTS <= 360` the point count is
not zero and the step is at least one degree. -/
theorem circleStep_pos (env : Env) (radiusNm : ℚ) (fast : Bool)
    (hmin : 1 ≤ env.CIRCLE_MIN_POINTS) (hle : env.CIRCLE_MIN_POINTS ≤ env.CIRCLE_MAX_POINTS)
    (hmax : env.CIRCLE_MAX_POINTS ≤ 360) :
    numPoints env.CIRCLE_MIN_POINTS env.CIRCLE_MAX_POINTS
      (env.getPixelIntForMeter (env.nmToMeter radiusNm)) fast ≠ 0 ∧
    1 ≤ circleStep env radiusNm fast := by
  have hb := numPoints_bounds env.CIRCLE_MIN_POINTS env.CIRCLE_MAX_POINTS
    (env.getPixelIntForMeter (env.nmToMeter radiusNm)) fast hle
  unfold circleStep
  generalize numPoints env.CIRCLE_MIN_POINTS env.CIRCLE_MAX_POINTS
    (env.getPixelIntForMeter (env.nmToMeter radiusNm)) fast = n at hb ⊢
  have hn : 0 < n := by omega
  refine ⟨by omega, ?_⟩
  rw [Int.tdiv_eq_ediv (by decide) hn.le]
  exact Int.le_ediv_of_mul_le hn (by omega)

/-- With `1 <= CIRCLE_MIN_POINTS <= CIRCLE_MAX_POINTS <= 360` the point count is
not zero and the step is the integer quotient, between 1 and 360. -/
theorem angleStep_bounds (circleMinPoints circleMaxPoints pixel : Int) (fast : Bool)
    (hmin : 1 ≤ circleMinPoints) (hle : circleMinPoints ≤ circleMaxPoints)
    (hmax : circleMaxPoints ≤ 360) :
    numPoints circleMinPoints circleMaxPoints pixel fast ≠ 0 ∧
    1 ≤ angleStep circleMinPoints circleMaxPoints pixel fast ∧
    angleStep circleMinPoints circleMaxPoints pixel fast ≤ 360 ∧
    angleStep circleMinPoints circleMaxPoints pixel fast =
      360 / numPoints circleMinPoints circleMaxPoints pixel fast := by
  have hb := numPoints_bounds circleMinPoints circleMaxPoints pixel fast hle
  unfold angleStep
  generalize numPoints circleMinPoints circleMaxPoints pixel fast = n at hb ⊢
  have hn : 0 < n := by omega
  rw [Int.tdiv_eq_ediv (by decide) hn.le]
  exact ⟨by omega, Int.le_ediv_of_mul_le hn (by omega), Int.ediv_le_self _ (by decide), rfl⟩

/-- The circle loop runs the loop body over the sampled angles. -/
theorem circleLoop_eq_ringFold (env : Env) (centerPos : Pos) (radiusMeter : ℚ)
    (collectTexts : Bool) (step : Int) (fuel : Nat) (i : Int) (s : RingState) :
    (circleLoop env centerPos radiusMeter collectTexts step fuel i s).1 =
      ringFold env collectTexts
        ((circleAngles step fuel i).map
          fun (a : Int) => env.endpoint centerPos radiusMeter (a : ℚ)) s := by
  induction fuel generalizing i s with
  | zero => rfl
  | succ fuel ih =>
    unfold circleLoop circleAngles
    split_ifs
    · rw [ih]
      rfl
    · rfl

/-- The circle loop is left when the fuel covers the distance to 360. -/
theorem circleLoop_returned (env : Env) (centerPos : Pos) (radiusMeter : ℚ)
    (collectTexts : Bool) (step : Int) (fuel : Nat) (i : Int) (s : RingState)
    (h : 360 < i + fuel * step) :
    (circleLoop env centerPos radiusMeter collectTexts step fuel i s).2 = true := by
  induction fuel generalizing i s with
  | zero =>
    unfold circleLoop
    simp only [Nat.cast_zero, zero_mul, add_zero] at h
    simp [h]
  | succ fuel ih =>
    unfold circleLoop
    split_ifs
    · apply ih
      push_cast at h
      linarith
    · rfl

/-- The candidates along `p2 :: rest`: the candidate of the first segment, if
it is one, then those of the rest. -/
theorem textCandidatesFrom_cons (env : Env) (sp1 : ScreenPos) (lastVisible : Bool) (p2 : Pos)
    (rest : List Pos) :
    textCandidatesFrom env sp1 lastVisible (p2 :: rest) =
      (if (lastVisible ||
            env.segmentIntersectsViewport sp1.x sp1.y (env.wToS p2 env.DEFAULT_WTOS_SIZE).x
              (env.wToS p2 env.DEFAULT_WTOS_SIZE).y) &&
          (sp1.visible && (env.wToS p2 env.DEFAULT_WTOS_SIZE).visible) &&
          (!sp1.hidden && !(env.wToS p2 env.DEFAULT_WTOS_SIZE).hidden) then
        [(⟨Int.tdiv (sp1.x + (env.wToS p2 env.DEFAULT_WTOS_SIZE).x) 2,
          Int.tdiv (sp1.y + (env.wToS p2 env.DEFAULT_WTOS_SIZE).y) 2⟩ : QPoint)]
      else []) ++
      textCandidatesFrom env (env.wToS p2 env.DEFAULT_WTOS_SIZE)
        (env.segmentIntersectsViewport sp1.x sp1.y (env.wToS p2 env.DEFAULT_WTOS_SIZE).x
          (env.wToS p2 env.DEFAULT_WTOS_SIZE).y) rest := by
  rw [textCandidatesFrom]
  split_ifs <;> rfl

/-- The text candidates collected by the loop body over a list of points are the
candidates of the specification, and the ring is visible once one is collected. -/
theorem ringFold_texts (env : Env) (points : List Pos) (s : RingState) :
    (ringFold env true points s).xtexts =
      s.xtexts ++ (textCandidatesFrom env ⟨s.x1, s.y1, s.visible1, s.hidden1⟩ s.lastVisible
        points).map QPoint.x ∧
    (ringFold env true points s).ytexts =
      s.ytexts ++ (textCandidatesFrom env ⟨s.x1, s.y1, s.visible1, s.hidden1⟩ s.lastVisible
        points).map QPoint.y ∧
    ((s.ringVisible = true ∨
        textCandidatesFrom env ⟨s.x1, s.y1, s.visible1, s.hidden1⟩ s.lastVisible points ≠ []) →
      (ringFold env true points s).ringVisible = true) := by
  induction points generalizing s with
  | nil => simp [ringFold, textCandidatesFrom]
  | cons p2 rest ih =>
    have h := ih (ringSegment env true p2 s)
    have hfold : ringFold env true (p2 :: rest) s =
        ringFold env true rest (ringSegment env true p2 s) := rfl
    rw [hfold, h.1, h.2.1, textCandidatesFrom_cons]
    have hsp : (⟨(ringSegment env true p2 s).x1, (ringSegment env true p2 s).y1,
        (ringSegment env true p2 s).visible1, (ringSegment env true p2 s).hidden1⟩ : ScreenPos) =
        env.wToS p2 env.DEFAULT_WTOS_SIZE := rfl
    have hlv : (ringSegment env true p2 s).lastVisible =
        env.segmentIntersectsViewport s.x1 s.y1 (env.wToS p2 env.DEFAULT_WTOS_SIZE).x
          (env.wToS p2 env.DEFAULT_WTOS_SIZE).y := rfl
    rw [hsp, hlv] at h ⊢
    generalize textCandidatesFrom env (env.wToS p2 env.DEFAULT_WTOS_SIZE)
      (env.segmentIntersectsViewport s.x1 s.y1 (env.wToS p2 env.DEFAULT_WTOS_SIZE).x
        (env.wToS p2 env.DEFAULT_WTOS_SIZE).y) rest = tail at h ⊢
    refine ⟨?_, ?_, ?_⟩
    · unfold ringSegment
      dsimp only
      cases s.lastVisible <;>
        cases env.segmentIntersectsViewport s.x1 s.y1 (env.wToS p2 env.DEFAULT_WTOS_SIZE).x
          (env.wToS p2 env.DEFAULT_WTOS_SIZE).y <;>
        cases s.visible1 <;> cases (env.wToS p2 env.DEFAULT_WTOS_SIZE).visible <;>
        cases s.hidden1 <;> cases (env.wToS p2 env.DEFAULT_WTOS_SIZE).hidden <;> simp
    · unfold ringSegment
      dsimp only
      cases s.lastVisible <;>
        cases env.segmentIntersectsViewport s.x1 s.y1 (env.wToS p2 env.DEFAULT_WTOS_SIZE).x
          (env.wToS p2 env.DEFAULT_WTOS_SIZE).y <;>
        cases s.visible1 <;> cases (env.wToS p2 env.DEFAULT_WTOS_SIZE).visible <;>
        cases s.hidden1 <;> cases (env.wToS p2 env.DEFAULT_WTOS_SIZE).hidden <;> simp
    · intro hor
      apply h.2.2
      revert hor
      unfold ringSegment
      dsimp only
      cases s.ringVisible <;> cases s.lastVisible <;>
        cases env.segmentIntersectsViewport s.x1 s.y1 (env.wToS p2 env.DEFAULT_WTOS_SIZE).x
          (env.wToS p2 env.DEFAULT_WTOS_SIZE).y <;> simp

/-- With a point count other than zero and a step of at least one degree
`paintCircleLargeInternal` returns what the statements after the loop make of
the loop body run over the sample points. -/
theorem paintCircleLargeInternal_eq_circleFinish (env : Env) (centerPos : Pos) (radiusNm : ℚ)
    (fast : Bool) (textPos : Option QPoint)
    (hn : numPoints env.CIRCLE_MIN_POINTS env.CIRCLE_MAX_POINTS
      (env.getPixelIntForMeter (env.nmToMeter radiusNm)) fast ≠ 0)
    (hstep : 1 ≤ circleStep env radiusNm fast) :
    paintCircleLargeInternal env centerPos radiusNm fast textPos =
      circleFinish env (circleStartPoint env centerPos radiusNm)
        (textPos.map fun _ => (⟨0, 0⟩ : QPoint))
        (ringFold env textPos.isSome (circleSamplePoints env centerPos radiusNm fast)
          (circleInitState env centerPos radiusNm fast)) := by
  have hret := circleLoop_returned env centerPos (env.nmToMeter radiusNm) textPos.isSome
    (circleStep env radiusNm fast) 360 (circleStep env radiusNm fast)
    (circleInitState env centerPos radiusNm fast) (by push_cast; linarith)
  have hfold := circleLoop_eq_ringFold env centerPos (env.nmToMeter radiusNm) textPos.isSome
    (circleStep env radiusNm fast) 360 (circleStep env radiusNm fast)
    (circleInitState env centerPos radiusNm fast)
  have e : paintCircleLargeInternal env centerPos radiusNm fast textPos =
      if (!(circleLoop env centerPos (env.nmToMeter radiusNm) textPos.isSome
          (circleStep env radiusNm fast) 360 (circleStep env radiusNm fast)
          (circleInitState env centerPos radiusNm fast)).2) = true then
        ⟨(circleLoop env centerPos (env.nmToMeter radiusNm) textPos.isSome
          (circleStep env radiusNm fast) 360 (circleStep env radiusNm fast)
          (circleInitState env centerPos radiusNm fast)).1.events,
          textPos.map fun _ => (⟨0, 0⟩ : QPoint), false⟩
      else
        circleFinish env (circleStartPoint env centerPos radiusNm)
          (textPos.map fun _ => (⟨0, 0⟩ : QPoint))
          (circleLoop env centerPos (env.nmToMeter radiusNm) textPos.isSome
            (circleStep env radiusNm fast) 360 (circleStep env radiusNm fast)
            (circleInitState env centerPos radiusNm fast)).1 := by
    unfold paintCircleLargeInternal
    rw [if_neg hn]
    rfl
  rw [e, hret, hfold]
  rfl

/-- The log of `drawLineString` records the line string it was called with. -/
theorem lineStringRuns_drawLineString (env : Env) (ls : List Pos) :
    lineStringRuns (drawLineString env ls) = [ls] := by
  unfold drawLineString drawLineStringBody lineStringRuns
  split_ifs <;> rfl

/-- The runs of a log that continues with a call of `drawLineString`. -/
theorem lineStringRuns_append_drawLineString (env : Env) (events : List Event) (ls : List Pos) :
    lineStringRuns (events ++ drawLineString env ls) = lineStringRuns events ++ [ls] := by
  rw [← lineStringRuns_drawLineString env ls]
  unfold lineStringRuns
  rw [List.filterMap_append]

/-- The loop body seen through its runs: from a state in which an idle loop has
an empty `ellipse` and an accumulating loop has a visible ring and a non-empty
`ellipse`, the runs flushed by the loop together with the run flushed after it
are the runs of the machine over the sampled segments. -/
theorem ringFold_runs (env : Env) (collectTexts : Bool) (closing : Pos) (points : List Pos)
    (s : RingState) (hidle : s.lastVisible = false → s.ellipse = [])
    (hacc : s.lastVisible = true → s.ringVisible = true ∧ s.ellipse ≠ []) :
    lineStringRuns (ringFold env collectTexts points s).events ++
      (if (ringFold env collectTexts points s).ringVisible &&
          !(ringFold env collectTexts points s).ellipse.isEmpty then
        [(ringFold env collectTexts points s).ellipse ++ [closing]] else []) =
    lineStringRuns s.events ++
      machineRuns closing s.ellipse s.lastVisible
        (sampleSegments env ⟨s.x1, s.y1, s.visible1, s.hidden1⟩ s.p1 points) := by
  induction points generalizing s with
  | nil =>
    simp only [ringFold, List.foldl_nil, sampleSegments, machineRuns]
    cases hlv : s.lastVisible with
    | false => simp [hidle hlv]
    | true =>
      obtain ⟨h1, h2⟩ := hacc hlv
      simp [h1, h2]
  | cons p2 rest ih =>
    have hfold : ringFold env collectTexts (p2 :: rest) s =
        ringFold env collectTexts rest (ringSegment env collectTexts p2 s) := rfl
    have hseg : sampleSegments env ⟨s.x1, s.y1, s.visible1, s.hidden1⟩ s.p1 (p2 :: rest) =
        ⟨s.p1, p2, env.segmentIntersectsViewport s.x1 s.y1
          (env.wToS p2 env.DEFAULT_WTOS_SIZE).x (env.wToS p2 env.DEFAULT_WTOS_SIZE).y⟩ ::
        sampleSegments env
          ⟨(ringSegment env collectTexts p2 s).x1, (ringSegment env collectTexts p2 s).y1,
            (ringSegment env collectTexts p2 s).visible1,
            (ringSegment env collectTexts p2 s).hidden1⟩
          (ringSegment env collectTexts p2 s).p1 rest := rfl
    rw [hfold, hseg, machineRuns]
    cases hlv : s.lastVisible <;>
      cases hnv : env.segmentIntersectsViewport s.x1 s.y1
        (env.wToS p2 env.DEFAULT_WTOS_SIZE).x (env.wToS p2 env.DEFAULT_WTOS_SIZE).y
    · have hlv2 : (ringSegment env collectTexts p2 s).lastVisible = false := hnv
      have hel : (ringSegment env collectTexts p2 s).ellipse = [] := by
        simp [ringSegment, hlv, hnv, hidle hlv]
      have hev : (ringSegment env collectTexts p2 s).events = s.events := by
        simp [ringSegment, hlv, hnv]
      rw [ih _ (fun _ => hel) (fun h => absurd h (by simp [hlv2])), hlv2, hel, hev]
      simp
    · have hlv2 : (ringSegment env collectTexts p2 s).lastVisible = true := hnv
      have hel : (ringSegment env collectTexts p2 s).ellipse = s.ellipse ++ [s.p1] := by
        simp [ringSegment, hlv, hnv]
      have hev : (ringSegment env collectTexts p2 s).events = s.events := by
        simp [ringSegment, hlv, hnv]
      have hrv : (ringSegment env collectTexts p2 s).ringVisible = true := by
        simp [ringSegment, hlv, hnv]
      rw [ih _ (fun h => absurd h (by simp [hlv2])) (fun _ => ⟨hrv, by simp [hel]⟩), hlv2, hel,
        hev]
      simp
    · have hlv2 : (ringSegment env collectTexts p2 s).lastVisible = false := hnv
      have hel : (ringSegment env collectTexts p2 s).ellipse = [] := by
        simp [ringSegment, hlv, hnv]
      have hev : (ringSegment env collectTexts p2 s).events =
          s.events ++ drawLineString env (s.ellipse ++ [s.p1]) := by
        simp [ringSegment, hlv, hnv]
      rw [ih _ (fun _ => hel) (fun h => absurd h (by simp [hlv2])), hlv2, hel, hev,
        lineStringRuns_append_drawLineString]
      simp
    · have hlv2 : (ringSegment env collectTexts p2 s).lastVisible = true := hnv
      have hel : (ringSegment env collectTexts p2 s).ellipse = s.ellipse ++ [s.p1] := by
        simp [ringSegment, hlv, hnv]
      have hev : (ringSegment env collectTexts p2 s).events = s.events := by
        simp [ringSegment, hlv, hnv]
      have hrv : (ringSegment env collectTexts p2 s).ringVisible = true := by
        simp [ringSegment, hlv, hnv]
      rw [ih _ (fun h => absurd h (by simp [hlv2])) (fun _ => ⟨hrv, by simp [hel]⟩), hlv2, hel,
        hev]
      simp

/-- Consecutive sampled segments share a point: each ends where the next starts. -/
theorem sampleSegments_chain (env : Env) (points : List Pos) (sp1 : ScreenPos) (p1 : Pos) :
    List.Chain' (fun a b : SampleSegment => a.p2 = b.p1) (sampleSegments env sp1 p1 points) := by
  induction points generalizing sp1 p1 with
  | nil => exact List.chain'_nil
  | cons p2 rest ih =>
    cases rest with
    | nil => exact List.chain'_singleton _
    | cons p3 rest =>
      have h := ih (env.wToS p2 env.DEFAULT_WTOS_SIZE) p2
      exact List.Chain'.cons rfl h

/-- The machine in the accumulating state: it flushes once, after the visible
segments at the head of the list, and goes on idle. -/
theorem machineRuns_accumulating (closing : Pos) (rest : List SampleSegment) (acc : List Pos)
    (last : SampleSegment)
    (hchain : List.Chain' (fun a b : SampleSegment => a.p2 = b.p1) (last :: rest)) :
    machineRuns closing acc true rest =
      (acc ++ (rest.takeWhile (fun t => t.visible)).map SampleSegment.p1 ++
        [if (rest.dropWhile (fun t => t.visible)).isEmpty then closing
          else ((rest.takeWhile (fun t => t.visible)).getLast?.getD last).p2]) ::
        machineRuns closing [] false (rest.dropWhile (fun t => t.visible)) := by
  induction rest generalizing acc last with
  | nil => simp [machineRuns]
  | cons t rest ih =>
    have hlt : last.p2 = t.p1 := (List.chain'_cons.mp hchain).1
    have hrest := (List.chain'_cons.mp hchain).2
    rw [machineRuns]
    by_cases hv : t.visible = true
    · rw [if_pos hv, ih _ t hrest]
      simp [List.takeWhile_cons, List.dropWhile_cons, hv, List.getLast?_cons]
    · simp only [Bool.not_eq_true] at hv
      simp [List.takeWhile_cons, List.dropWhile_cons, hv, hlt, machineRuns]

/-- The machine started idle flushes the runs the specification expects, for
segments that share their end points. -/
theorem machineRuns_eq_expectedRuns (closing : Pos) (n : Nat) (segs : List SampleSegment)
    (hlen : segs.length ≤ n)
    (hchain : List.Chain' (fun a b : SampleSegment => a.p2 = b.p1) segs) :
    machineRuns closing [] false segs = expectedRuns closing segs := by
  induction n generalizing segs with
  | zero =>
    have h0 : segs = [] := List.length_eq_zero.mp (Nat.le_zero.mp hlen)
    subst h0
    rw [machineRuns, expectedRuns]
    rfl
  | succ n ih =>
    cases segs with
    | nil =>
      rw [machineRuns, expectedRuns]
      rfl
    | cons seg rest =>
      have hrest : rest.length ≤ n := by simpa using hlen
      rw [machineRuns, expectedRuns]
      by_cases hv : seg.visible = true
      · rw [if_pos hv, if_pos hv, machineRuns_accumulating closing rest _ seg hchain,
          ih _ (le_trans (List.dropWhile_sublist _).length_le hrest)
            (hchain.tail.suffix (List.dropWhile_suffix _))]
        simp
      · rw [if_neg hv, if_neg hv]
        simp only [Bool.false_eq_true, if_false]
        exact ih _ hrest hchain.tail

/-- The runs the specification expects, block by block: a run has one point
more than its block has segments, and its points but the last are the start
points of the segments of the block. -/
theorem expectedRuns_blocks (closing : Pos) (n : Nat) (segs : List SampleSegment)
    (hlen : segs.length ≤ n) :
    (expectedRuns closing segs).map List.length =
      (visibleBlocks segs).map (fun block => block.length + 1) ∧
    (expectedRuns closing segs).map List.dropLast =
      (visibleBlocks segs).map (fun block => block.map SampleSegment.p1) := by
  induction n generalizing segs with
  | zero =>
    have h0 : segs = [] := List.length_eq_zero.mp (Nat.le_zero.mp hlen)
    subst h0
    rw [visibleBlocks, expectedRuns]
    exact ⟨rfl, rfl⟩
  | succ n ih =>
    cases segs with
    | nil =>
      rw [visibleBlocks, expectedRuns]
      exact ⟨rfl, rfl⟩
    | cons seg rest =>
      have hrest : rest.length ≤ n := by simpa using hlen
      rw [visibleBlocks, expectedRuns]
      by_cases hv : seg.visible = true
      · have h := ih (rest.dropWhile (fun t => t.visible))
          (le_trans (List.dropWhile_sublist _).length_le hrest)
        rw [if_pos hv, if_pos hv]
        simp only [List.map_cons, h.1, h.2]
        refine ⟨by simp, ?_⟩
        rw [List.dropLast_concat]
      · rw [if_neg hv, if_neg hv]
        exact ih rest hrest

/-- The number of runs of the machine: one for every place where a visible
segment is followed by an invisible one, and one more iff the last segment is
visible. -/
theorem machineRuns_length (closing : Pos) (segs : List SampleSegment) (acc : List Pos)
    (lastVisible : Bool) :
    (machineRuns closing acc lastVisible segs).length =
      visibleToInvisible (lastVisible :: segs.map SampleSegment.visible) +
        (if (lastVisible :: segs.map SampleSegment.visible).getLast? = some true then 1
          else 0) := by
  induction segs generalizing acc lastVisible with
  | nil => cases lastVisible <;> simp [machineRuns, visibleToInvisible]
  | cons seg rest ih =>
    rw [machineRuns]
    cases hv : seg.visible <;> cases lastVisible <;>
      simp [ih, hv, visibleToInvisible, List.getLast?_cons_cons]
    omega

/-- The arc loop runs the loop body over the sampled angles. -/
theorem arcLoop_eq_ringFold (env : Env) (centerPos : Pos) (radiusMeter angleDegEnd : ℚ)
    (step : Int) (fuel : Nat) (angle : ℚ) (s : RingState) :
    (arcLoop env centerPos radiusMeter angleDegEnd step fuel angle s).1 =
      ringFold env false
        ((arcAngles angleDegEnd step fuel angle).map
          fun a => env.endpoint centerPos radiusMeter (env.normalizeCourse a)) s := by
  induction fuel generalizing angle s with
  | zero => rfl
  | succ fuel ih =>
    unfold arcLoop arcAngles
    split_ifs
    · rw [ih]
      rfl
    · rfl

/-- Below 2^24 neighbouring `float` values are at most 1 apart: a sum below 2^24
in magnitude is rounded by at most one half. -/
theorem roundToSingle_error_half (x : ℚ) (hlo : -16777216 < x) (hhi : x < 16777216) :
    |roundToSingle x - x| ≤ 1 / 2 := by
  have hu : singleUlp x ≤ 1 := by
    have h := singleUlp_le x 23 (by decide) (by rw [abs_lt]; constructor <;> norm_num <;> linarith)
    norm_num at h
    exact h
  have he := roundToSingle_error x
  linarith

/-- The arc loop with angles below 2^24 in magnitude: every pass moves the angle
up by at least half a degree, and the loop is left when half the fuel covers the
distance to the end angle. -/
theorem arcLoop_returned (env : Env) (centerPos : Pos) (radiusMeter angleDegEnd : ℚ)
    (step : Int) (hstep : 1 ≤ step) (hhi : angleDegEnd + step < 16777216)
    (fuel : Nat) (angle : ℚ) (hlo : -16777216 < angle) (s : RingState)
    (h : angleDegEnd < angle + (fuel : ℚ) / 2) :
    (arcLoop env centerPos radiusMeter angleDegEnd step fuel angle s).2 = true := by
  induction fuel generalizing angle s with
  | zero =>
    unfold arcLoop
    simp only [Nat.cast_zero, zero_div, add_zero] at h
    simp [h]
  | succ fuel ih =>
    unfold arcLoop
    split_ifs with hle
    · have hs : (1 : ℚ) ≤ step := by exact_mod_cast hstep
      have he := roundToSingle_error_half (angle + step) (by linarith) (by linarith)
      obtain ⟨hel, -⟩ := abs_le.1 he
      apply ih
      · linarith
      · push_cast at h
        linarith
    · rfl

/-- Half the fuel of the arc loop covers the distance from the start angle to the
end angle. -/
theorem arc_fuel_enough (angleDegStart angleEnd : ℚ) :
    angleEnd < angleDegStart + ((arcFuel angleDegStart angleEnd : Nat) : ℚ) / 2 := by
  have h1 : angleEnd - angleDegStart < (⌊angleEnd - angleDegStart⌋ : ℚ) + 1 :=
    Int.lt_floor_add_one _
  have h2 : ((⌊angleEnd - angleDegStart⌋ : Int) : ℚ) ≤
      ((Int.toNat ⌊angleEnd - angleDegStart⌋ : Nat) : ℚ) := by
    have := Int.self_le_toNat ⌊angleEnd - angleDegStart⌋
    exact_mod_cast this
  unfold arcFuel
  push_cast
  linarith

/-- For start and end angles of magnitude up to 2^23 the end angle of the loop
stays below 2^24 - 360. -/
theorem arcAngleEnd_lt (angleDegStart angleDegEnd : ℚ) (hs : |angleDegStart| ≤ 8388608)
    (he : |angleDegEnd| ≤ 8388608) :
    arcAngleEnd angleDegStart angleDegEnd + 360 < 16777216 := by
  obtain ⟨hs1, hs2⟩ := abs_le.1 hs
  obtain ⟨he1, he2⟩ := abs_le.1 he
  unfold arcAngleEnd
  split_ifs with h
  · have hr := roundToSingle_error_half (angleDegEnd + 360) (by linarith) (by linarith)
    obtain ⟨-, hr2⟩ := abs_le.1 hr
    linarith
  · linarith

/-- With an accepted radius and a point count other than zero the result flag of
`paintArc` is the flag of its loop. -/
theorem paintArc_returned_eq (env : Env) (centerPos : Pos)
    (radiusNm angleDegStart angleDegEnd : ℚ) (fast : Bool)
    (hok : ¬ radiusNm > env.EARTH_CIRCUMFERENCE_METER / 4)
    (hn : numPoints env.CIRCLE_MIN_POINTS env.CIRCLE_MAX_POINTS
      (env.getPixelIntForMeter (env.nmToMeter radiusNm)) fast ≠ 0) :
    (paintArc env centerPos radiusNm angleDegStart angleDegEnd fast).returned =
      (arcLoop env centerPos (env.nmToMeter radiusNm) (arcAngleEnd angleDegStart angleDegEnd)
        (circleStep env radiusNm fast) (arcFuel angleDegStart (arcAngleEnd angleDegStart angleDegEnd))
        angleDegStart (arcInitState env centerPos radiusNm angleDegStart)).2 := by
  have e : paintArc env centerPos radiusNm angleDegStart angleDegEnd fast =
      if (!(arcLoop env centerPos (env.nmToMeter radiusNm)
          (arcAngleEnd angleDegStart angleDegEnd) (circleStep env radiusNm fast)
          (arcFuel angleDegStart (arcAngleEnd angleDegStart angleDegEnd)) angleDegStart
          (arcInitState env centerPos radiusNm angleDegStart)).2) = true then
        ⟨(arcLoop env centerPos (env.nmToMeter radiusNm)
          (arcAngleEnd angleDegStart angleDegEnd) (circleStep env radiusNm fast)
          (arcFuel angleDegStart (arcAngleEnd angleDegStart angleDegEnd)) angleDegStart
          (arcInitState env centerPos radiusNm angleDegStart)).1.events, false⟩
      else if (arcLoop env centerPos (env.nmToMeter radiusNm)
          (arcAngleEnd angleDegStart angleDegEnd) (circleStep env radiusNm fast)
          (arcFuel angleDegStart (arcAngleEnd angleDegStart angleDegEnd)) angleDegStart
          (arcInitState env centerPos radiusNm angleDegStart)).1.ringVisible &&
          !(arcLoop env centerPos (env.nmToMeter radiusNm)
          (arcAngleEnd angleDegStart angleDegEnd) (circleStep env radiusNm fast)
          (arcFuel angleDegStart (arcAngleEnd angleDegStart angleDegEnd)) angleDegStart
          (arcInitState env centerPos radiusNm angleDegStart)).1.ellipse.isEmpty then
        ⟨(arcLoop env centerPos (env.nmToMeter radiusNm)
          (arcAngleEnd angleDegStart angleDegEnd) (circleStep env radiusNm fast)
          (arcFuel angleDegStart (arcAngleEnd angleDegStart angleDegEnd)) angleDegStart
          (arcInitState env centerPos radiusNm angleDegStart)).1.events ++
          drawLineString env
            ((arcLoop env centerPos (env.nmToMeter radiusNm)
              (arcAngleEnd angleDegStart angleDegEnd) (circleStep env radiusNm fast)
              (arcFuel angleDegStart (arcAngleEnd angleDegStart angleDegEnd))
              angleDegStart (arcInitState env centerPos radiusNm angleDegStart)).1.ellipse ++
              [arcClosingPoint env centerPos radiusNm angleDegStart angleDegEnd]), true⟩
      else
        ⟨(arcLoop env centerPos (env.nmToMeter radiusNm)
          (arcAngleEnd angleDegStart angleDegEnd) (circleStep env radiusNm fast)
          (arcFuel angleDegStart (arcAngleEnd angleDegStart angleDegEnd)) angleDegStart
          (arcInitState env centerPos radiusNm angleDegStart)).1.events, true⟩ := by
    unfold paintArc
    rw [if_neg hok, if_neg hn]
    rfl
  rw [e]
  cases (arcLoop env centerPos (env.nmToMeter radiusNm)
    (arcAngleEnd angleDegStart angleDegEnd) (circleStep env radiusNm fast)
    (arcFuel angleDegStart (arcAngleEnd angleDegStart angleDegEnd)) angleDegStart
    (arcInitState env centerPos radiusNm angleDegStart)).2
  · rfl
  · simp only [Bool.not_true, Bool.false_eq_true, if_false]
    split_ifs <;> rfl

/-- With `1 <= CIRCLE_MIN_POINTS <= CIRCLE_MAX_POINTS <= 360` and an accepted
radius `paintArc` returns for all start and end angles of magnitude up to 2^23. -/
theorem paintArc_returned (env : Env) (centerPos : Pos)
    (radiusNm angleDegStart angleDegEnd : ℚ) (fast : Bool)
    (hmin : 1 ≤ env.CIRCLE_MIN_POINTS) (hle : env.CIRCLE_MIN_POINTS ≤ env.CIRCLE_MAX_POINTS)
    (hmax : env.CIRCLE_MAX_POINTS ≤ 360)
    (hok : ¬ radiusNm > env.EARTH_CIRCUMFERENCE_METER / 4)
    (hs : |angleDegStart| ≤ 8388608) (he : |angleDegEnd| ≤ 8388608) :
    (paintArc env centerPos radiusNm angleDegStart angleDegEnd fast).returned = true := by
  obtain ⟨hn, hstep⟩ := circleStep_pos env radiusNm fast hmin hle hmax
  have h360 : circleStep env radiusNm fast ≤ 360 :=
    (angleStep_bounds env.CIRCLE_MIN_POINTS env.CIRCLE_MAX_POINTS
      (env.getPixelIntForMeter (env.nmToMeter radiusNm)) fast hmin hle hmax).2.2.1
  have h360q : ((circleStep env radiusNm fast : Int) : ℚ) ≤ 360 := by exact_mod_cast h360
  have hend := arcAngleEnd_lt angleDegStart angleDegEnd hs he
  rw [paintArc_returned_eq env centerPos radiusNm angleDegStart angleDegEnd fast hok hn]
  exact arcLoop_returned env centerPos _ _ _ hstep (by linarith) _ _
    (by linarith [(abs_le.1 hs).1]) _ (arc_fuel_enough _ _)

/-- With an accepted radius and a point count other than zero, a call of
`paintArc` whose loop is left has run the loop body over the sample points and
flushed the last run if there is one. -/
theorem paintArc_eq_ringFold (env : Env) (centerPos : Pos)
    (radiusNm angleDegStart angleDegEnd : ℚ) (fast : Bool)
    (hok : ¬ radiusNm > env.EARTH_CIRCUMFERENCE_METER / 4)
    (hn : numPoints env.CIRCLE_MIN_POINTS env.CIRCLE_MAX_POINTS
      (env.getPixelIntForMeter (env.nmToMeter radiusNm)) fast ≠ 0)
    (hret : (arcLoop env centerPos (env.nmToMeter radiusNm)
      (arcAngleEnd angleDegStart angleDegEnd) (circleStep env radiusNm fast)
      (arcFuel angleDegStart (arcAngleEnd angleDegStart angleDegEnd)) angleDegStart
      (arcInitState env centerPos radiusNm angleDegStart)).2 = true) :
    paintArc env centerPos radiusNm angleDegStart angleDegEnd fast =
      if (ringFold env false
            (arcSamplePoints env centerPos radiusNm angleDegStart angleDegEnd fast)
            (arcInitState env centerPos radiusNm angleDegStart)).ringVisible &&
          !(ringFold env false
            (arcSamplePoints env centerPos radiusNm angleDegStart angleDegEnd fast)
            (arcInitState env centerPos radiusNm angleDegStart)).ellipse.isEmpty then
        ⟨(ringFold env false
            (arcSamplePoints env centerPos radiusNm angleDegStart angleDegEnd fast)
            (arcInitState env centerPos radiusNm angleDegStart)).events ++
          drawLineString env
            ((ringFold env false
              (arcSamplePoints env centerPos radiusNm angleDegStart angleDegEnd fast)
              (arcInitState env centerPos radiusNm angleDegStart)).ellipse ++
              [arcClosingPoint env centerPos radiusNm angleDegStart angleDegEnd]), true⟩
      else
        ⟨(ringFold env false
            (arcSamplePoints env centerPos radiusNm angleDegStart angleDegEnd fast)
            (arcInitState env centerPos radiusNm angleDegStart)).events, true⟩ := by
  have hfold := arcLoop_eq_ringFold env centerPos (env.nmToMeter radiusNm)
    (arcAngleEnd angleDegStart angleDegEnd) (circleStep env radiusNm fast)
    (arcFuel angleDegStart (arcAngleEnd angleDegStart angleDegEnd)) angleDegStart
    (arcInitState env centerPos radiusNm angleDegStart)
  have e : paintArc env centerPos radiusNm angleDegStart angleDegEnd fast =
      if (!(arcLoop env centerPos (env.nmToMeter radiusNm)
          (arcAngleEnd angleDegStart angleDegEnd) (circleStep env radiusNm fast)
          (arcFuel angleDegStart (arcAngleEnd angleDegStart angleDegEnd)) angleDegStart
          (arcInitState env centerPos radiusNm angleDegStart)).2) = true then
        ⟨(arcLoop env centerPos (env.nmToMeter radiusNm)
          (arcAngleEnd angleDegStart angleDegEnd) (circleStep env radiusNm fast)
          (arcFuel angleDegStart (arcAngleEnd angleDegStart angleDegEnd)) angleDegStart
          (arcInitState env centerPos radiusNm angleDegStart)).1.events, false⟩
      else if (arcLoop env centerPos (env.nmToMeter radiusNm)
          (arcAngleEnd angleDegStart angleDegEnd) (circleStep env radiusNm fast)
          (arcFuel angleDegStart (arcAngleEnd angleDegStart angleDegEnd)) angleDegStart
          (arcInitState env centerPos radiusNm angleDegStart)).1.ringVisible &&
          !(arcLoop env centerPos (env.nmToMeter radiusNm)
          (arcAngleEnd angleDegStart angleDegEnd) (circleStep env radiusNm fast)
          (arcFuel angleDegStart (arcAngleEnd angleDegStart angleDegEnd)) angleDegStart
          (arcInitState env centerPos radiusNm angleDegStart)).1.ellipse.isEmpty then
        ⟨(arcLoop env centerPos (env.nmToMeter radiusNm)
          (arcAngleEnd angleDegStart angleDegEnd) (circleStep env radiusNm fast)
          (arcFuel angleDegStart (arcAngleEnd angleDegStart angleDegEnd)) angleDegStart
          (arcInitState env centerPos radiusNm angleDegStart)).1.events ++
          drawLineString env
            ((arcLoop env centerPos (env.nmToMeter radiusNm)
              (arcAngleEnd angleDegStart angleDegEnd) (circleStep env radiusNm fast)
              (arcFuel angleDegStart (arcAngleEnd angleDegStart angleDegEnd))
              angleDegStart (arcInitState env centerPos radiusNm angleDegStart)).1.ellipse ++
              [arcClosingPoint env centerPos radiusNm angleDegStart angleDegEnd]), true⟩
      else
        ⟨(arcLoop env centerPos (env.nmToMeter radiusNm)
          (arcAngleEnd angleDegStart angleDegEnd) (circleStep env radiusNm fast)
          (arcFuel angleDegStart (arcAngleEnd angleDegStart angleDegEnd)) angleDegStart
          (arcInitState env centerPos radiusNm angleDegStart)).1.events, true⟩ := by
    unfold paintArc
    rw [if_neg hok, if_neg hn]
    rfl
  rw [e, hret, hfold]
  rfl

/-- The runs the specification expects have all the properties it states, for
segments that share their end points. -/
theorem runsMatchBlocks_expectedRuns (closing : Pos) (segs : List SampleSegment)
    (hchain : List.Chain' (fun a b : SampleSegment => a.p2 = b.p1) segs) :
    RunsMatchBlocks closing segs (expectedRuns closing segs) := by
  have hb := expectedRuns_blocks closing segs.length segs le_rfl
  have hlen : (expectedRuns closing segs).length = (visibleBlocks segs).length := by
    have := congrArg List.length hb.1
    simpa using this
  refine ⟨rfl, hlen, hb.1, hb.2, ?_, ?_⟩
  · intro run hrun
    have hmem : run.length ∈ (expectedRuns closing segs).map List.length :=
      List.mem_map.mpr ⟨run, hrun, rfl⟩
    rw [hb.1] at hmem
    obtain ⟨block, -, hblock⟩ := List.mem_map.mp hmem
    intro hnil
    rw [hnil] at hblock
    simp at hblock
  · rw [← machineRuns_eq_expectedRuns closing segs.length segs le_rfl hchain,
      machineRuns_length]
    cases h : segs.map SampleSegment.visible with
    | nil => simp [visibleToInvisible]
    | cons v vs => simp [visibleToInvisible, List.getLast?_cons_cons]

/-- The events logged by the statements after the loop of
`paintCircleLargeInternal`: the last run is flushed iff the ring is visible and
`ellipse` is not empty. -/
theorem circleFinish_events (env : Env) (startPoint : Pos) (textPos0 : Option QPoint)
    (s : RingState) :
    (circleFinish env startPoint textPos0 s).events =
      if s.ringVisible && !s.ellipse.isEmpty then
        s.events ++ drawLineString env (s.ellipse ++ [startPoint])
      else s.events := by
  unfold circleFinish
  cases s.ringVisible with
  | false => simp
  | true =>
    cases textPos0 with
    | none => simp
    | some tp =>
      simp only [if_true, Bool.true_and]
      split_ifs <;> first | rfl | (split <;> rfl)

/-- With `1 <= CIRCLE_MIN_POINTS <= CIRCLE_MAX_POINTS <= 360` every call of
`paintCircleLargeInternal` returns. -/
theorem paintCircleLargeInternal_returned (env : Env) (centerPos : Pos) (radiusNm : ℚ)
    (fast : Bool) (textPos : Option QPoint)
    (hmin : 1 ≤ env.CIRCLE_MIN_POINTS) (hle : env.CIRCLE_MIN_POINTS ≤ env.CIRCLE_MAX_POINTS)
    (hmax : env.CIRCLE_MAX_POINTS ≤ 360) :
    (paintCircleLargeInternal env centerPos radiusNm fast textPos).returned = true := by
  obtain ⟨hn, hstep⟩ := circleStep_pos env radiusNm fast hmin hle hmax
  rw [paintCircleLargeInternal_eq_circleFinish env centerPos radiusNm fast textPos hn hstep]
  cases textPos with
  | none =>
    unfold circleFinish
    simp only [Option.map_none']
    split_ifs <;> rfl
  | some old =>
    have ht := ringFold_texts env (circleSamplePoints env centerPos radiusNm fast)
      (circleInitState env centerPos radiusNm fast)
    have hx0 : (circleInitState env centerPos radiusNm fast).xtexts = [] := rfl
    have hy0 : (circleInitState env centerPos radiusNm fast).ytexts = [] := rfl
    rw [hx0, hy0] at ht
    simp only [Option.isSome_some, Option.map_some', List.nil_append] at ht ⊢
    generalize ringFold env true (circleSamplePoints env centerPos radiusNm fast)
      (circleInitState env centerPos radiusNm fast) = S at ht ⊢
    generalize textCandidatesFrom env _ _ _ = cands at ht
    obtain ⟨hx, hy, -⟩ := ht
    unfold circleFinish
    by_cases hnil : cands = []
    · subst hnil
      simp only [List.map_nil] at hx hy
      simp [hx, hy]
      split_ifs <;> simp
    · have hlt : cands.length / 3 < cands.length :=
        Nat.div_lt_self (List.length_pos.mpr hnil) (by decide)
      have hxk : S.xtexts[S.xtexts.length / 3]? = some (cands[cands.length / 3]).x := by
        rw [hx]
        simp [List.getElem?_eq_getElem hlt]
      have hyk : S.ytexts[S.ytexts.length / 3]? = some (cands[cands.length / 3]).y := by
        rw [hy]
        simp [List.getElem?_eq_getElem hlt]
      simp only [hxk, hyk]
      split_ifs <;> rfl

/-- C19: with `1 <= CIRCLE_MIN_POINTS <= CIRCLE_MAX_POINTS <= 360`, in
`paintCircleLargeInternal` and, for an accepted radius, in every call of the
geographic `paintArc` that returns, whatever the visibility of the sampled
segments: the runs passed to `drawLineString` are, in order, one per maximal
block of consecutive visible segments; their number is the number of
visible-to-invisible transitions plus one iff the last segment is visible; no
run is empty; the run of a block of `k` segments has `k + 1` points, the start
points of the segments of the block followed by the end point of its last
segment, the final run being closed with the start point of the circle,
respectively the end point of the arc.  `paintCircleLargeInternal` always
returns; `paintArc`, whose counter is a `float`, returns for all start and end
angles of magnitude up to 2^23. -/
theorem visible_runs_match_blocks (env : Env) (centerPos : Pos)
    (radiusNm angleDegStart angleDegEnd : ℚ) (fast : Bool) (textPos : Option QPoint)
    (hmin : 1 ≤ env.CIRCLE_MIN_POINTS) (hle : env.CIRCLE_MIN_POINTS ≤ env.CIRCLE_MAX_POINTS)
    (hmax : env.CIRCLE_MAX_POINTS ≤ 360)
    (hok : ¬ radiusNm > env.EARTH_CIRCUMFERENCE_METER / 4) :
    ((paintCircleLargeInternal env centerPos radiusNm fast textPos).returned = true ∧
      RunsMatchBlocks (circleStartPoint env centerPos radiusNm)
        (circleSegments env centerPos radiusNm fast)
        (lineStringRuns (paintCircleLargeInternal env centerPos radiusNm fast textPos).events)) ∧
    (((paintArc env centerPos radiusNm angleDegStart angleDegEnd fast).returned = true →
      RunsMatchBlocks (arcClosingPoint env centerPos radiusNm angleDegStart angleDegEnd)
        (arcSegments env centerPos radiusNm angleDegStart angleDegEnd fast)
        (lineStringRuns
          (paintArc env centerPos radiusNm angleDegStart angleDegEnd fast).events)) ∧
      (|angleDegStart| ≤ 8388608 → |angleDegEnd| ≤ 8388608 →
        (paintArc env centerPos radiusNm angleDegStart angleDegEnd fast).returned = true)) := by
  obtain ⟨hn, hstep⟩ := circleStep_pos env radiusNm fast hmin hle hmax
  refine ⟨⟨paintCircleLargeInternal_returned env centerPos radiusNm fast textPos hmin hle hmax,
    ?_⟩, ?_, fun hs he => paintArc_returned env centerPos radiusNm angleDegStart angleDegEnd
      fast hmin hle hmax hok hs he⟩
  · have hruns : lineStringRuns (ringFold env textPos.isSome
          (circleSamplePoints env centerPos radiusNm fast)
          (circleInitState env centerPos radiusNm fast)).events ++
        (if (ringFold env textPos.isSome (circleSamplePoints env centerPos radiusNm fast)
              (circleInitState env centerPos radiusNm fast)).ringVisible &&
            !(ringFold env textPos.isSome (circleSamplePoints env centerPos radiusNm fast)
              (circleInitState env centerPos radiusNm fast)).ellipse.isEmpty then
          [(ringFold env textPos.isSome (circleSamplePoints env centerPos radiusNm fast)
            (circleInitState env centerPos radiusNm fast)).ellipse ++
            [circleStartPoint env centerPos radiusNm]] else []) =
        [] ++ machineRuns (circleStartPoint env centerPos radiusNm) [] false
          (circleSegments env centerPos radiusNm fast) :=
      ringFold_runs env textPos.isSome (circleStartPoint env centerPos radiusNm)
        (circleSamplePoints env centerPos radiusNm fast)
        (circleInitState env centerPos radiusNm fast) (fun _ => rfl)
        (fun h => absurd h (by simp [circleInitState]))
    have hchain := sampleSegments_chain env (circleSamplePoints env centerPos radiusNm fast)
      (env.wToS (circleStartPoint env centerPos radiusNm) env.DEFAULT_WTOS_SIZE)
      (circleStartPoint env centerPos radiusNm)
    have he : lineStringRuns
        (paintCircleLargeInternal env centerPos radiusNm fast textPos).events =
        expectedRuns (circleStartPoint env centerPos radiusNm)
          (circleSegments env centerPos radiusNm fast) := by
      rw [paintCircleLargeInternal_eq_circleFinish env centerPos radiusNm fast textPos hn hstep,
        circleFinish_events]
      have hm := machineRuns_eq_expectedRuns (circleStartPoint env centerPos radiusNm) _
        (circleSegments env centerPos radiusNm fast) le_rfl hchain
      rw [← hm]
      rw [List.nil_append] at hruns
      rw [← hruns]
      split_ifs
      · rw [lineStringRuns_append_drawLineString]
      · simp
    rw [he]
    exact runsMatchBlocks_expectedRuns _ _ hchain
  · intro hreturned
    rw [paintArc_returned_eq env centerPos radiusNm angleDegStart angleDegEnd fast hok hn]
      at hreturned
    have hruns : lineStringRuns (ringFold env false
          (arcSamplePoints env centerPos radiusNm angleDegStart angleDegEnd fast)
          (arcInitState env centerPos radiusNm angleDegStart)).events ++
        (if (ringFold env false
              (arcSamplePoints env centerPos radiusNm angleDegStart angleDegEnd fast)
              (arcInitState env centerPos radiusNm angleDegStart)).ringVisible &&
            !(ringFold env false
              (arcSamplePoints env centerPos radiusNm angleDegStart angleDegEnd fast)
              (arcInitState env centerPos radiusNm angleDegStart)).ellipse.isEmpty then
          [(ringFold env false
            (arcSamplePoints env centerPos radiusNm angleDegStart angleDegEnd fast)
            (arcInitState env centerPos radiusNm angleDegStart)).ellipse ++
            [arcClosingPoint env centerPos radiusNm angleDegStart angleDegEnd]] else []) =
        [] ++ machineRuns (arcClosingPoint env centerPos radiusNm angleDegStart angleDegEnd)
          [] false (arcSegments env centerPos radiusNm angleDegStart angleDegEnd fast) :=
      ringFold_runs env false
        (arcClosingPoint env centerPos radiusNm angleDegStart angleDegEnd)
        (arcSamplePoints env centerPos radiusNm angleDegStart angleDegEnd fast)
        (arcInitState env centerPos radiusNm angleDegStart) (fun _ => rfl)
        (fun h => absurd h (by simp [arcInitState]))
    have hchain := sampleSegments_chain env
      (arcSamplePoints env centerPos radiusNm angleDegStart angleDegEnd fast)
      (env.wToS (arcStartPoint env centerPos radiusNm angleDegStart) env.DEFAULT_WTOS_SIZE)
      (arcStartPoint env centerPos radiusNm angleDegStart)
    have he := paintArc_eq_ringFold env centerPos radiusNm angleDegStart angleDegEnd fast hok
      hn hreturned
    have hr : lineStringRuns
        (paintArc env centerPos radiusNm angleDegStart angleDegEnd fast).events =
        expectedRuns (arcClosingPoint env centerPos radiusNm angleDegStart angleDegEnd)
          (arcSegments env centerPos radiusNm angleDegStart angleDegEnd fast) := by
      have hm := machineRuns_eq_expectedRuns
        (arcClosingPoint env centerPos radiusNm angleDegStart angleDegEnd) _
        (arcSegments env centerPos radiusNm angleDegStart angleDegEnd fast) le_rfl hchain
      rw [← hm]
      rw [List.nil_append] at hruns
      rw [← hruns, he]
      split_ifs
      · rw [lineStringRuns_append_drawLineString]
      · simp
    rw [hr]
    exact runsMatchBlocks_expectedRuns _ _ hchain

/-- Witness for C19: a circle and an arc of 100 nm on the sample map. -/
theorem visible_runs_match_blocks_witness :
    (1 ≤ demoEnv.CIRCLE_MIN_POINTS ∧ demoEnv.CIRCLE_MIN_POINTS ≤ demoEnv.CIRCLE_MAX_POINTS ∧
      demoEnv.CIRCLE_MAX_POINTS ≤ 360 ∧ ¬ (100 : ℚ) > demoEnv.EARTH_CIRCUMFERENCE_METER / 4) ∧
    RunsMatchBlocks (circleStartPoint demoEnv ⟨10, -10⟩ 100)
      (circleSegments demoEnv ⟨10, -10⟩ 100 false)
      (lineStringRuns (paintCircleLargeInternal demoEnv ⟨10, -10⟩ 100 false none).events) ∧
    (|(0 : ℚ)| ≤ 8388608 ∧ |(90 : ℚ)| ≤ 8388608) ∧
    (paintArc demoEnv ⟨10, -10⟩ 100 0 90 false).returned = true ∧
    RunsMatchBlocks (arcClosingPoint demoEnv ⟨10, -10⟩ 100 0 90)
      (arcSegments demoEnv ⟨10, -10⟩ 100 0 90 false)
      (lineStringRuns (paintArc demoEnv ⟨10, -10⟩ 100 0 90 false).events) :=
  have h := visible_runs_match_blocks demoEnv ⟨10, -10⟩ 100 0 90 false none
    (by norm_num [demoEnv]) (by norm_num [demoEnv]) (by norm_num [demoEnv])
    (by norm_num [demoEnv])
  ⟨⟨by norm_num [demoEnv], by norm_num [demoEnv], by norm_num [demoEnv], by norm_num [demoEnv]⟩,
    h.1.2, ⟨by norm_num, by norm_num⟩, h.2.2 (by norm_num) (by norm_num),
    h.2.1 (h.2.2 (by norm_num) (by norm_num))⟩

/-! ## Holding pattern -/

/-- A loop of drawing calls changes nothing but the log, to which it adds one
call per element. -/
theorem foldl_call (f : ℚ → PainterCall) (l : List ℚ) (p : QPainterState) :
    l.foldl (fun q pos => q.call (f pos)) p = { p with calls := p.calls ++ l.map f } := by
  induction l generalizing p with
  | nil => simp
  | cons a l ih =>
    rw [List.foldl_cons, ih]
    simp [QPainterState.call]

/-- A list of `drawPolygon` calls holds no call of another kind. -/
theorem count_map_drawPolygon (c : PainterCall)
    (hc : ∀ points, PainterCall.drawPolygon points ≠ c) (g : ℚ → List QPointF) (l : List ℚ) :
    (l.map fun pos => PainterCall.drawPolygon (g pos)).count c = 0 := by
  induction l with
  | nil => rfl
  | cons a l ih =>
    rw [List.map_cons, List.count_cons, ih]
    simp [hc]

/-- The arrow block of `paintHoldWithText` leaves transformation, pen and stack
as they were and adds as many `save` as `restore` calls to the log. -/
theorem holdArrows_state (env : Env) (pixel : ℚ) (left : Bool)
    (inboundArrows outboundArrows : List ℚ) (p : QPainterState) :
    (holdArrows env pixel left inboundArrows outboundArrows p).transform = p.transform ∧
    (holdArrows env pixel left inboundArrows outboundArrows p).pen = p.pen ∧
    (holdArrows env pixel left inboundArrows outboundArrows p).saved = p.saved ∧
    ∃ added, (holdArrows env pixel left inboundArrows outboundArrows p).calls =
        p.calls ++ added ∧
      added.count PainterCall.save = added.count PainterCall.restore := by
  have hs := fun g l => count_map_drawPolygon PainterCall.save (by simp) g l
  have hr := fun g l => count_map_drawPolygon PainterCall.restore (by simp) g l
  unfold holdArrows
  simp only [foldl_call]
  split_ifs <;>
    simp [QPainterState.save, QPainterState.call, QPainterState.setPen,
      QPainterState.restore, List.count_cons, hs, hr]

/-- The text block of `paintHoldWithText` leaves the stack as it was and adds as
many `save` as `restore` calls to the log. -/
theorem holdTexts_state (env : Env) (pixel direction : ℚ) (left : Bool) (text text2 : QString)
    (textColor textColorBackground : QColor) (p : QPainterState) :
    (holdTexts env pixel direction left text text2 textColor textColorBackground p).saved =
      p.saved ∧
    ∃ added,
      (holdTexts env pixel direction left text text2 textColor textColorBackground p).calls =
        p.calls ++ added ∧
      added.count PainterCall.save = added.count PainterCall.restore := by
  unfold holdTexts
  split_ifs <;>
    simp [QPainterState.save, QPainterState.call, QPainterState.setPen,
      QPainterState.restore, QPainterState.translate, QPainterState.rotate, List.count_cons]

/-- C13: for every input of `paintHoldWithText`, on every branch, the
transformation of the painter at return is the identity, the stack of saved
states is the one at entry (so its depth is the depth at entry), and the calls
the routine added to the log hold as many `save` as `restore` calls and end with
`resetTransform`. -/
theorem paintHoldWithText_painter_state (env : Env) (painter : QPainterState)
    (x y direction lengthNm minutes : ℚ) (left : Bool) (text text2 : QString)
    (textColor textColorBackground : QColor) (inboundArrows outboundArrows : List ℚ) :
    (paintHoldWithText env painter x y direction lengthNm minutes left text text2 textColor
      textColorBackground inboundArrows outboundArrows).transform = [] ∧
    (paintHoldWithText env painter x y direction lengthNm minutes left text text2 textColor
      textColorBackground inboundArrows outboundArrows).saved = painter.saved ∧
    (paintHoldWithText env painter x y direction lengthNm minutes left text text2 textColor
      textColorBackground inboundArrows outboundArrows).saved.length = painter.saved.length ∧
    (callsAdded painter (paintHoldWithText env painter x y direction lengthNm minutes left text
      text2 textColor textColorBackground inboundArrows outboundArrows)).count
        PainterCall.save =
      (callsAdded painter (paintHoldWithText env painter x y direction lengthNm minutes left
        text text2 textColor textColorBackground inboundArrows outboundArrows)).count
        PainterCall.restore ∧
    (callsAdded painter (paintHoldWithText env painter x y direction lengthNm minutes left text
      text2 textColor textColorBackground inboundArrows outboundArrows)).getLast? =
        some PainterCall.resetTransform := by
  unfold paintHoldWithText callsAdded
  dsimp only
  generalize hp4 : (((painter.translate x y).rotate direction).call
    (PainterCall.setBrush transparentColor)).call
    (PainterCall.drawPath (holdPath (env.getPixelForNm (holdSegmentLength lengthNm minutes))
      left)) = p4
  have h4s : p4.saved = painter.saved := by rw [← hp4]; rfl
  have h4c : p4.calls = painter.calls ++ [PainterCall.translate x y, PainterCall.rotate direction,
      PainterCall.setBrush transparentColor,
      PainterCall.drawPath (holdPath (env.getPixelForNm (holdSegmentLength lengthNm minutes))
        left)] := by
    rw [← hp4]
    simp [QPainterState.call, QPainterState.translate, QPainterState.rotate]
  obtain ⟨-, -, h5s, a5, h5c, h5n⟩ := holdArrows_state env
    (env.getPixelForNm (holdSegmentLength lengthNm minutes)) left inboundArrows outboundArrows p4
  generalize holdArrows env (env.getPixelForNm (holdSegmentLength lengthNm minutes)) left
    inboundArrows outboundArrows p4 = p5 at h5s h5c
  obtain ⟨h6s, a6, h6c, h6n⟩ := holdTexts_state env
    (env.getPixelForNm (holdSegmentLength lengthNm minutes)) direction left text text2 textColor
    textColorBackground p5
  generalize holdTexts env (env.getPixelForNm (holdSegmentLength lengthNm minutes)) direction
    left text text2 textColor textColorBackground p5 = p6 at h6s h6c
  have hcalls : p6.resetTransform.calls = painter.calls ++
      ([PainterCall.translate x y, PainterCall.rotate direction,
        PainterCall.setBrush transparentColor,
        PainterCall.drawPath (holdPath (env.getPixelForNm (holdSegmentLength lengthNm minutes))
          left)] ++ a5 ++ a6 ++ [PainterCall.resetTransform]) := by
    simp [QPainterState.resetTransform, h6c, h5c, h4c]
  have hsaved : p6.resetTransform.saved = painter.saved := by
    show p6.saved = _
    rw [h6s, h5s, h4s]
  refine ⟨rfl, hsaved, by rw [hsaved], ?_, ?_⟩
  · rw [hcalls, List.drop_left]
    simp [List.count_append, List.count_cons, h5n, h6n]
  · rw [hcalls, List.drop_left, List.getLast?_append]
    rfl

/-! ## Procedure turn -/

/-- C16: for every provider state and every behaviour of
`isGlobeOfflineProvider()`, `isValid` returns true iff
`isGlobeOfflineProvider()` is true or `marbleModel` is not `nullptr`; when
`isGlobeOfflineProvider()` is false, `isValid` is the test `marbleModel != nullptr`;
when it is true, `isValid` is true whatever the pointer. -/
theorem isValid_iff (isGlobeOfflineProvider : ElevationProvider → Bool)
    (provider : ElevationProvider) :
    (ElevationProvider.isValid isGlobeOfflineProvider provider = true ↔
      isGlobeOfflineProvider provider = true ∨ provider.marbleModel ≠ none) ∧
    (isGlobeOfflineProvider provider = false →
      ElevationProvider.isValid isGlobeOfflineProvider provider =
        (provider.marbleModel != none) ∧
      (ElevationProvider.isValid isGlobeOfflineProvider provider = true ↔
        provider.marbleModel ≠ none)) ∧
    (isGlobeOfflineProvider provider = true →
      ElevationProvider.isValid isGlobeOfflineProvider provider = true) := by
  unfold ElevationProvider.isValid
  cases isGlobeOfflineProvider provider <;> cases provider.marbleModel <;> simp

/-- Witness for C16: no offline reader, with and without an online model. -/
theorem isValid_iff_witness :
    ElevationProvider.isValid (fun provider => provider.globeReader.isSome)
      { marbleModel := some 4096 } = true ∧
    ElevationProvider.isValid (fun provider => provider.globeReader.isSome) { } = false :=
  ⟨(((isValid_iff (fun provider => provider.globeReader.isSome)
      { marbleModel := some 4096 }).2.1 rfl).2).2 (by decide),
    by
      have h := ((isValid_iff (fun provider => provider.globeReader.isSome) { }).2.1 rfl).1
      rw [h]
      rfl⟩

/-! ## Latitude pass on three points -/

/-- The constant `0.00001f` and its negative are `float` values: adding them to
zero is exact. -/
theorem roundToSingle_LATY_CORRECTION :
    roundToSingle (0 + LATY_CORRECTION) = LATY_CORRECTION ∧
    roundToSingle (0 - LATY_CORRECTION) = -LATY_CORRECTION := by
  have hlog : Int.log 2 |LATY_CORRECTION| = -17 := by
    apply log_of_binade <;> norm_num [abs_of_pos, LATY_CORRECTION]
  have hlogn : Int.log 2 |-LATY_CORRECTION| = -17 := by
    rw [abs_neg]
    exact hlog
  have hq : LATY_CORRECTION / 2 ^ (max (-17 : Int) (-126) - 23) = ((10995116 : Int) : ℚ) := by
    norm_num [LATY_CORRECTION]
  have hqn : -LATY_CORRECTION / 2 ^ (max (-17 : Int) (-126) - 23) = ((-10995116 : Int) : ℚ) := by
    norm_num [LATY_CORRECTION]
  constructor
  · rw [zero_add]
    unfold roundToSingle singleUlp
    rw [hlog, hq, roundHalfEven_intCast]
    norm_num [LATY_CORRECTION]
  · rw [zero_sub]
    unfold roundToSingle singleUlp
    rw [hlogn, hqn, roundHalfEven_intCast]
    norm_num [LATY_CORRECTION]

/-- C18, the code on latitudes `lat + 0.00001f`, `lat`, `lat` (here `lat = 0`,
`LATY_CORRECTION` being the `float` 0.00001f): the first pair is not near-equal
and is left alone, the second pair is moved apart, which raises the middle
latitude to the first one, exactly.  The sequence both routines build the
polyline from starts with two points of equal latitude, which the pass over the
pairs has already left behind. -/
theorem drawLineString_latitude_pass_leaves_equal_pair :
    demoEnv.almostEqual LATY_CORRECTION 0 = false ∧
    splitLines demoEnv [⟨0, LATY_CORRECTION⟩, ⟨1, 0⟩, ⟨2, 0⟩] =
      [⟨0, LATY_CORRECTION⟩, ⟨1, LATY_CORRECTION⟩, ⟨2, -LATY_CORRECTION⟩] ∧
    demoEnv.almostEqual LATY_CORRECTION LATY_CORRECTION = true ∧
    polylines (drawLineString demoEnv [⟨0, LATY_CORRECTION⟩, ⟨1, 0⟩, ⟨2, 0⟩]) =
      [[⟨0, LATY_CORRECTION⟩, ⟨1, LATY_CORRECTION⟩, ⟨2, -LATY_CORRECTION⟩]] ∧
    polylines (drawLineStringRadial demoEnv [⟨0, LATY_CORRECTION⟩, ⟨1, 0⟩, ⟨2, 0⟩]) =
      [[⟨0, LATY_CORRECTION⟩, ⟨1, LATY_CORRECTION⟩, ⟨2, -LATY_CORRECTION⟩]] := by
  have hfar : demoEnv.almostEqual LATY_CORRECTION 0 = false := by
    norm_num [demoEnv, LATY_CORRECTION, abs_eq_max_neg, max_def]
  have hnear : demoEnv.almostEqual LATY_CORRECTION LATY_CORRECTION = true := by
    norm_num [demoEnv]
  have hzero : demoEnv.almostEqual 0 0 = true := by
    norm_num [demoEnv]
  have hs : splitLines demoEnv [⟨0, LATY_CORRECTION⟩, ⟨1, 0⟩, ⟨2, 0⟩] =
      [⟨0, LATY_CORRECTION⟩, ⟨1, LATY_CORRECTION⟩, ⟨2, -LATY_CORRECTION⟩] := by
    have hdup : demoEnv.removeDuplicates
        (demoEnv.splitAtAntiMeridian [⟨0, LATY_CORRECTION⟩, ⟨1, 0⟩, ⟨2, 0⟩]) =
        [⟨0, LATY_CORRECTION⟩, ⟨1, 0⟩, ⟨2, 0⟩] := by
      norm_num [demoEnv, removeConsecutiveDuplicates]
    unfold splitLines
    rw [hdup]
    simp only [latitudeCorrection, latitudeCorrectionFrom, hfar, hzero, if_true,
      Bool.false_eq_true, if_false, roundToSingle_LATY_CORRECTION.1,
      roundToSingle_LATY_CORRECTION.2]
  have h := drawLineString_eq demoEnv [⟨0, LATY_CORRECTION⟩, ⟨1, 0⟩, ⟨2, 0⟩] (by simp)
    (by rw [hs]; simp)
  have hcoords : ∀ interpolate, geoLineStringCoordinates demoEnv interpolate
      [⟨0, LATY_CORRECTION⟩, ⟨1, LATY_CORRECTION⟩, ⟨2, -LATY_CORRECTION⟩] =
      [⟨0, LATY_CORRECTION⟩, ⟨1, LATY_CORRECTION⟩, ⟨2, -LATY_CORRECTION⟩] := by
    intro interpolate
    have h1 : ¬ demoEnv.lengthSimple ⟨⟨0, LATY_CORRECTION⟩, ⟨1, LATY_CORRECTION⟩⟩ > 30 ∧
        ¬ demoEnv.lengthSimple ⟨⟨0, LATY_CORRECTION⟩, ⟨1, LATY_CORRECTION⟩⟩ > 5 := by
      norm_num [demoEnv, manhattanLength, LATY_CORRECTION, abs_eq_max_neg, max_def]
    have h2 : ¬ demoEnv.lengthSimple ⟨⟨1, LATY_CORRECTION⟩, ⟨2, -LATY_CORRECTION⟩⟩ > 30 ∧
        ¬ demoEnv.lengthSimple ⟨⟨1, LATY_CORRECTION⟩, ⟨2, -LATY_CORRECTION⟩⟩ > 5 := by
      norm_num [demoEnv, manhattanLength, LATY_CORRECTION, abs_eq_max_neg, max_def]
    simp only [geoLineStringCoordinates, segments, List.flatMap_cons, List.flatMap_nil,
      segmentPoints, if_neg h1.1, if_neg h1.2, if_neg h2.1, if_neg h2.2]
    rfl
  rw [h.1, h.2, hs]
  refine ⟨hfar, rfl, hnear, ?_, ?_⟩
  · simp only [polylines, List.filterMap_cons, List.filterMap_nil, hcoords]
  · simp only [polylines, List.filterMap_cons, List.filterMap_nil, hcoords]

/-! ## Leg length of the holding pattern -/

/-- C20, the code below the minimum its comment states: half a minute gives a
leg of 1.75 nm and, without a time, a distance of 1 nm gives a leg of 1 nm,
both below 3.5; the hold is drawn with the pixel size of that leg (175 pixels on
the sample map, where 3.5 nm are 350 pixels). -/
theorem holdSegmentLength_below_minimum :
    holdSegmentLength 0 (1 / 2) = 7 / 4 ∧ holdSegmentLength 0 (1 / 2) < 7 / 2 ∧
    holdSegmentLength 1 0 = 1 ∧ holdSegmentLength 1 0 < 7 / 2 ∧
    callsAdded ⟨[], ⟨⟨0⟩, 1, false⟩, [], []⟩
        (paintHoldWithText demoEnv ⟨[], ⟨⟨0⟩, 1, false⟩, [], []⟩ 0 0 0 0 (1 / 2) false [] []
          ⟨0⟩ ⟨0⟩ [] []) =
      [PainterCall.translate 0 0, PainterCall.rotate 0, PainterCall.setBrush transparentColor,
        PainterCall.drawPath (holdPath 175 false), PainterCall.resetTransform] ∧
    demoEnv.getPixelForNm (7 / 2) = 350 := by
  have h1 : holdSegmentLength 0 (1 / 2) = 7 / 4 := by norm_num [holdSegmentLength]
  have h2 : holdSegmentLength 1 0 = 1 := by norm_num [holdSegmentLength]
  have hp : demoEnv.getPixelForNm (7 / 4) = 175 := by norm_num [demoEnv]
  refine ⟨h1, by rw [h1]; norm_num, h2, by rw [h2]; norm_num, ?_, by norm_num [demoEnv]⟩
  unfold paintHoldWithText
  dsimp only
  rw [h1, hp]
  simp [callsAdded, holdArrows, holdTexts, QPainterState.translate, QPainterState.rotate,
    QPainterState.call, QPainterState.resetTransform]

/-! ## Airport paint order -/

/-- The result of `sortAirportFunction` for two entries with an airport: the
comparison of the priorities, of the ids when the priorities are equal. -/
theorem sortAirportFunction_eq (env : Env) (p q : PaintAirportType) (a b : MapAirport)
    (hp : p.airport = some a) (hq : q.airport = some b) :
    sortAirportFunction env p q =
      some (decide ((airportSortKey env a).1 < (airportSortKey env b).1 ∨
        ((airportSortKey env a).1 = (airportSortKey env b).1 ∧ a.id < b.id))) := by
  unfold sortAirportFunction airportSortKey
  simp only [hp, hq]
  split_ifs with h
  · simp [h]
  · congr 1
    simp only [decide_eq_decide]
    constructor
    · intro h1
      exact Or.inl h1
    · rintro (h1 | ⟨h1, -⟩)
      · exact h1
      · exact absurd h1 h

/-- C21: for the flags of a fixed environment and entries whose airport pointer
is set, `sortAirportFunction` returns a result, which is true exactly when the
pair (paint priority, airport id) of the first entry is below that of the second
in the lexicographic order; the relation is irreflexive, asymmetric and
transitive, incomparability is transitive, and two entries are incomparable
exactly when priorities and ids are equal. -/
theorem sortAirportFunction_strict_weak_order (env : Env) :
    (∀ p q a b, p.airport = some a → q.airport = some b →
      (sortAirportFunction env p q = some true ∨ sortAirportFunction env p q = some false) ∧
      (sortAirportFunction env p q = some true ↔
        toLex (airportSortKey env a) < toLex (airportSortKey env b)) ∧
      (sortAirportFunction env p q = some true ↔
        (airportSortKey env a).1 < (airportSortKey env b).1 ∨
          ((airportSortKey env a).1 = (airportSortKey env b).1 ∧ a.id < b.id))) ∧
    (∀ p a, p.airport = some a → sortAirportFunction env p p = some false) ∧
    (∀ p q a b, p.airport = some a → q.airport = some b →
      sortAirportFunction env p q = some true → sortAirportFunction env q p = some false) ∧
    (∀ p q r a b c, p.airport = some a → q.airport = some b → r.airport = some c →
      sortAirportFunction env p q = some true → sortAirportFunction env q r = some true →
      sortAirportFunction env p r = some true) ∧
    (∀ p q r a b c, p.airport = some a → q.airport = some b → r.airport = some c →
      sortAirportFunction env p q = some false → sortAirportFunction env q p = some false →
      sortAirportFunction env q r = some false → sortAirportFunction env r q = some false →
      sortAirportFunction env p r = some false ∧ sortAirportFunction env r p = some false) ∧
    (∀ p q a b, p.airport = some a → q.airport = some b →
      ((sortAirportFunction env p q = some false ∧ sortAirportFunction env q p = some false) ↔
        (airportSortKey env a).1 = (airportSortKey env b).1 ∧ a.id = b.id)) := by
  refine ⟨?_, ?_, ?_, ?_, ?_, ?_⟩
  · intro p q a b hp hq
    rw [sortAirportFunction_eq env p q a b hp hq, Prod.Lex.lt_iff]
    refine ⟨?_, ?_, ?_⟩
    · by_cases h : (airportSortKey env a).1 < (airportSortKey env b).1 ∨
        ((airportSortKey env a).1 = (airportSortKey env b).1 ∧ a.id < b.id) <;> simp [h]
    · simp [airportSortKey]
    · simp
  · intro p a hp
    rw [sortAirportFunction_eq env p p a a hp hp]
    simp
  · intro p q a b hp hq
    rw [sortAirportFunction_eq env p q a b hp hq, sortAirportFunction_eq env q p b a hq hp]
    simp only [Option.some.injEq, decide_eq_true_eq, decide_eq_false_iff_not]
    omega
  · intro p q r a b c hp hq hr
    rw [sortAirportFunction_eq env p q a b hp hq, sortAirportFunction_eq env q r b c hq hr,
      sortAirportFunction_eq env p r a c hp hr]
    simp only [Option.some.injEq, decide_eq_true_eq]
    omega
  · intro p q r a b c hp hq hr
    rw [sortAirportFunction_eq env p q a b hp hq, sortAirportFunction_eq env q p b a hq hp,
      sortAirportFunction_eq env q r b c hq hr, sortAirportFunction_eq env r q c b hr hq,
      sortAirportFunction_eq env p r a c hp hr, sortAirportFunction_eq env r p c a hr hp]
    simp only [Option.some.injEq, decide_eq_false_iff_not]
    omega
  · intro p q a b hp hq
    rw [sortAirportFunction_eq env p q a b hp hq, sortAirportFunction_eq env q p b a hq hp]
    simp only [Option.some.injEq, decide_eq_false_iff_not]
    omega

/-- Witness for C21: on the sample map an airport of priority 3 is ordered before
an add-on airport of priority 10 and not the other way round, whatever the ids
and screen positions. -/
theorem sortAirportFunction_strict_weak_order_witness :
    sortAirportFunction demoEnv (PaintAirportType.new ⟨7, 4⟩ 0 0)
      (PaintAirportType.new ⟨2, 5⟩ 3 3) = some true ∧
    sortAirportFunction demoEnv (PaintAirportType.new ⟨2, 5⟩ 3 3)
      (PaintAirportType.new ⟨7, 4⟩ 0 0) = some false :=
  have h : sortAirportFunction demoEnv (PaintAirportType.new ⟨7, 4⟩ 0 0)
      (PaintAirportType.new ⟨2, 5⟩ 3 3) = some true := by
    simp [sortAirportFunction, PaintAirportType.new, demoEnv]
  ⟨h, (sortAirportFunction_strict_weak_order demoEnv).2.2.1 _ _ ⟨7, 4⟩ ⟨2, 5⟩ rfl rfl h⟩

/-! ## Angular step and termination of the sampling loops -/

/-- The circle loop is left within `fuel` passes exactly when the fuel covers the
distance to 360. -/
theorem circleLoop_returned_iff (env : Env) (centerPos : Pos) (radiusMeter : ℚ)
    (collectTexts : Bool) (step : Int) (h0 : 0 ≤ step) (fuel : Nat) (i : Int) (s : RingState) :
    (circleLoop env centerPos radiusMeter collectTexts step fuel i s).2 = true ↔
      360 < i + fuel * step := by
  induction fuel generalizing i s with
  | zero =>
    unfold circleLoop
    simp
  | succ fuel ih =>
    unfold circleLoop
    split_ifs with h
    · rw [ih]
      push_cast
      constructor <;> intro h1 <;> linarith
    · have h2 : 0 ≤ ((fuel + 1 : Nat) : Int) * step := mul_nonneg (by positivity) h0
      simp only [true_iff]
      linarith

/-- The passes of the circle loop started at `i`: as many as multiples of the step
fit up to 360, at most `fuel`. -/
theorem circleAngles_length (step : Int) (h1 : 1 ≤ step) (fuel : Nat) (i : Int) :
    (circleAngles step fuel i).length = min fuel ((360 + step - i) / step).toNat := by
  induction fuel generalizing i with
  | zero => simp [circleAngles]
  | succ fuel ih =>
    unfold circleAngles
    split_ifs with h
    · rw [List.length_cons, ih]
      have e : 360 + step - i = (360 - i) + 1 * step := by ring
      have e2 : 360 + step - (i + step) = 360 - i := by ring
      have hq : 0 ≤ (360 - i) / step := Int.ediv_nonneg (by omega) (by omega)
      rw [e, Int.add_mul_ediv_right _ _ (by omega), e2]
      omega
    · have hlt : (360 + step - i) / step < 1 :=
        Int.ediv_lt_of_lt_mul (by omega) (by omega)
      have : ((360 + step - i) / step).toNat = 0 := by omega
      rw [this]
      simp

/-- A pass of the arc loop that leaves the angle where it is, is repeated for
ever. -/
theorem arcLoop_stuck (env : Env) (centerPos : Pos) (radiusMeter angleDegEnd : ℚ)
    (step : Int) (angle : ℚ) (hle : angle ≤ angleDegEnd)
    (hfix : roundToSingle (angle + step) = angle) (fuel : Nat) (s : RingState) :
    (arcLoop env centerPos radiusMeter angleDegEnd step fuel angle s).2 = false := by
  induction fuel generalizing s with
  | zero =>
    unfold arcLoop
    simp [hle]
  | succ fuel ih =>
    unfold arcLoop
    rw [if_pos hle, hfix]
    exact ih _

/-- The fuel of the arc loop is enough.  From a `float` angle with a step between
1 and 360, every pass moves the angle up by at least half a degree or leaves it
where it is; so a run that is still going after passes whose half number covers
the distance to the end angle is never left. -/
theorem arcLoop_not_left (env : Env) (centerPos : Pos) (radiusMeter angleDegEnd : ℚ)
    (step : Int) (h1 : 1 ≤ step) (h360 : step ≤ 360) (fuel : Nat) (angle : ℚ)
    (ha : roundToSingle angle = angle) (s : RingState)
    (hfuel : angleDegEnd < angle + (fuel : ℚ) / 2)
    (hflag : (arcLoop env centerPos radiusMeter angleDegEnd step fuel angle s).2 = false) :
    ∀ (fuel2 : Nat) (s2 : RingState),
      (arcLoop env centerPos radiusMeter angleDegEnd step fuel2 angle s2).2 = false := by
  induction fuel generalizing angle s with
  | zero =>
    unfold arcLoop at hflag
    simp only [Nat.cast_zero, zero_div, add_zero] at hfuel
    simp [hfuel] at hflag
  | succ fuel ih =>
    unfold arcLoop at hflag
    by_cases hle : angle ≤ angleDegEnd
    · rw [if_pos hle] at hflag
      rcases roundToSingle_add_step angle step ha h1 h360 with hfix | hprog
      · exact fun fuel2 s2 =>
          arcLoop_stuck env centerPos radiusMeter angleDegEnd step angle hle hfix fuel2 s2
      · have hnext := ih (roundToSingle (angle + step)) (roundToSingle_idem _) _
          (by push_cast at hfuel; linarith) hflag
        intro fuel2 s2
        cases fuel2 with
        | zero =>
          unfold arcLoop
          simp [hle]
        | succ n =>
          unfold arcLoop
          rw [if_pos hle]
          exact hnext n _
    · rw [if_neg hle] at hflag
      exact absurd hflag (by simp)

/-- With `1 <= CIRCLE_MIN_POINTS <= CIRCLE_MAX_POINTS <= 360`, an accepted radius
and a `float` start angle, a call of `paintArc` that the embedding reports as not
returning has a loop that is never left. -/
theorem paintArc_not_returned (env : Env) (centerPos : Pos)
    (radiusNm angleDegStart angleDegEnd : ℚ) (fast : Bool)
    (hmin : 1 ≤ env.CIRCLE_MIN_POINTS) (hle : env.CIRCLE_MIN_POINTS ≤ env.CIRCLE_MAX_POINTS)
    (hmax : env.CIRCLE_MAX_POINTS ≤ 360)
    (hok : ¬ radiusNm > env.EARTH_CIRCUMFERENCE_METER / 4)
    (hstart : roundToSingle angleDegStart = angleDegStart)
    (h : (paintArc env centerPos radiusNm angleDegStart angleDegEnd fast).returned = false) :
    ∀ (fuel : Nat) (s : RingState),
      (arcLoop env centerPos (env.nmToMeter radiusNm) (arcAngleEnd angleDegStart angleDegEnd)
        (circleStep env radiusNm fast) fuel angleDegStart s).2 = false := by
  obtain ⟨hn, hstep⟩ := circleStep_pos env radiusNm fast hmin hle hmax
  have h360 : circleStep env radiusNm fast ≤ 360 :=
    (angleStep_bounds env.CIRCLE_MIN_POINTS env.CIRCLE_MAX_POINTS
      (env.getPixelIntForMeter (env.nmToMeter radiusNm)) fast hmin hle hmax).2.2.1
  rw [paintArc_returned_eq env centerPos radiusNm angleDegStart angleDegEnd fast hok hn] at h
  exact arcLoop_not_left env centerPos _ _ _ hstep h360 _ angleDegStart hstart _
    (arc_fuel_enough _ _) h

/-- C22, `paintArc` for the finite angles 2^34 and 2^35, both `float` values:
whatever the step between 1 and 360, the sum `angle + step` is rounded back to
2^34, neighbouring `float` values being 2048 apart there, so `angle` never
passes the end angle and the loop of `paintArc` is not left, for any number of
passes; the call does not return.  The constants of the sample map satisfy
`1 <= CIRCLE_MIN_POINTS <= CIRCLE_MAX_POINTS <= 360`. -/
theorem paintArc_loop_not_left_for_large_angles :
    (1 ≤ demoEnv.CIRCLE_MIN_POINTS ∧ demoEnv.CIRCLE_MIN_POINTS ≤ demoEnv.CIRCLE_MAX_POINTS ∧
      demoEnv.CIRCLE_MAX_POINTS ≤ 360) ∧
    roundToSingle 17179869184 = 17179869184 ∧
    roundToSingle 34359738368 = 34359738368 ∧
    roundToSingle (17179869184 + ((1 : Int) : ℚ)) = 17179869184 ∧
    roundToSingle (17179869184 + ((360 : Int) : ℚ)) = 17179869184 ∧
    (∀ (fuel : Nat) (s : RingState),
      (arcLoop demoEnv ⟨10, -10⟩ (demoEnv.nmToMeter 100) 34359738368
        (circleStep demoEnv 100 false) fuel 17179869184 s).2 = false) ∧
    (paintArc demoEnv ⟨10, -10⟩ 100 17179869184 34359738368 false).returned = false := by
  have hc : 1 ≤ demoEnv.CIRCLE_MIN_POINTS ∧
      demoEnv.CIRCLE_MIN_POINTS ≤ demoEnv.CIRCLE_MAX_POINTS ∧
      demoEnv.CIRCLE_MAX_POINTS ≤ 360 := by
    refine ⟨?_, ?_, ?_⟩ <;> norm_num [demoEnv]
  obtain ⟨hn, hs1⟩ := circleStep_pos demoEnv 100 false hc.1 hc.2.1 hc.2.2
  have hs2 : circleStep demoEnv 100 false ≤ 360 :=
    (angleStep_bounds demoEnv.CIRCLE_MIN_POINTS demoEnv.CIRCLE_MAX_POINTS
      (demoEnv.getPixelIntForMeter (demoEnv.nmToMeter 100)) false hc.1 hc.2.1 hc.2.2).2.2.1
  have hloop : ∀ (fuel : Nat) (s : RingState),
      (arcLoop demoEnv ⟨10, -10⟩ (demoEnv.nmToMeter 100) 34359738368
        (circleStep demoEnv 100 false) fuel 17179869184 s).2 = false := by
    intro fuel s
    exact arcLoop_stuck demoEnv _ _ _ _ 17179869184 (by norm_num)
      (roundToSingle_absorbs _ (by omega) hs2) fuel s
  have hend : arcAngleEnd 17179869184 34359738368 = 34359738368 := by
    unfold arcAngleEnd
    rw [if_neg (by norm_num)]
  refine ⟨hc, ?_, ?_, roundToSingle_absorbs 1 (by decide) (by decide),
    roundToSingle_absorbs 360 (by decide) (by decide), hloop, ?_⟩
  · have h := roundToSingle_absorbs 0 (le_refl 0) (by decide)
    simpa using h
  · have h := roundToSingle_of_significand 8388608 12 (by decide) (by decide)
    norm_num at h
    exact h
  · rw [paintArc_returned_eq demoEnv ⟨10, -10⟩ 100 17179869184 34359738368 false
      (by norm_num [demoEnv]) hn, hend]
    exact hloop _ _

/-- C22 with the angles of `paintArc` bounded: with
`1 <= CIRCLE_MIN_POINTS <= CIRCLE_MAX_POINTS <= 360`, for every pixel radius and
both values of `fast`, the point count is not zero and the step `360 / numPoints`
is the integer quotient, between 1 and 360.  The loop of
`paintCircleLargeInternal` is left within `fuel` passes exactly when `fuel` is
at least `360 / step` (integer quotient): it runs exactly that many passes, and
is left within the 360 passes the embedding allows.  The loop of `paintArc`,
with its `float` counter, is left for every start angle above -2^24 and every
end angle below 2^24 - 360, within `2 * floor(end - start) + 2` passes; with an
accepted radius `paintArc` returns for all start and end angles of magnitude up
to 2^23.  From any `float` start angle the loop is left within that number of
passes or never. -/
theorem sampling_loops_step_and_termination (env : Env) (pixel : Int) (fast : Bool)
    (centerPos : Pos) (radiusMeter : ℚ) (collectTexts : Bool) (s : RingState)
    (hmin : 1 ≤ env.CIRCLE_MIN_POINTS) (hle : env.CIRCLE_MIN_POINTS ≤ env.CIRCLE_MAX_POINTS)
    (hmax : env.CIRCLE_MAX_POINTS ≤ 360) :
    numPoints env.CIRCLE_MIN_POINTS env.CIRCLE_MAX_POINTS pixel fast ≠ 0 ∧
    1 ≤ angleStep env.CIRCLE_MIN_POINTS env.CIRCLE_MAX_POINTS pixel fast ∧
    angleStep env.CIRCLE_MIN_POINTS env.CIRCLE_MAX_POINTS pixel fast ≤ 360 ∧
    angleStep env.CIRCLE_MIN_POINTS env.CIRCLE_MAX_POINTS pixel fast =
      360 / numPoints env.CIRCLE_MIN_POINTS env.CIRCLE_MAX_POINTS pixel fast ∧
    (∀ fuel : Nat,
      (circleLoop env centerPos radiusMeter collectTexts
        (angleStep env.CIRCLE_MIN_POINTS env.CIRCLE_MAX_POINTS pixel fast) fuel
        (angleStep env.CIRCLE_MIN_POINTS env.CIRCLE_MAX_POINTS pixel fast) s).2 = true ↔
      (360 / angleStep env.CIRCLE_MIN_POINTS env.CIRCLE_MAX_POINTS pixel fast).toNat ≤ fuel) ∧
    (circleLoop env centerPos radiusMeter collectTexts
      (angleStep env.CIRCLE_MIN_POINTS env.CIRCLE_MAX_POINTS pixel fast) 360
      (angleStep env.CIRCLE_MIN_POINTS env.CIRCLE_MAX_POINTS pixel fast) s).2 = true ∧
    (circleAngles (angleStep env.CIRCLE_MIN_POINTS env.CIRCLE_MAX_POINTS pixel fast) 360
      (angleStep env.CIRCLE_MIN_POINTS env.CIRCLE_MAX_POINTS pixel fast)).length =
      (360 / angleStep env.CIRCLE_MIN_POINTS env.CIRCLE_MAX_POINTS pixel fast).toNat ∧
    (∀ angleDegStart angleDegEnd : ℚ,
      -16777216 < angleDegStart → angleDegEnd + 360 < 16777216 →
      (arcLoop env centerPos radiusMeter angleDegEnd
        (angleStep env.CIRCLE_MIN_POINTS env.CIRCLE_MAX_POINTS pixel fast)
        (arcFuel angleDegStart angleDegEnd) angleDegStart s).2 = true) ∧
    (∀ (radiusNm angleDegStart angleDegEnd : ℚ),
      ¬ radiusNm > env.EARTH_CIRCUMFERENCE_METER / 4 →
      |angleDegStart| ≤ 8388608 → |angleDegEnd| ≤ 8388608 →
      (paintArc env centerPos radiusNm angleDegStart angleDegEnd fast).returned = true) ∧
    (∀ angleDegStart angleDegEnd : ℚ, roundToSingle angleDegStart = angleDegStart →
      (arcLoop env centerPos radiusMeter angleDegEnd
        (angleStep env.CIRCLE_MIN_POINTS env.CIRCLE_MAX_POINTS pixel fast)
        (arcFuel angleDegStart angleDegEnd) angleDegStart s).2 = true ∨
      ∀ (fuel : Nat) (s2 : RingState),
        (arcLoop env centerPos radiusMeter angleDegEnd
          (angleStep env.CIRCLE_MIN_POINTS env.CIRCLE_MAX_POINTS pixel fast)
          fuel angleDegStart s2).2 = false) := by
  obtain ⟨hn, hs1, hs2, hq⟩ := angleStep_bounds env.CIRCLE_MIN_POINTS env.CIRCLE_MAX_POINTS
    pixel fast hmin hle hmax
  generalize angleStep env.CIRCLE_MIN_POINTS env.CIRCLE_MAX_POINTS pixel fast = step at *
  have hiff : ∀ fuel : Nat,
      (circleLoop env centerPos radiusMeter collectTexts step fuel step s).2 = true ↔
        (360 / step).toNat ≤ fuel := by
    intro fuel
    rw [circleLoop_returned_iff env centerPos radiusMeter collectTexts step (by omega)]
    have e : step + (fuel : Int) * step = ((fuel : Int) + 1) * step := by ring
    rw [e, ← Int.ediv_lt_iff_lt_mul (by omega)]
    omega
  have hquot : 360 / step ≤ 360 := Int.ediv_le_self _ (by decide)
  have hquot0 : 0 ≤ 360 / step := Int.ediv_nonneg (by decide) (by omega)
  have hs2q : (step : ℚ) ≤ 360 := by exact_mod_cast hs2
  refine ⟨hn, hs1, hs2, hq, hiff, (hiff 360).2 (by omega), ?_, ?_, ?_, ?_⟩
  · rw [circleAngles_length step hs1]
    have e : 360 + step - step = 360 := by ring
    rw [e]
    omega
  · intro angleDegStart angleDegEnd hlo hhi
    exact arcLoop_returned env centerPos radiusMeter angleDegEnd step hs1 (by linarith) _
      angleDegStart hlo s (arc_fuel_enough _ _)
  · intro radiusNm angleDegStart angleDegEnd hok hs he
    exact paintArc_returned env centerPos radiusNm angleDegStart angleDegEnd fast hmin hle hmax
      hok hs he
  · intro angleDegStart angleDegEnd hfloat
    cases hflag : (arcLoop env centerPos radiusMeter angleDegEnd step
      (arcFuel angleDegStart angleDegEnd) angleDegStart s).2 with
    | true => exact Or.inl rfl
    | false =>
      exact Or.inr (arcLoop_not_left env centerPos radiusMeter angleDegEnd step hs1 hs2 _
        angleDegStart hfloat s (arc_fuel_enough _ _) hflag)

/-- Witness for C22 with the angles bounded: the circle of 100 nm and the arc from
0.1f to 90.1f degrees on the sample map. -/
theorem sampling_loops_step_and_termination_witness :
    (1 ≤ demoEnv.CIRCLE_MIN_POINTS ∧ demoEnv.CIRCLE_MIN_POINTS ≤ demoEnv.CIRCLE_MAX_POINTS ∧
      demoEnv.CIRCLE_MAX_POINTS ≤ 360) ∧
    ((-16777216 : ℚ) < 13421773 / 134217728 ∧ (11809587 / 131072 : ℚ) + 360 < 16777216) ∧
    (circleLoop demoEnv ⟨10, -10⟩ (demoEnv.nmToMeter 100) false
      (angleStep demoEnv.CIRCLE_MIN_POINTS demoEnv.CIRCLE_MAX_POINTS
        (demoEnv.getPixelIntForMeter (demoEnv.nmToMeter 100)) false) 360
      (angleStep demoEnv.CIRCLE_MIN_POINTS demoEnv.CIRCLE_MAX_POINTS
        (demoEnv.getPixelIntForMeter (demoEnv.nmToMeter 100)) false)
      (circleInitState demoEnv ⟨10, -10⟩ 100 false)).2 = true ∧
    (arcLoop demoEnv ⟨10, -10⟩ (demoEnv.nmToMeter 100) (11809587 / 131072)
      (angleStep demoEnv.CIRCLE_MIN_POINTS demoEnv.CIRCLE_MAX_POINTS
        (demoEnv.getPixelIntForMeter (demoEnv.nmToMeter 100)) false)
      (arcFuel (13421773 / 134217728) (11809587 / 131072)) (13421773 / 134217728)
      (circleInitState demoEnv ⟨10, -10⟩ 100 false)).2 = true :=
  have h := sampling_loops_step_and_termination demoEnv
    (demoEnv.getPixelIntForMeter (demoEnv.nmToMeter 100)) false ⟨10, -10⟩
    (demoEnv.nmToMeter 100) false (circleInitState demoEnv ⟨10, -10⟩ 100 false)
    (by norm_num [demoEnv]) (by norm_num [demoEnv]) (by norm_num [demoEnv])
  ⟨⟨by norm_num [demoEnv], by norm_num [demoEnv], by norm_num [demoEnv]⟩,
    ⟨by norm_num, by norm_num⟩,
    h.2.2.2.2.2.1,
    h.2.2.2.2.2.2.2.1 (13421773 / 134217728) (11809587 / 131072) (by norm_num) (by norm_num)⟩

end LittleNavmap
